import Mathlib

/-!
# Gomoku / Renju rule engine

A shallow embedding of `board.c` and `game.c`.

* `unsigned char` values are natural numbers below 256; an `int` expression that is
  passed where an `unsigned char` is expected goes through `to_uchar`.
* The grid is the list of its `size * size` bytes, row after row.  A read at an index
  outside the grid yields the byte the process memory holds there: that byte is not
  determined by the program, so it is taken from the parameter `heap`.
* `exit(code)` ends the call with the outcome `exit code s`, `s` being the state at
  that moment.  Allocation (`malloc`, `realloc`) is taken to succeed.
* The constants of `error-codes.h`, a header that is not among the sources, are the
  fields of the parameter `ec`.
-/

namespace Gomoku

/-! ## Constants of `board.h` and `game.h` -/

@[reducible] def EMPTY_INTERSECTION : Nat := 0
@[reducible] def BLACK_STONE : Nat := 1
@[reducible] def WHITE_STONE : Nat := 2
@[reducible] def GAME_FREESTYLE : Nat := 0
@[reducible] def GAME_RENJU : Nat := 1
@[reducible] def GAME_STATE_PLAYING : Nat := 0
@[reducible] def GAME_STATE_FORBIDDEN : Nat := 1
@[reducible] def GAME_STATE_STOPPED : Nat := 2
@[reducible] def GAME_STATE_FINISHED : Nat := 3

/-- The constants of `error-codes.h`.  The header is not among the sources, so the
values are left open: every definition that uses one takes them as a parameter. -/
structure error_codes where
  SUCCESS : Nat
  NULL_POINTER_ERR : Nat
  STONE_TYPE_ERR : Nat
  COORDINATE_ERR : Nat
  FORMAL_COORDINATE_ERR : Nat
  INPUT_ERR : Nat
  RESUME_ERR : Nat
deriving DecidableEq

/-- How a call that may terminate the process ends: it returns `a` leaving the state
`s`, or it calls `exit(code)` while the state is `s`. -/
inductive outcome (σ α : Type) where
  | ret (a : α) (s : σ)
  | exit (code : Nat) (s : σ)
deriving DecidableEq

/-! ## board.c -/

/-- The struct `board`: `size` is an `unsigned char`, `grid` the `size * size` bytes. -/
structure board where
  size : Nat
  grid : List Nat
deriving DecidableEq

/-- Conversion of an `int` to `unsigned char`. -/
def to_uchar (i : Int) : Nat := (i % 256).toNat

/-- The function `board_create`: every byte of the grid is set to `EMPTY_INTERSECTION`. -/
def board_create (size : Nat) : board :=
  { size := size, grid := List.replicate (size * size) EMPTY_INTERSECTION }

/-- The function `board_get`.  The guard is `>` (not `>=`), as in the source; the value
returned is an `unsigned char`. -/
def board_get (ec : error_codes) (heap : Nat → Nat) (b : board) (x y : Nat) : Nat :=
  if x > b.size ∨ y > b.size then ec.COORDINATE_ERR % 256
  else b.grid.getD (y * b.size + x) (heap (y * b.size + x) % 256)

/-- The function `board_set`.  A write at an index outside the grid does not change
the grid: the C code stores the byte behind the grid there, which happens only for
`x = size` in the last row or `y = size`; the statements below call `board_set` with
`x, y < size`, where the index is inside the grid. -/
def board_set (ec : error_codes) (b : board) (x y stone : Nat) : outcome board Unit :=
  if stone ≠ BLACK_STONE ∧ stone ≠ WHITE_STONE then outcome.exit ec.STONE_TYPE_ERR b
  else if x > b.size ∨ y > b.size then outcome.exit ec.COORDINATE_ERR b
  else outcome.ret () { b with grid := b.grid.set (y * b.size + x) stone }

/-- The loop of `board_is_full` over the bytes of the grid. -/
def board_is_full (b : board) : Bool :=
  (List.range (b.size * b.size)).all
    (fun i => decide (b.grid.getD i 0 ≠ EMPTY_INTERSECTION))

/-! ## game.c -/

/-- The struct `move`.  Its third field `stone` is never written by `game_place_stone`
and never read, so it is left out. -/
structure move where
  x : Nat
  y : Nat
deriving DecidableEq

/-- The struct `game`.  `moves` holds the first `moves_count` entries of the buffer, so
`moves_count` is `moves.length`. -/
structure game where
  board : board
  type : Nat
  stone : Nat
  state : Nat
  winner : Nat
  moves : List move
  moves_capacity : Nat
deriving DecidableEq

/-- The field `moves_count`. -/
def game.moves_count (g : game) : Nat := g.moves.length

/-- The function `game_create`. -/
def game_create (board_size game_type : Nat) : game :=
  { board := board_create board_size
    type := game_type
    stone := BLACK_STONE
    state := GAME_STATE_PLAYING
    winner := EMPTY_INTERSECTION
    moves := []
    moves_capacity := 16 }

/-- The list `lo, lo + 1, ...` of `n` consecutive integers. -/
def int_range (lo : Int) : Nat → List Int
  | 0 => []
  | n + 1 => lo :: int_range (lo + 1) n

/-- The values of `i` in `for (i = lo; i <= hi; i++)`. -/
def for_range (lo hi : Int) : List Int :=
  int_range lo (hi + 1 - lo).toNat

/-- One of the four loops of `game_check_win_freestyle` and `game_check_win_renju`,
started with the given `count`: `skip i` is the test before `continue`, `cell i` the
coordinates handed to `board_get`.  The result is `true` when the loop executes
`return true`, `false` when it runs to its end. -/
def win_loop (ec : error_codes) (heap : Nat → Nat) (b : board) (stone : Nat)
    (skip : Int → Bool) (cell : Int → Int × Int) : List Int → Nat → Bool
  | [], _ => false
  | i :: rest, count =>
    if skip i then win_loop ec heap b stone skip cell rest count
    else
      let count' :=
        if board_get ec heap b (to_uchar (cell i).1) (to_uchar (cell i).2) = stone
        then count + 1 else 0
      if count' = 5 then true
      else win_loop ec heap b stone skip cell rest count'

/-- One of the four loops of `is_overline`: the test `count == 6` sits inside the
branch that increments `count`. -/
def overline_loop (ec : error_codes) (heap : Nat → Nat) (b : board) (stone : Nat)
    (skip : Int → Bool) (cell : Int → Int × Int) : List Int → Nat → Bool
  | [], _ => false
  | i :: rest, count =>
    if skip i then overline_loop ec heap b stone skip cell rest count
    else if board_get ec heap b (to_uchar (cell i).1) (to_uchar (cell i).2) = stone then
      if count + 1 = 6 then true
      else overline_loop ec heap b stone skip cell rest (count + 1)
    else overline_loop ec heap b stone skip cell rest 0

/-- One of the four loops of `is_open_four`, started with the given `count` and
`totalIntersections`; the result is the value of `totalIntersections` at the end.
`after i` and `before i` are the (int) coordinates of the two cells tested when
`count == 4`; `&&` evaluates the second read only when the first one is empty. -/
def open_four_loop (ec : error_codes) (heap : Nat → Nat) (b : board) (stone : Nat)
    (skip : Int → Bool) (cell after before : Int → Int × Int) :
    List Int → Nat → Nat → Nat
  | [], _, total => total
  | i :: rest, count, total =>
    if skip i then open_four_loop ec heap b stone skip cell after before rest count total
    else if board_get ec heap b (to_uchar (cell i).1) (to_uchar (cell i).2) = stone then
      if count + 1 = 4 then
        if board_get ec heap b (to_uchar (after i).1) (to_uchar (after i).2)
              = EMPTY_INTERSECTION
            ∧ board_get ec heap b (to_uchar (before i).1) (to_uchar (before i).2)
              = EMPTY_INTERSECTION then
          open_four_loop ec heap b stone skip cell after before rest (count + 1) (total + 1)
        else open_four_loop ec heap b stone skip cell after before rest (count + 1) total
      else open_four_loop ec heap b stone skip cell after before rest (count + 1) total
    else open_four_loop ec heap b stone skip cell after before rest 0 total

/-- The `continue` test of the horizontal and of the vertical loops. -/
def skip_line (size : Nat) : Int → Bool :=
  fun i => decide (i < 0 ∨ i ≥ (size : Int))

/-- The `continue` test of the loops along the diagonal `(x + k, y + k)`. -/
def skip_diag (size x y : Nat) : Int → Bool :=
  fun k => decide ((x : Int) + k < 0 ∨ (x : Int) + k ≥ (size : Int)
    ∨ (y : Int) + k < 0 ∨ (y : Int) + k ≥ (size : Int))

/-- The `continue` test of the loops along the other diagonal `(x + l, y - l)`. -/
def skip_anti (size x y : Nat) : Int → Bool :=
  fun l => decide ((x : Int) + l < 0 ∨ (x : Int) + l ≥ (size : Int)
    ∨ (y : Int) - l < 0 ∨ (y : Int) - l ≥ (size : Int))

/-- The function `is_overline`. -/
def is_overline (ec : error_codes) (heap : Nat → Nat) (g : game) (x y : Nat) : Bool :=
  if g.stone = WHITE_STONE then false
  -- check horizontal
  else if overline_loop ec heap g.board g.stone (skip_line g.board.size)
      (fun i => (i, (y : Int))) (for_range ((x : Int) - 4) ((x : Int) + 4)) 0 then true
  -- check vertical
  else if overline_loop ec heap g.board g.stone (skip_line g.board.size)
      (fun j => ((x : Int), j)) (for_range ((y : Int) - 4) ((y : Int) + 4)) 0 then true
  -- check diagonal
  else if overline_loop ec heap g.board g.stone (skip_diag g.board.size x y)
      (fun k => ((x : Int) + k, (y : Int) + k)) (for_range (-4) 4) 0 then true
  -- check diagonal (other way)
  else if overline_loop ec heap g.board g.stone (skip_anti g.board.size x y)
      (fun l => ((x : Int) + l, (y : Int) - l)) (for_range (-4) 4) 0 then true
  else false

/-- The function `is_open_four`: `totalIntersections` is threaded through the four
loops, `count` is reset to 0 before each. -/
def is_open_four (ec : error_codes) (heap : Nat → Nat) (g : game) (x y : Nat) : Bool :=
  if g.stone = WHITE_STONE then false
  else
    -- horizontal
    let t1 := open_four_loop ec heap g.board g.stone (skip_line g.board.size)
      (fun i => (i, (y : Int))) (fun i => (i + 1, (y : Int))) (fun i => (i - 5, (y : Int)))
      (for_range ((x : Int) - 4) ((x : Int) + 4)) 0 0
    -- vertical
    let t2 := open_four_loop ec heap g.board g.stone (skip_line g.board.size)
      (fun j => ((x : Int), j)) (fun j => ((x : Int), j + 1)) (fun j => ((x : Int), j - 5))
      (for_range ((y : Int) - 4) ((y : Int) + 4)) 0 t1
    -- diagonal
    let t3 := open_four_loop ec heap g.board g.stone (skip_diag g.board.size x y)
      (fun i => ((x : Int) + i, (y : Int) + i))
      (fun i => ((x : Int) + i + 1, (y : Int) + i + 1))
      (fun i => ((x : Int) + i - 5, (y : Int) + i - 5))
      (for_range (-4) 4) 0 t2
    -- diagonal (other way)
    let t4 := open_four_loop ec heap g.board g.stone (skip_anti g.board.size x y)
      (fun i => ((x : Int) + i, (y : Int) - i))
      (fun i => ((x : Int) + i + 1, (y : Int) - i - 1))
      (fun i => ((x : Int) + i - 5, (y : Int) - i + 5))
      (for_range (-4) 4) 0 t3
    decide (t4 > 1)

/-- The function `game_check_draw`. -/
def game_check_draw (g : game) : Bool :=
  decide (g.board.size * g.board.size = g.moves_count)

/-- The function `game_check_win_freestyle`. -/
def game_check_win_freestyle (ec : error_codes) (heap : Nat → Nat) (g : game)
    (x y : Nat) : Bool :=
  -- check horizontal
  if win_loop ec heap g.board g.stone (skip_line g.board.size)
      (fun i => (i, (y : Int))) (for_range ((x : Int) - 4) ((x : Int) + 4)) 0 then true
  -- check vertical
  else if win_loop ec heap g.board g.stone (skip_line g.board.size)
      (fun j => ((x : Int), j)) (for_range ((y : Int) - 4) ((y : Int) + 4)) 0 then true
  -- check diagonal
  else if win_loop ec heap g.board g.stone (skip_diag g.board.size x y)
      (fun k => ((x : Int) + k, (y : Int) + k)) (for_range (-4) 4) 0 then true
  -- check diagonal (other way)
  else if win_loop ec heap g.board g.stone (skip_anti g.board.size x y)
      (fun l => ((x : Int) + l, (y : Int) - l)) (for_range (-4) 4) 0 then true
  else false

/-- The function `game_check_win_renju`: the same four loops, each of which also
stores `g->winner = g->stone` before `return true`. -/
def game_check_win_renju (ec : error_codes) (heap : Nat → Nat) (g : game)
    (x y : Nat) : Bool × game :=
  if win_loop ec heap g.board g.stone (skip_line g.board.size)
      (fun i => (i, (y : Int))) (for_range ((x : Int) - 4) ((x : Int) + 4)) 0
    then (true, { g with winner := g.stone })
  else if win_loop ec heap g.board g.stone (skip_line g.board.size)
      (fun j => ((x : Int), j)) (for_range ((y : Int) - 4) ((y : Int) + 4)) 0
    then (true, { g with winner := g.stone })
  else if win_loop ec heap g.board g.stone (skip_diag g.board.size x y)
      (fun k => ((x : Int) + k, (y : Int) + k)) (for_range (-4) 4) 0
    then (true, { g with winner := g.stone })
  else if win_loop ec heap g.board g.stone (skip_anti g.board.size x y)
      (fun l => ((x : Int) + l, (y : Int) - l)) (for_range (-4) 4) 0
    then (true, { g with winner := g.stone })
  else (false, g)

/-- The function `game_check_win`. -/
def game_check_win (ec : error_codes) (heap : Nat → Nat) (g : game) (x y : Nat) :
    Bool × game :=
  if g.type = GAME_FREESTYLE then
    if game_check_win_freestyle ec heap g x y then (true, g) else (false, g)
  else if g.type = GAME_RENJU then
    if (game_check_win_renju ec heap g x y).1
    then (true, (game_check_win_renju ec heap g x y).2)
    else (false, (game_check_win_renju ec heap g x y).2)
  else (false, g)

/-- The statements shared by both branches of `game_place_stone` after `board_set`:
the move is stored at `moves[moves_count]`, `moves_count` is incremented and the buffer
is doubled when it is full. -/
def record_move (g : game) (b : board) (x y : Nat) : game :=
  let moves := g.moves ++ [{ x := x, y := y }]
  { g with
    board := b
    moves := moves
    moves_capacity :=
      if moves.length = g.moves_capacity then g.moves_capacity * 2 else g.moves_capacity }

/-- The other colour, `(g->stone == BLACK_STONE) ? WHITE_STONE : BLACK_STONE`. -/
def toggle (stone : Nat) : Nat :=
  if stone = BLACK_STONE then WHITE_STONE else BLACK_STONE

/-- The function `game_place_stone`. -/
def game_place_stone (ec : error_codes) (heap : Nat → Nat) (g : game) (x y : Nat) :
    outcome game Bool :=
  if g.state ≠ GAME_STATE_PLAYING then outcome.exit ec.INPUT_ERR g
  else if g.type = GAME_FREESTYLE then
    match board_set ec g.board x y g.stone with
    | outcome.exit code b => outcome.exit code { g with board := b }
    | outcome.ret _ b =>
      let g1 := record_move g b x y
      if (game_check_win ec heap g1 x y).1 then
        let g2 := (game_check_win ec heap g1 x y).2
        outcome.ret true { g2 with state := GAME_STATE_FINISHED, winner := g2.stone }
      else
        let g2 := (game_check_win ec heap g1 x y).2
        if game_check_draw g2 then
          outcome.ret true { g2 with state := GAME_STATE_FINISHED }
        else outcome.ret true { g2 with stone := toggle g2.stone }
  else if g.type = GAME_RENJU then
    match board_set ec g.board x y g.stone with
    | outcome.exit code b => outcome.exit code { g with board := b }
    | outcome.ret _ b =>
      let g1 := record_move g b x y
      if is_overline ec heap g1 x y then
        outcome.ret true { g1 with state := GAME_STATE_FORBIDDEN, winner := WHITE_STONE }
      else if (game_check_win ec heap g1 x y).1 then
        let g2 := (game_check_win ec heap g1 x y).2
        outcome.ret true { g2 with state := GAME_STATE_FINISHED }
      else
        let g2 := (game_check_win ec heap g1 x y).2
        if game_check_draw g2 then
          outcome.ret true { g2 with state := GAME_STATE_FINISHED }
        else if is_open_four ec heap g2 x y then
          outcome.ret true { g2 with state := GAME_STATE_FORBIDDEN, winner := WHITE_STONE }
        else outcome.ret true { g2 with stone := toggle g2.stone }
  else outcome.ret false g

/-! ## Notions used to state the properties -/

/-- The calls `game_place_stone(g, m.x, m.y)` for the moves of a list, in order, as a
driver issues them; a call that exits ends the sequence. -/
def place_all (ec : error_codes) (heap : Nat → Nat) : game → List move → outcome game Bool
  | g, [] => outcome.ret true g
  | g, m :: ms =>
    match game_place_stone ec heap g m.x m.y with
    | outcome.ret _ g' => place_all ec heap g' ms
    | outcome.exit code s => outcome.exit code s

/-- The coordinates `(cx, cy)` lie on the board. -/
def on_board (b : board) (cx cy : Int) : Prop :=
  0 ≤ cx ∧ cx < (b.size : Int) ∧ 0 ≤ cy ∧ cy < (b.size : Int)

instance (b : board) (cx cy : Int) : Decidable (on_board b cx cy) := by
  unfold on_board; infer_instance

/-- The content of the cell `(cx, cy)`, `none` when that is not a cell of the board. -/
def cell_at (b : board) (cx cy : Int) : Option Nat :=
  if on_board b cx cy then b.grid[cy.toNat * b.size + cx.toNat]? else none

/-- The four directions of a line: horizontal, vertical and the two diagonals. -/
def directions : List (Int × Int) := [(1, 0), (0, 1), (1, 1), (1, -1)]

/-- Along direction `d` there are `n` consecutive cells of the board, `(x, y)` being the
one at position `s` among them, that all hold the colour `c`: a contiguous run of `n` or
more stones of colour `c` through `(x, y)`. -/
def has_run (b : board) (c : Nat) (x y : Int) (d : Int × Int) (n : Nat) : Prop :=
  ∃ s : Nat, s < n ∧ ∀ t : Nat, t < n →
    cell_at b (x + ((t : Int) - (s : Int)) * d.1) (y + ((t : Int) - (s : Int)) * d.2) = some c

instance (b : board) (c : Nat) (x y : Int) (d : Int × Int) (n : Nat) :
    Decidable (has_run b c x y d n) := by
  unfold has_run; infer_instance

/-- Some direction has a contiguous run of `n` or more stones of colour `c` through
`(x, y)`. -/
def run_through (b : board) (c : Nat) (x y : Nat) (n : Nat) : Prop :=
  ∃ d ∈ directions, has_run b c (x : Int) (y : Int) d n

instance (b : board) (c : Nat) (x y : Nat) (n : Nat) : Decidable (run_through b c x y n) := by
  unfold run_through; infer_instance

/-- What the code relies on in a `game`: the fields fit their C types, the grid has
`size * size` bytes, `stone` is a colour and the buffer has room for one more move. -/
structure game.wf (g : game) : Prop where
  size_lt : g.board.size < 256
  grid_len : g.board.grid.length = g.board.size * g.board.size
  stone_ok : g.stone = BLACK_STONE ∨ g.stone = WHITE_STONE
  room : g.moves.length < g.moves_capacity

instance (g : game) : Decidable g.wf :=
  decidable_of_iff (g.board.size < 256 ∧ g.board.grid.length = g.board.size * g.board.size
      ∧ (g.stone = BLACK_STONE ∨ g.stone = WHITE_STONE) ∧ g.moves.length < g.moves_capacity)
    ⟨fun h => ⟨h.1, h.2.1, h.2.2.1, h.2.2.2⟩, fun h => ⟨h.1, h.2, h.3, h.4⟩⟩

/-- The games reached from `game_create` by calls of `game_place_stone` made in state
`Playing` on cells of the board that are empty. -/
inductive reachable (ec : error_codes) (heap : Nat → Nat) : game → Prop
  | create (board_size game_type : Nat) (hsize : board_size < 256)
      (htype : game_type < 256) : reachable ec heap (game_create board_size game_type)
  | place (g g' : game) (x y : Nat) (r : Bool) (hg : reachable ec heap g)
      (hstate : g.state = GAME_STATE_PLAYING)
      (hx : x < g.board.size) (hy : y < g.board.size)
      (hempty : cell_at g.board x y = some EMPTY_INTERSECTION)
      (hplace : game_place_stone ec heap g x y = outcome.ret r g') : reachable ec heap g'

/-! ### The loops on classes of indices -/

/-- Class of a loop index: `none` when the loop skips it, otherwise whether the cell read
holds the stone looked for. -/
def classify (ec : error_codes) (heap : Nat → Nat) (b : board) (stone : Nat)
    (skip : Int → Bool) (cell : Int → Int × Int) (i : Int) : Option Bool :=
  if skip i then none
  else some (decide (board_get ec heap b (to_uchar (cell i).1) (to_uchar (cell i).2) = stone))

/-- Class of the cell at offset `k` from `(x, y)` along `d`, read off the board. -/
def line_cls (b : board) (stone : Nat) (x y : Int) (d : Int × Int) (k : Int) : Option Bool :=
  match cell_at b (x + k * d.1) (y + k * d.2) with
  | none => none
  | some v => some (decide (v = stone))

/-- The counting loop on classes: `true` as soon as `count` reaches `T`. -/
def count_loop (T : Nat) (cls : Int → Option Bool) : List Int → Nat → Bool
  | [], _ => false
  | i :: rest, count =>
    match cls i with
    | none => count_loop T cls rest count
    | some true => if count + 1 = T then true else count_loop T cls rest (count + 1)
    | some false => count_loop T cls rest 0

/-- The loop of `is_open_four` on classes; `opn i` stands for the test of the two cells
beyond the ends. -/
def four_loop (cls : Int → Option Bool) (opn : Int → Bool) : List Int → Nat → Nat → Nat
  | [], _, total => total
  | i :: rest, count, total =>
    match cls i with
    | none => four_loop cls opn rest count total
    | some true =>
      if count + 1 = 4 then
        if opn i then four_loop cls opn rest (count + 1) (total + 1)
        else four_loop cls opn rest (count + 1) total
      else four_loop cls opn rest (count + 1) total
    | some false => four_loop cls opn rest 0 total

/-- The value of `count` when the loop of `is_open_four` ends. -/
def count_after (cls : Int → Option Bool) : List Int → Nat → Nat
  | [], count => count
  | i :: rest, count =>
    match cls i with
    | none => count_after cls rest count
    | some true => count_after cls rest (count + 1)
    | some false => count_after cls rest 0

/-- The board with `stone` written at the cell `(x, y)`. -/
def with_stone (b : board) (x y stone : Nat) : board :=
  { b with grid := b.grid.set (y * b.size + x) stone }

/-- The game after the first two steps of a placement: stone written, move recorded. -/
def stone_placed (g : game) (x y : Nat) : game :=
  record_move g (with_stone g.board x y g.stone) x y

/-- The game a Freestyle placement at `(x, y)` leaves, as the rules describe it: win by a
run of five through the stone, else draw on a full board, else the turn passes. -/
def freestyle_next (g : game) (x y : Nat) : game :=
  if run_through (stone_placed g x y).board g.stone x y 5 then
    { stone_placed g x y with state := GAME_STATE_FINISHED, winner := g.stone }
  else if game_check_draw (stone_placed g x y) = true then
    { stone_placed g x y with state := GAME_STATE_FINISHED }
  else { stone_placed g x y with stone := toggle g.stone }

/-- The game a Renju placement at `(x, y)` leaves, with the two forbidden-move checks of
the code kept as they are. -/
def renju_next (ec : error_codes) (heap : Nat → Nat) (g : game) (x y : Nat) : game :=
  if is_overline ec heap (stone_placed g x y) x y = true then
    { stone_placed g x y with state := GAME_STATE_FORBIDDEN, winner := WHITE_STONE }
  else if run_through (stone_placed g x y).board g.stone x y 5 then
    { stone_placed g x y with state := GAME_STATE_FINISHED, winner := g.stone }
  else if game_check_draw (stone_placed g x y) = true then
    { stone_placed g x y with state := GAME_STATE_FINISHED }
  else if is_open_four ec heap (stone_placed g x y) x y = true then
    { stone_placed g x y with state := GAME_STATE_FORBIDDEN, winner := WHITE_STONE }
  else { stone_placed g x y with stone := toggle g.stone }

/-- The test made by `is_open_four` when `count == 4`: both cells read are empty. -/
def open_test (ec : error_codes) (heap : Nat → Nat) (b : board)
    (after before : Int → Int × Int) (i : Int) : Bool :=
  decide (board_get ec heap b (to_uchar (after i).1) (to_uchar (after i).2)
      = EMPTY_INTERSECTION
    ∧ board_get ec heap b (to_uchar (before i).1) (to_uchar (before i).2)
      = EMPTY_INTERSECTION)

/-- The number of times the loop of `is_open_four` for direction `d` increments
`totalIntersections`, the loop index being the offset `k` from `(x, y)`: the two cells
the code reads when `count == 4` are those at offsets `k + 1` and `k - 5`. -/
def open_fours (ec : error_codes) (heap : Nat → Nat) (b : board) (stone : Nat)
    (x y : Int) (d : Int × Int) : Nat :=
  four_loop (line_cls b stone x y d)
    (open_test ec heap b (fun k => (x + (k + 1) * d.1, y + (k + 1) * d.2))
      (fun k => (x + (k - 5) * d.1, y + (k - 5) * d.2)))
    (for_range (-4) 4) 0 0

/-- The cell `(cx, cy)` is not known to hold a stone: it is empty or off the board. -/
def open_upper (b : board) (cx cy : Int) : Bool :=
  match cell_at b cx cy with
  | some v => decide (v = EMPTY_INTERSECTION)
  | none => true

/-- An upper bound of `open_fours` that depends on the cells of the board only. -/
def open_fours_upper (b : board) (stone : Nat) (x y : Int) (d : Int × Int) : Nat :=
  four_loop (line_cls b stone x y d)
    (fun k => open_upper b (x + (k + 1) * d.1) (y + (k + 1) * d.2)
      && open_upper b (x + (k - 5) * d.1) (y + (k - 5) * d.2))
    (for_range (-4) 4) 0 0

/-- The five cells that start at `(x, y)` and follow direction `d` all hold `c`. -/
def five_from (b : board) (c : Nat) (x y : Int) (d : Int × Int) : Prop :=
  ∀ t : Nat, t < 5 → cell_at b (x + (t : Int) * d.1) (y + (t : Int) * d.2) = some c

/-- No row, column or diagonal of the board has five consecutive stones of one colour. -/
def no_five (b : board) : Prop :=
  ∀ (c : Nat) (x y : Int) (d : Int × Int), d ∈ directions → c ≠ EMPTY_INTERSECTION →
    ¬ five_from b c x y d

/-- The number of cells of the grid that hold a stone. -/
def stones (b : board) : Nat :=
  b.grid.countP (fun v => decide (v ≠ EMPTY_INTERSECTION))

/-- Facts that hold of every game reached from `game_create` by placements. -/
structure game.inv (g : game) : Prop where
  wf : g.wf
  winner_none : g.state = GAME_STATE_PLAYING → g.winner = EMPTY_INTERSECTION
  count : g.moves_count = stones g.board
  no_run : g.state = GAME_STATE_PLAYING → no_five g.board

/-- Direction `d` has an open four of colour `c` through `(x, y)`, in the words of the
rule: the run of `c` through `(x, y)` has exactly four stones, `(x, y)` being the one at
position `s`, and the two cells next to its two ends are on the board and empty. -/
def open_four_at (b : board) (c : Nat) (x y : Int) (d : Int × Int) : Prop :=
  ∃ s : Nat, s < 4 ∧
    (∀ t : Nat, t < 4 →
      cell_at b (x + ((t : Int) - (s : Int)) * d.1) (y + ((t : Int) - (s : Int)) * d.2)
        = some c) ∧
    cell_at b (x + (-1 - (s : Int)) * d.1) (y + (-1 - (s : Int)) * d.2)
      = some EMPTY_INTERSECTION ∧
    cell_at b (x + (4 - (s : Int)) * d.1) (y + (4 - (s : Int)) * d.2)
      = some EMPTY_INTERSECTION

instance (b : board) (c : Nat) (x y : Int) (d : Int × Int) :
    Decidable (open_four_at b c x y d) := by
  unfold open_four_at; infer_instance

/-- At least two of the four directions have an open four of colour `c` through `(x, y)`. -/
def double_open_four (b : board) (c : Nat) (x y : Nat) : Prop :=
  ∃ d1 ∈ directions, ∃ d2 ∈ directions, d1 ≠ d2 ∧
    open_four_at b c (x : Int) (y : Int) d1 ∧ open_four_at b c (x : Int) (y : Int) d2

instance (b : board) (c : Nat) (x y : Nat) : Decidable (double_open_four b c x y) := by
  unfold double_open_four; infer_instance

/-! ### Concrete inputs -/

/-- Sample values for the constants of `error-codes.h`. -/
def sample_codes : error_codes :=
  { SUCCESS := 0, NULL_POINTER_ERR := 100, STONE_TYPE_ERR := 101, COORDINATE_ERR := 102,
    FORMAL_COORDINATE_ERR := 103, INPUT_ERR := 104, RESUME_ERR := 105 }

/-- Memory outside the grid that holds zero bytes. -/
def zero_heap : Nat → Nat := fun _ => 0

/-- The moves A1, B1, A2, B2, A3, B3, A4, B4, A5 (column letter = `x`, row number = `y + 1`). -/
def five_in_column_A : List move :=
  [⟨0, 0⟩, ⟨1, 0⟩, ⟨0, 1⟩, ⟨1, 1⟩, ⟨0, 2⟩, ⟨1, 2⟩, ⟨0, 3⟩, ⟨1, 3⟩, ⟨0, 4⟩]

/-- A 5 x 5 game of the given type in state `Playing`, Black to move, with four black
stones in column 0 (rows 0 to 3) and four white stones in column 1. -/
def four_in_column (game_type : Nat) : game :=
  { board := { size := 5, grid := [1, 2, 0, 0, 0, 1, 2, 0, 0, 0, 1, 2, 0, 0, 0,
                                   1, 2, 0, 0, 0, 0, 0, 0, 0, 0] }
    type := game_type
    stone := BLACK_STONE
    state := GAME_STATE_PLAYING
    winner := EMPTY_INTERSECTION
    moves := [⟨0, 0⟩, ⟨1, 0⟩, ⟨0, 1⟩, ⟨1, 1⟩, ⟨0, 2⟩, ⟨1, 2⟩, ⟨0, 3⟩, ⟨1, 3⟩]
    moves_capacity := 16 }

/-- The game a sequence of placements leaves (the game at the exit when a call exits). -/
def game_after (ec : error_codes) (heap : Nat → Nat) (g : game) (ms : List move) : game :=
  match place_all ec heap g ms with
  | outcome.ret _ g' => g'
  | outcome.exit _ g' => g'

/-- Twelve moves of a 15 x 15 Renju game: Black E8 (x = 4, y = 7), F8, G8 in row 8 and
H5, H6, H7 in column H (x = 7); White C8 (x = 2, y = 7) and five stones in row 1. -/
def double_four_moves : List move :=
  [⟨4, 7⟩, ⟨2, 7⟩, ⟨5, 7⟩, ⟨0, 0⟩, ⟨6, 7⟩, ⟨2, 0⟩, ⟨7, 4⟩, ⟨4, 0⟩, ⟨7, 5⟩, ⟨6, 0⟩, ⟨7, 6⟩,
    ⟨8, 0⟩]

/-- A 15 x 15 Renju game with Black to move, written row by row from `y = 0`: black stones
at `(4..6, 7)` and `(7, 4..6)`, white stones at `(2, 7)` and in row 0.  It is the game
`double_four_moves` leads to; a stone at `(7, 7)` completes a row `(4..7, 7)` and a column
`(7, 4..7)` of four black stones. -/
def double_four_game : game :=
  { board :=
      { size := 15
        grid := [
        2, 0, 2, 0, 2, 0, 2, 0, 2, 0, 0, 0, 0, 0, 0,
        0, 0, 0, 0, 0, 0, 0, 0, 0, 0, 0, 0, 0, 0, 0,
        0, 0, 0, 0, 0, 0, 0, 0, 0, 0, 0, 0, 0, 0, 0,
        0, 0, 0, 0, 0, 0, 0, 0, 0, 0, 0, 0, 0, 0, 0,
        0, 0, 0, 0, 0, 0, 0, 1, 0, 0, 0, 0, 0, 0, 0,
        0, 0, 0, 0, 0, 0, 0, 1, 0, 0, 0, 0, 0, 0, 0,
        0, 0, 0, 0, 0, 0, 0, 1, 0, 0, 0, 0, 0, 0, 0,
        0, 0, 2, 0, 1, 1, 1, 0, 0, 0, 0, 0, 0, 0, 0,
        0, 0, 0, 0, 0, 0, 0, 0, 0, 0, 0, 0, 0, 0, 0,
        0, 0, 0, 0, 0, 0, 0, 0, 0, 0, 0, 0, 0, 0, 0,
        0, 0, 0, 0, 0, 0, 0, 0, 0, 0, 0, 0, 0, 0, 0,
        0, 0, 0, 0, 0, 0, 0, 0, 0, 0, 0, 0, 0, 0, 0,
        0, 0, 0, 0, 0, 0, 0, 0, 0, 0, 0, 0, 0, 0, 0,
        0, 0, 0, 0, 0, 0, 0, 0, 0, 0, 0, 0, 0, 0, 0,
        0, 0, 0, 0, 0, 0, 0, 0, 0, 0, 0, 0, 0, 0, 0 ] }
    type := GAME_RENJU
    stone := BLACK_STONE
    state := GAME_STATE_PLAYING
    winner := EMPTY_INTERSECTION
    moves := double_four_moves
    moves_capacity := 16 }

/-- Every move of the list is made in state `Playing` on an empty cell of the board, and
every call returns. -/
def legal_moves (ec : error_codes) (heap : Nat → Nat) : game → List move → Bool
  | _, [] => true
  | g, m :: ms =>
    decide (g.state = GAME_STATE_PLAYING ∧ m.x < g.board.size ∧ m.y < g.board.size
        ∧ cell_at g.board m.x m.y = some EMPTY_INTERSECTION)
      && match game_place_stone ec heap g m.x m.y with
        | outcome.ret _ g' => legal_moves ec heap g' ms
        | outcome.exit _ _ => false

/-- Ten moves of a 7 x 7 Renju game: Black at `(0, 0)`, `(1, 0)`, `(2, 0)`, `(4, 0)`,
`(5, 0)`; White in rows 2 and 4. -/
def split_five_moves : List move :=
  [⟨0, 0⟩, ⟨0, 2⟩, ⟨1, 0⟩, ⟨2, 2⟩, ⟨2, 0⟩, ⟨4, 2⟩, ⟨4, 0⟩, ⟨6, 2⟩, ⟨5, 0⟩, ⟨0, 4⟩]

/-- The 7 x 7 Renju game after `split_five_moves`: Black is to move, and a stone at
`(3, 0)` joins the black stones of row 0 into a run of six. -/
def split_five_game : game :=
  game_after sample_codes zero_heap (game_create 7 GAME_RENJU) split_five_moves

/-! ### Coordinate translation of board.c -/

/-- The character constant `'A'`. -/
@[reducible] def CHAR_A : Int := 65

/-- The character constant `'0'`. -/
@[reducible] def CHAR_0 : Int := 48

/-- The character constant `'1'`. -/
@[reducible] def CHAR_1 : Int := 49

/-- Conversion of an `int` to `char`, taken as a signed 8-bit type. -/
def to_char (i : Int) : Int := (i + 128) % 256 - 128

/-- The function `board_formal_coord`: the value returned (an `unsigned char`) and the
three characters stored in `formal_coord`, `none` when nothing is stored. -/
def board_formal_coord (ec : error_codes) (b : board) (x y : Nat) : Nat × Option (List Int) :=
  if x ≥ b.size ∨ y ≥ b.size then (ec.COORDINATE_ERR % 256, none)
  else (ec.SUCCESS % 256, some [to_char (CHAR_A + x), to_char (CHAR_0 + y), 0])

/-- The character `formal_coord[i]` of a C string given by its characters before the
terminating NUL. -/
def char_at (s : List Int) (i : Nat) : Int := s.getD i 0

/-- The function `board_coord`: the value returned and the pair stored in `*x`, `*y`,
`none` when nothing is stored. -/
def board_coord (ec : error_codes) (b : board) (formal_coord : List Int) :
    Nat × Option (Nat × Nat) :=
  if char_at formal_coord 0 < CHAR_A ∨ char_at formal_coord 0 > CHAR_A + (b.size : Int) - 1 then
    (ec.FORMAL_COORDINATE_ERR % 256, none)
  else if char_at formal_coord 1 < CHAR_0
      ∨ char_at formal_coord 1 > CHAR_0 + (b.size : Int) - 1 then
    (ec.FORMAL_COORDINATE_ERR % 256, none)
  else (ec.SUCCESS % 256,
    some (to_uchar (char_at formal_coord 0 - CHAR_A), to_uchar (char_at formal_coord 1 - CHAR_0)))

/-! ### Notions for the invariants of the history -/

/-- The content of the cell of the last move of the history. -/
def last_stone (g : game) : Option Nat :=
  match g.moves.getLast? with
  | some m => cell_at g.board (m.x : Int) (m.y : Int)
  | none => none

/-- The colour of the stone of ply `i`: Black for even `i`, White for odd `i`. -/
def ply_colour (i : Nat) : Nat :=
  if i % 2 = 0 then BLACK_STONE else WHITE_STONE

/-- The history agrees with the board and with the turn. -/
structure game.hist (g : game) : Prop where
  cells : ∀ (i : Nat) (m : move), g.moves[i]? = some m →
    cell_at g.board (m.x : Int) (m.y : Int) = some (ply_colour i)
  turn : g.state = GAME_STATE_PLAYING → (g.stone = BLACK_STONE ↔ g.moves_count % 2 = 0)

/-- What the state and the winner of a game say about each other. -/
structure game.consistent (g : game) : Prop where
  states : g.state = GAME_STATE_PLAYING ∨ g.state = GAME_STATE_FORBIDDEN
    ∨ g.state = GAME_STATE_FINISHED
  playing : g.state = GAME_STATE_PLAYING → g.winner = EMPTY_INTERSECTION
  forbidden : g.state = GAME_STATE_FORBIDDEN →
    g.type = GAME_RENJU ∧ g.stone = BLACK_STONE ∧ last_stone g = some BLACK_STONE
      ∧ g.winner = WHITE_STONE
  finished : g.state = GAME_STATE_FINISHED →
    (g.winner = EMPTY_INTERSECTION ∧ board_is_full g.board = true)
    ∨ ((g.winner = BLACK_STONE ∨ g.winner = WHITE_STONE) ∧ last_stone g = some g.winner)

/-! ### Reads that stay inside the grid -/

/-- The value `board_get` returns when it reads a byte of the grid: `none` when the guard
rejects the coordinates or the index `y * size + x` is outside the grid. -/
def grid_read (b : board) (x y : Nat) : Option Nat :=
  if x > b.size ∨ y > b.size then none else b.grid[y * b.size + x]?

/-- A lower bound of `open_fours` that depends on the grid only: the two reads made when
`count == 4` both hit an empty byte of the grid. -/
def open_fours_lower (b : board) (stone : Nat) (x y : Int) (d : Int × Int) : Nat :=
  four_loop (line_cls b stone x y d)
    (fun k => decide
      (grid_read b (to_uchar (x + (k + 1) * d.1)) (to_uchar (y + (k + 1) * d.2))
          = some EMPTY_INTERSECTION
        ∧ grid_read b (to_uchar (x + (k - 5) * d.1)) (to_uchar (y + (k - 5) * d.2))
          = some EMPTY_INTERSECTION))
    (for_range (-4) 4) 0 0

/-- Direction `d` has a run of exactly four stones of colour `c` through `(x, y)`, `(x, y)`
at position `s` of it, and the two cells next to its ends are cells of the board. -/
def four_inside_board (b : board) (c : Nat) (x y : Int) (d : Int × Int) : Prop :=
  ∃ s : Nat, s < 4 ∧
    (∀ t : Nat, t < 4 →
      cell_at b (x + ((t : Int) - (s : Int)) * d.1) (y + ((t : Int) - (s : Int)) * d.2)
        = some c) ∧
    on_board b (x + (-1 - (s : Int)) * d.1) (y + (-1 - (s : Int)) * d.2) ∧
    on_board b (x + (4 - (s : Int)) * d.1) (y + (4 - (s : Int)) * d.2) ∧
    cell_at b (x + (-1 - (s : Int)) * d.1) (y + (-1 - (s : Int)) * d.2) ≠ some c ∧
    cell_at b (x + (4 - (s : Int)) * d.1) (y + (4 - (s : Int)) * d.2) ≠ some c

instance (b : board) (c : Nat) (x y : Int) (d : Int × Int) :
    Decidable (four_inside_board b c x y d) := by
  unfold four_inside_board; infer_instance

/-- Twelve moves of a 15 x 15 Renju game: Black at `(11..13, 7)` and `(14, 4..6)`, White
in row 0. -/
def edge_four_moves : List move :=
  [⟨11, 7⟩, ⟨0, 0⟩, ⟨12, 7⟩, ⟨2, 0⟩, ⟨13, 7⟩, ⟨4, 0⟩, ⟨14, 4⟩, ⟨6, 0⟩, ⟨14, 5⟩, ⟨8, 0⟩,
    ⟨14, 6⟩, ⟨10, 0⟩]

/-- A 15 x 15 Renju game with Black to move, written row by row from `y = 0`: black stones
at `(11..13, 7)` and `(14, 4..6)`, white stones in row 0.  It is the game `edge_four_moves`
leads to; a stone at `(14, 7)` completes the row `(11..14, 7)`, which ends at the right
edge, and the column `(14, 4..7)`. -/
def edge_four_game : game :=
  { board :=
      { size := 15
        grid := [
        2, 0, 2, 0, 2, 0, 2, 0, 2, 0, 2, 0, 0, 0, 0,
        0, 0, 0, 0, 0, 0, 0, 0, 0, 0, 0, 0, 0, 0, 0,
        0, 0, 0, 0, 0, 0, 0, 0, 0, 0, 0, 0, 0, 0, 0,
        0, 0, 0, 0, 0, 0, 0, 0, 0, 0, 0, 0, 0, 0, 0,
        0, 0, 0, 0, 0, 0, 0, 0, 0, 0, 0, 0, 0, 0, 1,
        0, 0, 0, 0, 0, 0, 0, 0, 0, 0, 0, 0, 0, 0, 1,
        0, 0, 0, 0, 0, 0, 0, 0, 0, 0, 0, 0, 0, 0, 1,
        0, 0, 0, 0, 0, 0, 0, 0, 0, 0, 0, 1, 1, 1, 0,
        0, 0, 0, 0, 0, 0, 0, 0, 0, 0, 0, 0, 0, 0, 0,
        0, 0, 0, 0, 0, 0, 0, 0, 0, 0, 0, 0, 0, 0, 0,
        0, 0, 0, 0, 0, 0, 0, 0, 0, 0, 0, 0, 0, 0, 0,
        0, 0, 0, 0, 0, 0, 0, 0, 0, 0, 0, 0, 0, 0, 0,
        0, 0, 0, 0, 0, 0, 0, 0, 0, 0, 0, 0, 0, 0, 0,
        0, 0, 0, 0, 0, 0, 0, 0, 0, 0, 0, 0, 0, 0, 0,
        0, 0, 0, 0, 0, 0, 0, 0, 0, 0, 0, 0, 0, 0, 0 ] }
    type := GAME_RENJU
    stone := BLACK_STONE
    state := GAME_STATE_PLAYING
    winner := EMPTY_INTERSECTION
    moves := edge_four_moves
    moves_capacity := 16 }


/-! ### Reads that leave the grid -/

/-- The byte `board_get` returns when its guard lets the coordinates pass, the memory
outside the grid being `heap`; `none` when the guard rejects the coordinates. -/
def memory_read (heap : Nat → Nat) (b : board) (x y : Nat) : Option Nat :=
  if x > b.size ∨ y > b.size then none
  else some (b.grid.getD (y * b.size + x) (heap (y * b.size + x) % 256))

/-- A lower bound of `open_fours` that does not depend on the error codes: the two reads
made when `count == 4` both pass the guard and find an empty byte. -/
def open_fours_passed (heap : Nat → Nat) (b : board) (stone : Nat) (x y : Int)
    (d : Int × Int) : Nat :=
  four_loop (line_cls b stone x y d)
    (fun k => decide
      (memory_read heap b (to_uchar (x + (k + 1) * d.1)) (to_uchar (y + (k + 1) * d.2))
          = some EMPTY_INTERSECTION
        ∧ memory_read heap b (to_uchar (x + (k - 5) * d.1)) (to_uchar (y + (k - 5) * d.2))
          = some EMPTY_INTERSECTION))
    (for_range (-4) 4) 0 0

/-- The read of `(cx, cy)` is rejected by the guard of `board_get` or finds an empty
byte. -/
def memory_open (heap : Nat → Nat) (b : board) (cx cy : Int) : Bool :=
  match memory_read heap b (to_uchar cx) (to_uchar cy) with
  | some v => decide (v = EMPTY_INTERSECTION)
  | none => true

/-- An upper bound of `open_fours` that does not depend on the error codes. -/
def open_fours_allowed (heap : Nat → Nat) (b : board) (stone : Nat) (x y : Int)
    (d : Int × Int) : Nat :=
  four_loop (line_cls b stone x y d)
    (fun k => memory_open heap b (x + (k + 1) * d.1) (y + (k + 1) * d.2)
      && memory_open heap b (x + (k - 5) * d.1) (y + (k - 5) * d.2))
    (for_range (-4) 4) 0 0

/-- Twelve moves on a 15 x 15 board, Black first. -/
def top_edge_moves : List move :=
  [⟨4, 14⟩, ⟨0, 0⟩, ⟨5, 14⟩, ⟨2, 0⟩, ⟨6, 14⟩, ⟨4, 0⟩, ⟨7, 11⟩, ⟨6, 0⟩, ⟨7, 12⟩, ⟨8, 0⟩,
    ⟨7, 13⟩, ⟨10, 0⟩]

/-- A 15 x 15 Renju game with Black to move, written row by row from `y = 0`: black stones
at `(4..6, 14)` and `(7, 11..13)`, white stones in row 0.  It is the game `top_edge_moves`
leads to; a stone at `(7, 14)` completes the row `(4..7, 14)` and the column
`(7, 11..14)`, which ends at the top edge. -/
def top_edge_game : game :=
  { board :=
      { size := 15
        grid := [
        2, 0, 2, 0, 2, 0, 2, 0, 2, 0, 2, 0, 0, 0, 0,
        0, 0, 0, 0, 0, 0, 0, 0, 0, 0, 0, 0, 0, 0, 0,
        0, 0, 0, 0, 0, 0, 0, 0, 0, 0, 0, 0, 0, 0, 0,
        0, 0, 0, 0, 0, 0, 0, 0, 0, 0, 0, 0, 0, 0, 0,
        0, 0, 0, 0, 0, 0, 0, 0, 0, 0, 0, 0, 0, 0, 0,
        0, 0, 0, 0, 0, 0, 0, 0, 0, 0, 0, 0, 0, 0, 0,
        0, 0, 0, 0, 0, 0, 0, 0, 0, 0, 0, 0, 0, 0, 0,
        0, 0, 0, 0, 0, 0, 0, 0, 0, 0, 0, 0, 0, 0, 0,
        0, 0, 0, 0, 0, 0, 0, 0, 0, 0, 0, 0, 0, 0, 0,
        0, 0, 0, 0, 0, 0, 0, 0, 0, 0, 0, 0, 0, 0, 0,
        0, 0, 0, 0, 0, 0, 0, 0, 0, 0, 0, 0, 0, 0, 0,
        0, 0, 0, 0, 0, 0, 0, 1, 0, 0, 0, 0, 0, 0, 0,
        0, 0, 0, 0, 0, 0, 0, 1, 0, 0, 0, 0, 0, 0, 0,
        0, 0, 0, 0, 0, 0, 0, 1, 0, 0, 0, 0, 0, 0, 0,
        0, 0, 0, 0, 1, 1, 1, 0, 0, 0, 0, 0, 0, 0, 0 ] }
    type := GAME_RENJU
    stone := BLACK_STONE
    state := GAME_STATE_PLAYING
    winner := EMPTY_INTERSECTION
    moves := top_edge_moves
    moves_capacity := 16 }

/-- Memory that holds the byte 1 everywhere outside the grid. -/
def one_heap : Nat → Nat := fun _ => 1

/-! ### game.c: replay -/

/-- Entry `i` of the buffer `g->moves`: the entries below `moves_count` hold the history;
`junk i` is what the memory holds at an entry that was never written or that lies outside
the buffer. -/
def moves_entry (junk : Nat → move) (g : game) (i : Nat) : move :=
  g.moves.getD i (junk i)

/-- The expression `g->moves_count - 1`, computed in `size_t` (64 bits). -/
def moves_count_minus_one (g : game) : Nat :=
  (g.moves_count + 2 ^ 64 - 1) % 2 ^ 64

/-- What `game_replay` has done: the saved game `g`, the game `g2` it replays on (`none`
before `game_create` and after `game_delete`), and the coordinates of the calls of
`game_place_stone` made so far, in order. -/
structure replay_state where
  g : game
  g2 : Option game
  calls : List move

/-- The loop `for (int i = 0; i < g->moves_count - 1; i++)` of `game_replay` with `n`
iterations left, at index `i`; printing is left out, a call that exits ends the
program.  The comparison is made in `size_t`; `i` is not followed past `INT_MAX`. -/
def replay_loop (ec : error_codes) (heap : Nat → Nat) (junk : Nat → move) (g : game) :
    Nat → Nat → game → List move → outcome (game × List move) Unit
  | 0, _, g2, calls => outcome.ret () (g2, calls)
  | n + 1, i, g2, calls =>
    match game_place_stone ec heap g2 (moves_entry junk g i).x (moves_entry junk g i).y with
    | outcome.exit code s => outcome.exit code (s, calls ++ [moves_entry junk g i])
    | outcome.ret _ s => replay_loop ec heap junk g n (i + 1) s (calls ++ [moves_entry junk g i])

/-- The function `game_replay`, printing left out. -/
def game_replay (ec : error_codes) (heap : Nat → Nat) (junk : Nat → move) (g : game) :
    outcome replay_state Unit :=
  if g.state = GAME_STATE_PLAYING then
    outcome.exit ec.INPUT_ERR { g := g, g2 := none, calls := [] }
  else if g.type ≠ GAME_FREESTYLE ∧ g.type ≠ GAME_RENJU then
    outcome.exit ec.INPUT_ERR { g := g, g2 := none, calls := [] }
  else
    match replay_loop ec heap junk g (moves_count_minus_one g) 0
        (game_create g.board.size g.type) [] with
    | outcome.exit code s => outcome.exit code { g := g, g2 := some s.1, calls := s.2 }
    | outcome.ret _ s =>
      match game_place_stone ec heap s.1 (moves_entry junk g (moves_count_minus_one g)).x
          (moves_entry junk g (moves_count_minus_one g)).y with
      | outcome.exit code s2 =>
        outcome.exit code
          { g := g, g2 := some s2
            calls := s.2 ++ [moves_entry junk g (moves_count_minus_one g)] }
      | outcome.ret _ _ =>
        outcome.ret ()
          { g := g, g2 := none
            calls := s.2 ++ [moves_entry junk g (moves_count_minus_one g)] }

/-- The state a call leaves, whether it returns or exits. -/
def outcome.final {σ α : Type} : outcome σ α → σ
  | outcome.ret _ s => s
  | outcome.exit _ s => s

/-- A saved game with an empty history: the fresh 15 x 15 Freestyle game, stopped before
the first move. -/
def stopped_at_start : game :=
  { game_create 15 GAME_FREESTYLE with state := GAME_STATE_STOPPED }

/-! ## io.c

The text of a save file is the list of its bytes.  `fopen` is taken to succeed. -/

/-- White space for `fscanf`: space, `\t`, `\n`, `\v`, `\f`, `\r`. -/
def is_space (c : Nat) : Bool := decide (c = 32 ∨ (9 ≤ c ∧ c ≤ 13))

/-- The characters `'0'` to `'9'`. -/
def is_digit (c : Nat) : Bool := decide (48 ≤ c ∧ c ≤ 57)

/-- The digits of `n` in base ten in front of `acc`, the first argument bounding the
number of digits. -/
def decimal_digits : Nat → Nat → List Nat → List Nat
  | 0, _, acc => acc
  | fuel + 1, n, acc =>
    if n < 10 then (48 + n) :: acc
    else decimal_digits fuel (n / 10) ((48 + n % 10) :: acc)

/-- What `fprintf` writes for `%u` and for `%d` with an argument that is not negative. -/
def decimal (n : Nat) : List Nat := decimal_digits (n + 1) n []

/-- The line `fprintf(fp, "%c%d\n", x + 'A', y + 1)` for the moves of a list, in order;
`%c` writes its argument converted to `unsigned char`. -/
def export_moves : List move → List Nat
  | [] => []
  | m :: ms => ((m.x + 65) % 256) :: (decimal (m.y + 1) ++ 10 :: export_moves ms)

/-- The function `game_export`: the text written to the file. -/
def game_export (g : game) : List Nat :=
  71 :: 65 :: 10 :: (decimal g.board.size ++ 10 :: (decimal g.type ++ 10 ::
    (decimal g.state ++ 10 :: (decimal g.winner ++ 10 :: export_moves g.moves))))

/-- A white-space directive of a `fscanf` format: all leading white space is read. -/
def skip_space : List Nat → List Nat
  | [] => []
  | c :: s => if is_space c then skip_space s else c :: s

/-- The digits read by a conversion, with the value read so far, and the text left. -/
def scan_digits : Nat → List Nat → Nat × List Nat
  | acc, [] => (acc, [])
  | acc, c :: s => if is_digit c then scan_digits (acc * 10 + (c - 48)) s else (acc, c :: s)

/-- The conversions `%d` and `%u` of `fscanf`: leading white space is skipped, then an
optional sign and at least one digit are read; `none` when nothing is converted.  Values
that do not fit the C type are not looked at. -/
def scan_int (s : List Nat) : Option Int × List Nat :=
  match skip_space s with
  | [] => (none, [])
  | c :: r =>
    if is_digit c then
      (some ((scan_digits 0 (c :: r)).1 : Int), (scan_digits 0 (c :: r)).2)
    else if c = 45 ∨ c = 43 then
      match r with
      | [] => (none, [])
      | d :: r' =>
        if is_digit d then
          (some (if c = 45 then -((scan_digits 0 r).1 : Int) else ((scan_digits 0 r).1 : Int)),
            (scan_digits 0 r).2)
        else (none, d :: r')
    else (none, c :: r)

/-- The locals `board_size`, `game_type`, `game_state`, `winner` of `game_import` after
the call of `fscanf` that reads them, and the text left. -/
structure header where
  board_size : Int
  game_type : Int
  game_state : Int
  winner : Int
  rest : List Nat

/-- The call `fscanf(fp, "%u\n%d\n%d\n%d\n", ...)`.  The call ends at the first
conversion that fails, and a local it has not assigned keeps the value `stack k` it had
uninitialised. -/
def scan_header (stack : Nat → Int) (s : List Nat) : header :=
  match scan_int s with
  | (none, r) => ⟨stack 0, stack 1, stack 2, stack 3, r⟩
  | (some a, r) =>
    match scan_int (skip_space r) with
    | (none, r) => ⟨a, stack 1, stack 2, stack 3, r⟩
    | (some b, r) =>
      match scan_int (skip_space r) with
      | (none, r) => ⟨a, b, stack 2, stack 3, r⟩
      | (some c, r) =>
        match scan_int (skip_space r) with
        | (none, r) => ⟨a, b, c, stack 3, r⟩
        | (some d, r) => ⟨a, b, c, d, skip_space r⟩

/-- The loop `while (!feof(fp))` of `game_import`.  Every `fscanf` of `game_import` that
leaves no text has hit the end of the file, so `feof` holds exactly when no text is left.
An iteration reads a byte into `char x` with `%c`, then `%d` and the white space after
it, and calls `game_place_stone(g, x - 'A', y - 1)`.  The argument `y` is what the slot
of the local `y` holds when the iteration starts: when `%d` fails the call gets that
value, the one the iteration before has left there.  The first argument bounds the number
of iterations; each reads a byte. -/
def import_loop (ec : error_codes) (heap : Nat → Nat) :
    Nat → Int → game → List Nat → outcome game Unit
  | _, _, g, [] => outcome.ret () g
  | 0, _, g, _ :: _ => outcome.ret () g
  | n + 1, y, g, c :: s =>
    match scan_int s with
    | (some v, r) =>
      match game_place_stone ec heap g (to_uchar (to_char (c : Int) - CHAR_A))
          (to_uchar (v - 1)) with
      | outcome.exit code s' => outcome.exit code s'
      | outcome.ret _ g' => import_loop ec heap n v g' (skip_space r)
    | (none, r) =>
      match game_place_stone ec heap g (to_uchar (to_char (c : Int) - CHAR_A))
          (to_uchar (y - 1)) with
      | outcome.exit code s' => outcome.exit code s'
      | outcome.ret _ g' => import_loop ec heap n y g' r

/-- The function `game_import` on a file with the text `text`: the game returned, or the
exit code.  `FILE_INPUT_ERR` is the constant of that name.  `fgets(magic, 3, fp)` reads
the first two bytes.  `stack k` is what the slot of the `k`-th local holds before it is
assigned: `stack 0` to `stack 3` for the four locals of the header, `stack 5` for `y`. -/
def game_import (ec : error_codes) (FILE_INPUT_ERR : Nat) (heap : Nat → Nat)
    (stack : Nat → Int) (text : List Nat) : outcome Unit game :=
  match text with
  | c0 :: c1 :: s =>
    if c0 ≠ 71 ∨ c1 ≠ 65 then outcome.exit FILE_INPUT_ERR ()
    else
      match import_loop ec heap (scan_header stack s).rest.length (stack 5)
          { game_create (to_uchar (scan_header stack s).board_size)
              (to_uchar (scan_header stack s).game_type) with
            state := GAME_STATE_PLAYING
            winner := to_uchar (scan_header stack s).winner }
          (scan_header stack s).rest with
      | outcome.exit code _ => outcome.exit code ()
      | outcome.ret _ g =>
        outcome.ret { g with state := to_uchar (scan_header stack s).game_state } ()
  | _ => outcome.exit FILE_INPUT_ERR ()

/-- Eight moves of a 3 x 3 Renju game, Black first, that keep placing on the two cells
`(0, 0)` and `(1, 0)`: from the third on they go to cells that are not empty. -/
def overplayed_moves : List move :=
  [⟨0, 0⟩, ⟨1, 0⟩, ⟨0, 0⟩, ⟨1, 0⟩, ⟨0, 0⟩, ⟨1, 0⟩, ⟨0, 0⟩, ⟨1, 0⟩]

/-- The 3 x 3 Renju game `overplayed_moves` leads to: a black stone at `(0, 0)`, a white
stone at `(1, 0)`, eight recorded moves, Black to move. -/
def overplayed_game : game :=
  { board := { size := 3, grid := [1, 2, 0, 0, 0, 0, 0, 0, 0] }
    type := GAME_RENJU
    stone := BLACK_STONE
    state := GAME_STATE_PLAYING
    winner := EMPTY_INTERSECTION
    moves := overplayed_moves
    moves_capacity := 16 }

/-- Twenty-four moves of a 5 x 5 Freestyle game, Black first, that fill every cell but
`(4, 4)` without a line of five. -/
def near_full_moves : List move :=
  [⟨0, 0⟩, ⟨2, 0⟩, ⟨1, 0⟩, ⟨3, 0⟩, ⟨4, 0⟩, ⟨0, 1⟩, ⟨2, 1⟩, ⟨1, 1⟩, ⟨3, 1⟩, ⟨4, 1⟩,
    ⟨0, 2⟩, ⟨2, 2⟩, ⟨1, 2⟩, ⟨3, 2⟩, ⟨4, 2⟩, ⟨0, 3⟩, ⟨2, 3⟩, ⟨1, 3⟩, ⟨3, 3⟩, ⟨4, 3⟩,
    ⟨0, 4⟩, ⟨2, 4⟩, ⟨1, 4⟩, ⟨3, 4⟩]

/-- The 5 x 5 Freestyle game `near_full_moves` leads to, written row by row from `y = 0`:
only `(4, 4)` is empty, Black is to move. -/
def near_full_game : game :=
  { board :=
      { size := 5
        grid := [
        1, 1, 2, 2, 1,
        2, 2, 1, 1, 2,
        1, 1, 2, 2, 1,
        2, 2, 1, 1, 2,
        1, 1, 2, 2, 0 ] }
    type := GAME_FREESTYLE
    stone := BLACK_STONE
    state := GAME_STATE_PLAYING
    winner := EMPTY_INTERSECTION
    moves := near_full_moves
    moves_capacity := 32 }

/-- Fourteen moves on a 15 x 15 board, Black first: `top_edge_moves`, then Black at
`(7, 14)` and White at `(0, 1)`. -/
def behind_grid_moves : List move :=
  top_edge_moves ++ [⟨7, 14⟩, ⟨0, 1⟩]

/-- The 15 x 15 Renju game `behind_grid_moves` leads to when the bytes behind the grid are
not zero, written row by row from `y = 0`: black stones at `(4..7, 14)` and `(7, 11..13)`,
white stones in row 0 and at `(0, 1)`, Black to move. -/
def behind_grid_game : game :=
  { board :=
      { size := 15
        grid := [
        2, 0, 2, 0, 2, 0, 2, 0, 2, 0, 2, 0, 0, 0, 0,
        2, 0, 0, 0, 0, 0, 0, 0, 0, 0, 0, 0, 0, 0, 0,
        0, 0, 0, 0, 0, 0, 0, 0, 0, 0, 0, 0, 0, 0, 0,
        0, 0, 0, 0, 0, 0, 0, 0, 0, 0, 0, 0, 0, 0, 0,
        0, 0, 0, 0, 0, 0, 0, 0, 0, 0, 0, 0, 0, 0, 0,
        0, 0, 0, 0, 0, 0, 0, 0, 0, 0, 0, 0, 0, 0, 0,
        0, 0, 0, 0, 0, 0, 0, 0, 0, 0, 0, 0, 0, 0, 0,
        0, 0, 0, 0, 0, 0, 0, 0, 0, 0, 0, 0, 0, 0, 0,
        0, 0, 0, 0, 0, 0, 0, 0, 0, 0, 0, 0, 0, 0, 0,
        0, 0, 0, 0, 0, 0, 0, 0, 0, 0, 0, 0, 0, 0, 0,
        0, 0, 0, 0, 0, 0, 0, 0, 0, 0, 0, 0, 0, 0, 0,
        0, 0, 0, 0, 0, 0, 0, 1, 0, 0, 0, 0, 0, 0, 0,
        0, 0, 0, 0, 0, 0, 0, 1, 0, 0, 0, 0, 0, 0, 0,
        0, 0, 0, 0, 0, 0, 0, 1, 0, 0, 0, 0, 0, 0, 0,
        0, 0, 0, 0, 1, 1, 1, 1, 0, 0, 0, 0, 0, 0, 0 ] }
    type := GAME_RENJU
    stone := BLACK_STONE
    state := GAME_STATE_PLAYING
    winner := EMPTY_INTERSECTION
    moves := behind_grid_moves
    moves_capacity := 16 }
/-! ## Facts about the embedding -/

theorem for_range_nil (lo hi : Int) (h : hi < lo) : for_range lo hi = [] := by
  unfold for_range
  have h0 : (hi + 1 - lo).toNat = 0 := by omega
  rw [h0]; rfl

theorem for_range_cons (lo hi : Int) (h : lo ≤ hi) :
    for_range lo hi = lo :: for_range (lo + 1) hi := by
  unfold for_range
  obtain ⟨n, hn⟩ : ∃ n : Nat, (hi + 1 - lo).toNat = n + 1 := ⟨(hi - lo).toNat, by omega⟩
  have hn' : (hi + 1 - (lo + 1)).toNat = n := by omega
  rw [hn, hn']
  rfl

theorem for_range_window : for_range (-4) 4 = [-4, -3, -2, -1, 0, 1, 2, 3, 4] := by
  decide

theorem int_range_shift (a lo : Int) (n : Nat) :
    int_range (a + lo) n = (int_range lo n).map (fun k => a + k) := by
  induction n generalizing lo with
  | zero => rfl
  | succ n ih =>
    simp only [int_range, List.map_cons]
    rw [← ih (lo + 1), add_assoc]

theorem for_range_shift (a lo hi : Int) :
    for_range (a + lo) (a + hi) = (for_range lo hi).map (fun k => a + k) := by
  unfold for_range
  have h0 : (a + hi + 1 - (a + lo)).toNat = (hi + 1 - lo).toNat := by congr 1; ring
  rw [h0, int_range_shift]

theorem count_loop_map (T : Nat) (cls : Int → Option Bool) (f : Int → Int) (l : List Int)
    (count : Nat) :
    count_loop T cls (l.map f) count = count_loop T (fun k => cls (f k)) l count := by
  induction l generalizing count with
  | nil => rfl
  | cons i rest ih =>
    simp only [List.map_cons, count_loop]
    rcases cls (f i) with _ | v
    · exact ih count
    · cases v
      · exact ih 0
      · simp only [ih]

theorem four_loop_map (cls : Int → Option Bool) (opn : Int → Bool) (f : Int → Int)
    (l : List Int) (count total : Nat) :
    four_loop cls opn (l.map f) count total
      = four_loop (fun k => cls (f k)) (fun k => opn (f k)) l count total := by
  induction l generalizing count total with
  | nil => rfl
  | cons i rest ih =>
    simp only [List.map_cons, four_loop]
    rcases cls (f i) with _ | v
    · exact ih count total
    · cases v
      · exact ih 0 total
      · simp only [ih]

theorem count_loop_congr (T : Nat) (cls cls' : Int → Option Bool) (l : List Int)
    (count : Nat) (h : ∀ i ∈ l, cls i = cls' i) :
    count_loop T cls l count = count_loop T cls' l count := by
  induction l generalizing count with
  | nil => rfl
  | cons i rest ih =>
    have hi : cls i = cls' i := h i (List.mem_cons_self _ _)
    have hr : ∀ c, count_loop T cls rest c = count_loop T cls' rest c :=
      fun c => ih c (fun j hj => h j (List.mem_cons_of_mem _ hj))
    simp only [count_loop, hi, hr]

theorem four_loop_congr (cls cls' : Int → Option Bool) (opn : Int → Bool) (l : List Int)
    (count total : Nat) (h : ∀ i ∈ l, cls i = cls' i) :
    four_loop cls opn l count total = four_loop cls' opn l count total := by
  induction l generalizing count total with
  | nil => rfl
  | cons i rest ih =>
    have hi : cls i = cls' i := h i (List.mem_cons_self _ _)
    have hr : ∀ c t, four_loop cls opn rest c t = four_loop cls' opn rest c t :=
      fun c t => ih c t (fun j hj => h j (List.mem_cons_of_mem _ hj))
    simp only [four_loop, hi, hr]

theorem win_loop_eq (ec : error_codes) (heap : Nat → Nat) (b : board) (stone : Nat)
    (skip : Int → Bool) (cell : Int → Int × Int) (l : List Int) (count : Nat) :
    win_loop ec heap b stone skip cell l count
      = count_loop 5 (classify ec heap b stone skip cell) l count := by
  induction l generalizing count with
  | nil => rfl
  | cons i rest ih =>
    unfold win_loop count_loop
    by_cases hs : skip i = true
    · have hc : classify ec heap b stone skip cell i = none := by simp [classify, hs]
      simp only [hs, hc, if_true, ih]
    · by_cases hb : board_get ec heap b (to_uchar (cell i).1) (to_uchar (cell i).2) = stone
      · have hc : classify ec heap b stone skip cell i = some true := by
          simp [classify, hs, hb]
        simp [hs, hb, hc, ih]
      · have hc : classify ec heap b stone skip cell i = some false := by
          simp [classify, hs, hb]
        simp [hs, hb, hc, ih]

theorem overline_loop_eq (ec : error_codes) (heap : Nat → Nat) (b : board) (stone : Nat)
    (skip : Int → Bool) (cell : Int → Int × Int) (l : List Int) (count : Nat) :
    overline_loop ec heap b stone skip cell l count
      = count_loop 6 (classify ec heap b stone skip cell) l count := by
  induction l generalizing count with
  | nil => rfl
  | cons i rest ih =>
    unfold overline_loop count_loop
    by_cases hs : skip i = true
    · have hc : classify ec heap b stone skip cell i = none := by simp [classify, hs]
      simp only [hs, hc, if_true, ih]
    · by_cases hb : board_get ec heap b (to_uchar (cell i).1) (to_uchar (cell i).2) = stone
      · have hc : classify ec heap b stone skip cell i = some true := by
          simp [classify, hs, hb]
        simp [hs, hb, hc, ih]
      · have hc : classify ec heap b stone skip cell i = some false := by
          simp [classify, hs, hb]
        simp [hs, hb, hc, ih]

theorem open_four_loop_eq (ec : error_codes) (heap : Nat → Nat) (b : board) (stone : Nat)
    (skip : Int → Bool) (cell after before : Int → Int × Int) (l : List Int)
    (count total : Nat) :
    open_four_loop ec heap b stone skip cell after before l count total
      = four_loop (classify ec heap b stone skip cell)
          (fun i => decide
            (board_get ec heap b (to_uchar (after i).1) (to_uchar (after i).2)
                = EMPTY_INTERSECTION
              ∧ board_get ec heap b (to_uchar (before i).1) (to_uchar (before i).2)
                = EMPTY_INTERSECTION)) l count total := by
  induction l generalizing count total with
  | nil => rfl
  | cons i rest ih =>
    unfold open_four_loop four_loop
    by_cases hs : skip i = true
    · have hc : classify ec heap b stone skip cell i = none := by simp [classify, hs]
      simp only [hs, hc, if_true, ih]
    · by_cases hb : board_get ec heap b (to_uchar (cell i).1) (to_uchar (cell i).2) = stone
      · have hc : classify ec heap b stone skip cell i = some true := by
          simp [classify, hs, hb]
        simp [hs, hb, hc, ih]
      · have hc : classify ec heap b stone skip cell i = some false := by
          simp [classify, hs, hb]
        simp [hs, hb, hc, ih]

/-- Completeness of the counting loop: `T` consecutive indices of class `some true`
ending at `e` make the loop return `true`. -/
theorem count_loop_complete (T : Nat) (cls : Int → Option Bool) :
    ∀ (n : Nat) (lo hi : Int) (count : Nat) (e : Int),
      (hi + 1 - lo).toNat = n → lo ≤ e → e ≤ hi → count < T →
      lo - (e - ((T : Int) - 1)) ≤ count →
      (∀ t : Int, e - ((T : Int) - 1) ≤ t → t ≤ e → cls t = some true) →
      count_loop T cls (for_range lo hi) count = true := by
  intro n
  induction n with
  | zero => intro lo hi count e hn h1 h2; omega
  | succ n ih =>
    intro lo hi count e hn h1 h2 hc hlow hrun
    rw [for_range_cons lo hi (by omega)]
    unfold count_loop
    by_cases hlt : lo < e - ((T : Int) - 1)
    · have hrec : ∀ c, c < T → count_loop T cls (for_range (lo + 1) hi) c = true := by
        intro c hcT
        exact ih (lo + 1) hi c e (by omega) (by omega) h2 hcT (by omega) hrun
      rcases hcl : cls lo with _ | v
      · simpa using hrec count hc
      · cases v
        · simpa using hrec 0 (by omega)
        · by_cases h5 : count + 1 = T
          · simp [h5]
          · simpa [h5] using hrec (count + 1) (by omega)
    · have hhit : cls lo = some true := hrun lo (by omega) h1
      rw [hhit]
      by_cases h5 : count + 1 = T
      · simp [h5]
      · have hne : lo ≠ e := by
          intro he
          subst he
          omega
        simpa [h5] using ih (lo + 1) hi (count + 1) e (by omega) (by omega) h2 (by omega)
          (by push_cast; omega) hrun

theorem count_loop_all_none (T : Nat) (cls : Int → Option Bool) (l : List Int) (count : Nat)
    (h : ∀ i ∈ l, cls i = none) : count_loop T cls l count = false := by
  induction l generalizing count with
  | nil => rfl
  | cons i rest ih =>
    have hi : cls i = none := h i (List.mem_cons_self _ _)
    simp only [count_loop, hi]
    exact ih count (fun j hj => h j (List.mem_cons_of_mem _ hj))

theorem mem_for_range (lo hi i : Int) : i ∈ for_range lo hi ↔ lo ≤ i ∧ i ≤ hi := by
  obtain ⟨n, hn⟩ : ∃ n : Nat, (hi + 1 - lo).toNat = n := ⟨_, rfl⟩
  induction n generalizing lo with
  | zero =>
    rw [for_range_nil lo hi (by omega)]
    simp only [List.not_mem_nil, false_iff]
    omega
  | succ n ih =>
    rw [for_range_cons lo hi (by omega), List.mem_cons, ih (lo + 1) (by omega)]
    omega

/-- Soundness of the counting loop when the indices that are not skipped form an
interval: a `true` result comes from `T` consecutive indices of class `some true`. -/
theorem count_loop_sound (T : Nat) (cls : Int → Option Bool) (lo0 : Int)
    (conv : ∀ i j k : Int, i ≤ j → j ≤ k → cls i ≠ none → cls k ≠ none → cls j ≠ none) :
    ∀ (n : Nat) (lo hi : Int) (count : Nat),
      (hi + 1 - lo).toNat = n → count < T → (count : Int) ≤ lo - lo0 →
      (∀ t : Int, 0 < t → t ≤ count → cls (lo - t) = some true) →
      count_loop T cls (for_range lo hi) count = true →
      ∃ e : Int, lo ≤ e ∧ e ≤ hi ∧ lo0 ≤ e - ((T : Int) - 1) ∧
        ∀ t : Int, 0 ≤ t → t < T → cls (e - t) = some true := by
  intro n
  induction n with
  | zero =>
    intro lo hi count hn _ _ _ hres
    rw [for_range_nil lo hi (by omega)] at hres
    simp [count_loop] at hres
  | succ n ih =>
    intro lo hi count hn hc hlow hinv hres
    rw [for_range_cons lo hi (by omega)] at hres
    unfold count_loop at hres
    rcases hcl : cls lo with _ | v
    · rw [hcl] at hres
      simp only at hres
      by_cases h0 : count = 0
      · subst h0
        obtain ⟨e, h1, h2, h3, h4⟩ := ih (lo + 1) hi 0 (by omega) hc (by push_cast; omega)
          (by intro t ht1 ht2; simp at ht2; omega) hres
        exact ⟨e, by omega, h2, h3, h4⟩
      · exfalso
        have hprev : cls (lo - 1) = some true := hinv 1 (by omega) (by omega)
        have hall : ∀ i ∈ for_range (lo + 1) hi, cls i = none := by
          intro i hi'
          rw [mem_for_range] at hi'
          by_contra hne
          exact conv (lo - 1) lo i (by omega) (by omega) (by rw [hprev]; simp) hne hcl
        rw [count_loop_all_none T cls _ count hall] at hres
        exact Bool.false_ne_true hres
    · rw [hcl] at hres
      cases v
      · simp only at hres
        obtain ⟨e, h1, h2, h3, h4⟩ := ih (lo + 1) hi 0 (by omega) (by omega)
          (by push_cast; omega) (by intro t ht1 ht2; simp at ht2; omega) hres
        exact ⟨e, by omega, h2, h3, h4⟩
      · simp only at hres
        by_cases h5 : count + 1 = T
        · refine ⟨lo, le_refl _, by omega, by omega, ?_⟩
          intro t ht0 htT
          by_cases ht : t = 0
          · subst ht; simpa using hcl
          · exact hinv t (by omega) (by omega)
        · simp only [h5, if_false] at hres
          obtain ⟨e, h1, h2, h3, h4⟩ := ih (lo + 1) hi (count + 1) (by omega) (by omega)
            (by push_cast; omega)
            (by
              intro t ht1 ht2
              by_cases ht : t = 1
              · subst ht; simpa using hcl
              · have := hinv (t - 1) (by omega) (by push_cast at ht2; omega)
                rw [show lo + 1 - t = lo - (t - 1) by ring]
                exact this) hres
          exact ⟨e, by omega, h2, h3, h4⟩
theorem to_uchar_of_lt (n : Nat) (h : n < 256) : to_uchar (n : Int) = n := by
  unfold to_uchar
  omega

theorem grid_index_lt (size n m : Nat) (hn : n < size) (hm : m < size) :
    m * size + n < size * size := by
  have h1 : (m + 1) * size ≤ size * size := Nat.mul_le_mul_right size hm
  have h2 : (m + 1) * size = m * size + size := by ring
  omega

/-- On the board `board_get` returns the content of the cell. -/
theorem cell_at_eq_board_get (ec : error_codes) (heap : Nat → Nat) (b : board)
    (hsize : b.size < 256) (hlen : b.grid.length = b.size * b.size) (cx cy : Int)
    (hon : on_board b cx cy) :
    cell_at b cx cy = some (board_get ec heap b (to_uchar cx) (to_uchar cy)) := by
  obtain ⟨h1, h2, h3, h4⟩ := hon
  obtain ⟨n, rfl⟩ := Int.eq_ofNat_of_zero_le h1
  obtain ⟨m, rfl⟩ := Int.eq_ofNat_of_zero_le h3
  have hn : n < b.size := by omega
  have hm : m < b.size := by omega
  have hidx : m * b.size + n < b.grid.length := by
    rw [hlen]; exact grid_index_lt _ _ _ hn hm
  rw [to_uchar_of_lt n (by omega), to_uchar_of_lt m (by omega)]
  unfold cell_at board_get
  rw [if_pos ⟨h1, h2, h3, h4⟩, if_neg (by omega)]
  simp only [Int.toNat_ofNat]
  rw [List.getD_eq_getElem?_getD, List.getElem?_eq_getElem hidx]
  rfl

theorem cell_at_off_board (b : board) (cx cy : Int) (h : ¬ on_board b cx cy) :
    cell_at b cx cy = none := by
  unfold cell_at
  rw [if_neg h]

theorem cell_at_some_on_board (b : board) (cx cy : Int) (v : Nat)
    (h : cell_at b cx cy = some v) : on_board b cx cy := by
  by_contra hn
  rw [cell_at_off_board b cx cy hn] at h
  exact Option.noConfusion h

/-- When the `continue` test is true exactly off the board, the class computed by a loop
is the class of the cell. -/
theorem classify_eq (ec : error_codes) (heap : Nat → Nat) (b : board) (stone : Nat)
    (hsize : b.size < 256) (hlen : b.grid.length = b.size * b.size)
    (skip : Int → Bool) (cell : Int → Int × Int) (i : Int)
    (hskip : skip i = true ↔ ¬ on_board b (cell i).1 (cell i).2) :
    classify ec heap b stone skip cell i =
      match cell_at b (cell i).1 (cell i).2 with
      | none => none
      | some v => some (decide (v = stone)) := by
  unfold classify
  by_cases hs : skip i = true
  · rw [if_pos hs, cell_at_off_board b _ _ (hskip.mp hs)]
  · have hon : on_board b (cell i).1 (cell i).2 := by
      by_contra hn
      exact hs (hskip.mpr hn)
    rw [if_neg hs, cell_at_eq_board_get ec heap b hsize hlen _ _ hon]

theorem classify_horizontal (ec : error_codes) (heap : Nat → Nat) (b : board) (stone : Nat)
    (hsize : b.size < 256) (hlen : b.grid.length = b.size * b.size) (x y : Nat)
    (hy : y < b.size) (k : Int) :
    classify ec heap b stone (skip_line b.size) (fun i => (i, (y : Int))) ((x : Int) + k)
      = line_cls b stone x y (1, 0) k := by
  rw [classify_eq ec heap b stone hsize hlen]
  · simp [line_cls]
  · simp only [skip_line, on_board, decide_eq_true_eq]
    omega

theorem classify_vertical (ec : error_codes) (heap : Nat → Nat) (b : board) (stone : Nat)
    (hsize : b.size < 256) (hlen : b.grid.length = b.size * b.size) (x y : Nat)
    (hx : x < b.size) (k : Int) :
    classify ec heap b stone (skip_line b.size) (fun j => ((x : Int), j)) ((y : Int) + k)
      = line_cls b stone x y (0, 1) k := by
  rw [classify_eq ec heap b stone hsize hlen]
  · simp [line_cls]
  · simp only [skip_line, on_board, decide_eq_true_eq]
    omega

theorem classify_diag (ec : error_codes) (heap : Nat → Nat) (b : board) (stone : Nat)
    (hsize : b.size < 256) (hlen : b.grid.length = b.size * b.size) (x y : Nat) (k : Int) :
    classify ec heap b stone (skip_diag b.size x y)
        (fun k => ((x : Int) + k, (y : Int) + k)) k
      = line_cls b stone x y (1, 1) k := by
  rw [classify_eq ec heap b stone hsize hlen]
  · simp [line_cls]
  · simp only [skip_diag, on_board, decide_eq_true_eq]
    omega

theorem classify_anti (ec : error_codes) (heap : Nat → Nat) (b : board) (stone : Nat)
    (hsize : b.size < 256) (hlen : b.grid.length = b.size * b.size) (x y : Nat) (k : Int) :
    classify ec heap b stone (skip_anti b.size x y)
        (fun l => ((x : Int) + l, (y : Int) - l)) k
      = line_cls b stone x y (1, -1) k := by
  rw [classify_eq ec heap b stone hsize hlen]
  · simp [line_cls, sub_eq_add_neg]
  · simp only [skip_anti, on_board, decide_eq_true_eq]
    omega

/-- The loops on a window centred at a coordinate, as loops on offsets `-4 .. 4`. -/
theorem count_loop_centre (T : Nat) (cls : Int → Option Bool) (a : Int) (count : Nat) :
    count_loop T cls (for_range (a - 4) (a + 4)) count
      = count_loop T (fun k => cls (a + k)) (for_range (-4) 4) count := by
  rw [show a - 4 = a + (-4) by ring, for_range_shift, count_loop_map]

theorem four_loop_centre (cls : Int → Option Bool) (opn : Int → Bool) (a : Int)
    (count total : Nat) :
    four_loop cls opn (for_range (a - 4) (a + 4)) count total
      = four_loop (fun k => cls (a + k)) (fun k => opn (a + k)) (for_range (-4) 4)
          count total := by
  rw [show a - 4 = a + (-4) by ring, for_range_shift, four_loop_map]

/-- The counting loop of direction `d` on the window of offsets `-4 .. 4`. -/
theorem has_run_iff (b : board) (c : Nat) (x y : Int) (d : Int × Int) (n : Nat) :
    has_run b c x y d n ↔
      ∃ s : Nat, s < n ∧ ∀ t : Nat, t < n →
        line_cls b c x y d ((t : Int) - (s : Int)) = some true := by
  unfold has_run line_cls
  constructor
  · rintro ⟨s, hs, h⟩
    refine ⟨s, hs, fun t ht => ?_⟩
    rw [h t ht]
    simp
  · rintro ⟨s, hs, h⟩
    refine ⟨s, hs, fun t ht => ?_⟩
    have := h t ht
    rcases hc : cell_at b (x + ((t : Int) - (s : Int)) * d.1)
        (y + ((t : Int) - (s : Int)) * d.2) with _ | v
    · rw [hc] at this; simp at this
    · rw [hc] at this
      simp at this
      rw [this]
theorem cell_at_on_board (b : board) (hlen : b.grid.length = b.size * b.size)
    (cx cy : Int) (hon : on_board b cx cy) : ∃ v, cell_at b cx cy = some v := by
  obtain ⟨h1, h2, h3, h4⟩ := hon
  obtain ⟨n, rfl⟩ := Int.eq_ofNat_of_zero_le h1
  obtain ⟨m, rfl⟩ := Int.eq_ofNat_of_zero_le h3
  have hidx : m * b.size + n < b.grid.length := by
    rw [hlen]; exact grid_index_lt _ _ _ (by omega) (by omega)
  refine ⟨b.grid[m * b.size + n], ?_⟩
  unfold cell_at
  rw [if_pos ⟨h1, h2, h3, h4⟩]
  simp only [Int.toNat_ofNat]
  exact List.getElem?_eq_getElem hidx

theorem line_cls_ne_none (b : board) (hlen : b.grid.length = b.size * b.size)
    (stone : Nat) (x y : Int) (d : Int × Int) (k : Int) :
    line_cls b stone x y d k ≠ none ↔ on_board b (x + k * d.1) (y + k * d.2) := by
  unfold line_cls
  constructor
  · intro h
    by_contra hn
    rw [cell_at_off_board b _ _ hn] at h
    exact h rfl
  · intro h
    obtain ⟨v, hv⟩ := cell_at_on_board b hlen _ _ h
    rw [hv]
    simp

theorem line_cls_some_true (b : board) (stone : Nat) (x y : Int) (d : Int × Int) (k : Int) :
    line_cls b stone x y d k = some true ↔
      cell_at b (x + k * d.1) (y + k * d.2) = some stone := by
  unfold line_cls
  rcases cell_at b (x + k * d.1) (y + k * d.2) with _ | v
  · simp
  · simp

/-- Along each of the four directions the offsets that fall on the board form an
interval. -/
theorem line_cls_convex (b : board) (hlen : b.grid.length = b.size * b.size)
    (stone : Nat) (x y : Int) (d : Int × Int) (hd : d ∈ directions) (i j k : Int)
    (hij : i ≤ j) (hjk : j ≤ k) (hi : line_cls b stone x y d i ≠ none)
    (hk : line_cls b stone x y d k ≠ none) : line_cls b stone x y d j ≠ none := by
  rw [line_cls_ne_none b hlen] at hi hk ⊢
  unfold on_board at hi hk ⊢
  simp only [directions, List.mem_cons, List.mem_singleton, List.not_mem_nil, or_false] at hd
  rcases hd with rfl | rfl | rfl | rfl <;> simp only at hi hk ⊢ <;> omega

/-- A run of `T` cells inside the window makes the counting loop of the direction
return `true`. -/
theorem count_loop_of_run (T : Nat) (cls : Int → Option Bool) (s : Nat) (hs : s ≤ 4)
    (hsT : s < T) (he : T ≤ s + 5)
    (hrun : ∀ t : Nat, t < T → cls ((t : Int) - (s : Int)) = some true) :
    count_loop T cls (for_range (-4) 4) 0 = true := by
  apply count_loop_complete T cls 9 (-4) 4 0 ((T : Int) - 1 - (s : Int)) (by decide)
    (by omega) (by omega) (by omega) (by push_cast; omega)
  intro t h1 h2
  have h0 : 0 ≤ t + (s : Int) := by omega
  obtain ⟨u, hu⟩ := Int.eq_ofNat_of_zero_le h0
  have := hrun u (by omega)
  rw [← hu] at this
  simpa using this

/-- A `true` result of the counting loop of a direction on the window comes from `T`
consecutive cells of the window, ending at offset `e`, that hold the stone. -/
theorem run_of_count_loop (T : Nat) (hT : 0 < T) (b : board)
    (hlen : b.grid.length = b.size * b.size)
    (stone : Nat) (x y : Int) (d : Int × Int) (hd : d ∈ directions)
    (h : count_loop T (line_cls b stone x y d) (for_range (-4) 4) 0 = true) :
    ∃ e : Int, e ≤ 4 ∧ -4 ≤ e - ((T : Int) - 1) ∧
      ∀ t : Int, 0 ≤ t → t < T → line_cls b stone x y d (e - t) = some true := by
  obtain ⟨e, _, h2, h3, h4⟩ := count_loop_sound T (line_cls b stone x y d) (-4)
    (line_cls_convex b hlen stone x y d hd) 9 (-4) 4 0 (by decide) hT (by simp)
    (by intro t ht1 ht2; simp at ht2; omega) h
  exact ⟨e, h2, h3, h4⟩

/-- For `T >= 5` the counting loop of a direction returns `true` only when there is a
run of `T` through the centre. -/
theorem has_run_of_count_loop (T : Nat) (hT : 5 ≤ T) (b : board)
    (hlen : b.grid.length = b.size * b.size)
    (stone : Nat) (x y : Int) (d : Int × Int) (hd : d ∈ directions)
    (h : count_loop T (line_cls b stone x y d) (for_range (-4) 4) 0 = true) :
    has_run b stone x y d T := by
  obtain ⟨e, h1, h2, h3⟩ := run_of_count_loop T (by omega) b hlen stone x y d hd h
  rw [has_run_iff]
  have h0 : 0 ≤ (T : Int) - 1 - e := by omega
  obtain ⟨s, hs⟩ := Int.eq_ofNat_of_zero_le h0
  refine ⟨s, by omega, fun t ht => ?_⟩
  have := h3 ((T : Int) - 1 - t) (by omega) (by omega)
  rw [show (t : Int) - (s : Int) = e - ((T : Int) - 1 - t) by omega]
  exact this

/-- A run of five through the centre makes the loop of the win check return `true`. -/
theorem count_loop_of_has_run_five (b : board) (stone : Nat) (x y : Int) (d : Int × Int)
    (h : has_run b stone x y d 5) :
    count_loop 5 (line_cls b stone x y d) (for_range (-4) 4) 0 = true := by
  rw [has_run_iff] at h
  obtain ⟨s, hs, hrun⟩ := h
  exact count_loop_of_run 5 _ s (by omega) hs (by omega) hrun

/-- A run of `n + 1` through a cell contains a run of `n` through it. -/
theorem has_run_mono (b : board) (c : Nat) (x y : Int) (d : Int × Int) (n : Nat)
    (hn : 0 < n) (h : has_run b c x y d (n + 1)) : has_run b c x y d n := by
  obtain ⟨s, hs, hrun⟩ := h
  by_cases hlast : s = n
  · refine ⟨n - 1, by omega, fun t ht => ?_⟩
    have := hrun (t + 1) (by omega)
    rw [hlast] at this
    rw [show ((t : Int) - ((n - 1 : Nat) : Int)) = (((t + 1 : Nat) : Int) - (n : Int)) by
      push_cast [Nat.cast_sub hn]; ring]
    exact this
  · exact ⟨s, by omega, fun t ht => hrun t (by omega)⟩

/-- With the stone at the centre, the counting loop for four returns `true` only when
there is a run of four through the centre. -/
theorem has_run_four_of_count_loop (b : board) (hlen : b.grid.length = b.size * b.size)
    (stone : Nat) (x y : Int) (d : Int × Int) (hd : d ∈ directions)
    (hc : cell_at b x y = some stone)
    (h : count_loop 4 (line_cls b stone x y d) (for_range (-4) 4) 0 = true) :
    has_run b stone x y d 4 := by
  obtain ⟨e, h1, h2, h3⟩ := run_of_count_loop 4 (by omega) b hlen stone x y d hd h
  have hc0 : line_cls b stone x y d 0 = some true := by
    rw [line_cls_some_true]; simpa using hc
  rw [has_run_iff]
  have hcell : ∀ k : Int, e - 3 ≤ k → k ≤ e → line_cls b stone x y d k = some true := by
    intro k hk1 hk2
    have := h3 (e - k) (by omega) (by push_cast; omega)
    rw [show e - (e - k) = k by ring] at this
    exact this
  by_cases hneg : e = -1
  · refine ⟨3, by omega, fun t ht => ?_⟩
    by_cases ht3 : t = 3
    · subst ht3; simpa using hc0
    · exact hcell _ (by omega) (by omega)
  · by_cases hpos : e = 4
    · refine ⟨0, by omega, fun t ht => ?_⟩
      by_cases ht0 : t = 0
      · subst ht0; simpa using hc0
      · exact hcell _ (by push_cast; omega) (by push_cast; omega)
    · have h0 : 0 ≤ 3 - e := by push_cast at h2; omega
      obtain ⟨s, hs⟩ := Int.eq_ofNat_of_zero_le h0
      refine ⟨s, by push_cast at h2; omega, fun t ht => ?_⟩
      exact hcell _ (by omega) (by omega)

theorem loop_horizontal (T : Nat) (ec : error_codes) (heap : Nat → Nat) (b : board)
    (stone : Nat) (hsize : b.size < 256) (hlen : b.grid.length = b.size * b.size)
    (x y : Nat) (hy : y < b.size) (count : Nat) :
    count_loop T (classify ec heap b stone (skip_line b.size) (fun i => (i, (y : Int))))
        (for_range ((x : Int) - 4) ((x : Int) + 4)) count
      = count_loop T (line_cls b stone x y (1, 0)) (for_range (-4) 4) count := by
  rw [count_loop_centre]
  exact count_loop_congr T _ _ _ _
    (fun k _ => classify_horizontal ec heap b stone hsize hlen x y hy k)

theorem loop_vertical (T : Nat) (ec : error_codes) (heap : Nat → Nat) (b : board)
    (stone : Nat) (hsize : b.size < 256) (hlen : b.grid.length = b.size * b.size)
    (x y : Nat) (hx : x < b.size) (count : Nat) :
    count_loop T (classify ec heap b stone (skip_line b.size) (fun j => ((x : Int), j)))
        (for_range ((y : Int) - 4) ((y : Int) + 4)) count
      = count_loop T (line_cls b stone x y (0, 1)) (for_range (-4) 4) count := by
  rw [count_loop_centre]
  exact count_loop_congr T _ _ _ _
    (fun k _ => classify_vertical ec heap b stone hsize hlen x y hx k)

theorem loop_diag (T : Nat) (ec : error_codes) (heap : Nat → Nat) (b : board)
    (stone : Nat) (hsize : b.size < 256) (hlen : b.grid.length = b.size * b.size)
    (x y : Nat) (count : Nat) :
    count_loop T (classify ec heap b stone (skip_diag b.size x y)
        (fun k => ((x : Int) + k, (y : Int) + k))) (for_range (-4) 4) count
      = count_loop T (line_cls b stone x y (1, 1)) (for_range (-4) 4) count :=
  count_loop_congr T _ _ _ _ (fun k _ => classify_diag ec heap b stone hsize hlen x y k)

theorem loop_anti (T : Nat) (ec : error_codes) (heap : Nat → Nat) (b : board)
    (stone : Nat) (hsize : b.size < 256) (hlen : b.grid.length = b.size * b.size)
    (x y : Nat) (count : Nat) :
    count_loop T (classify ec heap b stone (skip_anti b.size x y)
        (fun l => ((x : Int) + l, (y : Int) - l))) (for_range (-4) 4) count
      = count_loop T (line_cls b stone x y (1, -1)) (for_range (-4) 4) count :=
  count_loop_congr T _ _ _ _ (fun k _ => classify_anti ec heap b stone hsize hlen x y k)

theorem exists_direction (p : Int × Int → Prop) :
    (∃ d ∈ directions, p d) ↔ p (1, 0) ∨ p (0, 1) ∨ p (1, 1) ∨ p (1, -1) := by
  simp [directions]

/-- The four loops of the win checks find exactly the runs of five through the cell. -/
theorem win_loops_iff (b : board) (hlen : b.grid.length = b.size * b.size) (stone : Nat)
    (x y : Nat) :
    (count_loop 5 (line_cls b stone x y (1, 0)) (for_range (-4) 4) 0 = true
      ∨ count_loop 5 (line_cls b stone x y (0, 1)) (for_range (-4) 4) 0 = true
      ∨ count_loop 5 (line_cls b stone x y (1, 1)) (for_range (-4) 4) 0 = true
      ∨ count_loop 5 (line_cls b stone x y (1, -1)) (for_range (-4) 4) 0 = true)
    ↔ run_through b stone x y 5 := by
  unfold run_through
  rw [exists_direction]
  have key : ∀ d ∈ directions,
      (count_loop 5 (line_cls b stone x y d) (for_range (-4) 4) 0 = true
        ↔ has_run b stone x y d 5) := fun d hd =>
    ⟨has_run_of_count_loop 5 (le_refl _) b hlen stone x y d hd,
      count_loop_of_has_run_five b stone x y d⟩
  rw [key _ (by simp [directions]), key _ (by simp [directions]),
    key _ (by simp [directions]), key _ (by simp [directions])]

theorem game_check_win_freestyle_iff (ec : error_codes) (heap : Nat → Nat) (g : game)
    (hsize : g.board.size < 256) (hlen : g.board.grid.length = g.board.size * g.board.size)
    (x y : Nat) (hx : x < g.board.size) (hy : y < g.board.size) :
    game_check_win_freestyle ec heap g x y = true ↔ run_through g.board g.stone x y 5 := by
  rw [← win_loops_iff g.board hlen]
  unfold game_check_win_freestyle
  simp only [win_loop_eq, loop_horizontal 5 ec heap g.board g.stone hsize hlen x y hy,
    loop_vertical 5 ec heap g.board g.stone hsize hlen x y hx,
    loop_diag 5 ec heap g.board g.stone hsize hlen x y,
    loop_anti 5 ec heap g.board g.stone hsize hlen x y]
  by_cases h1 : count_loop 5 (line_cls g.board g.stone x y (1, 0)) (for_range (-4) 4) 0 = true
  · simp [h1]
  · by_cases h2 : count_loop 5 (line_cls g.board g.stone x y (0, 1)) (for_range (-4) 4) 0 = true
    · simp [h1, h2]
    · by_cases h3 : count_loop 5 (line_cls g.board g.stone x y (1, 1)) (for_range (-4) 4) 0 = true
      · simp [h1, h2, h3]
      · simp [h1, h2, h3]

theorem game_check_win_renju_iff (ec : error_codes) (heap : Nat → Nat) (g : game)
    (hsize : g.board.size < 256) (hlen : g.board.grid.length = g.board.size * g.board.size)
    (x y : Nat) (hx : x < g.board.size) (hy : y < g.board.size) :
    (game_check_win_renju ec heap g x y).1 = true ↔ run_through g.board g.stone x y 5 := by
  rw [← win_loops_iff g.board hlen]
  unfold game_check_win_renju
  simp only [win_loop_eq, loop_horizontal 5 ec heap g.board g.stone hsize hlen x y hy,
    loop_vertical 5 ec heap g.board g.stone hsize hlen x y hx,
    loop_diag 5 ec heap g.board g.stone hsize hlen x y,
    loop_anti 5 ec heap g.board g.stone hsize hlen x y]
  split_ifs with h1 h2 h3 h4
  · exact ⟨fun _ => Or.inl h1, fun _ => rfl⟩
  · exact ⟨fun _ => Or.inr (Or.inl h2), fun _ => rfl⟩
  · exact ⟨fun _ => Or.inr (Or.inr (Or.inl h3)), fun _ => rfl⟩
  · exact ⟨fun _ => Or.inr (Or.inr (Or.inr h4)), fun _ => rfl⟩
  · constructor
    · intro h; exact absurd h (by simp)
    · rintro (h | h | h | h)
      · exact absurd h h1
      · exact absurd h h2
      · exact absurd h h3
      · exact absurd h h4

/-- The state left by `game_check_win_renju`: the winner is stored exactly when the
result is `true`. -/
theorem game_check_win_renju_state (ec : error_codes) (heap : Nat → Nat) (g : game)
    (x y : Nat) :
    (game_check_win_renju ec heap g x y).2
      = if (game_check_win_renju ec heap g x y).1 = true
        then { g with winner := g.stone } else g := by
  unfold game_check_win_renju
  split_ifs <;> simp_all

theorem is_overline_iff (ec : error_codes) (heap : Nat → Nat) (g : game)
    (hsize : g.board.size < 256) (hlen : g.board.grid.length = g.board.size * g.board.size)
    (x y : Nat) (hx : x < g.board.size) (hy : y < g.board.size) :
    is_overline ec heap g x y = true ↔
      g.stone ≠ WHITE_STONE ∧
      (count_loop 6 (line_cls g.board g.stone x y (1, 0)) (for_range (-4) 4) 0 = true
      ∨ count_loop 6 (line_cls g.board g.stone x y (0, 1)) (for_range (-4) 4) 0 = true
      ∨ count_loop 6 (line_cls g.board g.stone x y (1, 1)) (for_range (-4) 4) 0 = true
      ∨ count_loop 6 (line_cls g.board g.stone x y (1, -1)) (for_range (-4) 4) 0 = true) := by
  unfold is_overline
  simp only [overline_loop_eq, loop_horizontal 6 ec heap g.board g.stone hsize hlen x y hy,
    loop_vertical 6 ec heap g.board g.stone hsize hlen x y hx,
    loop_diag 6 ec heap g.board g.stone hsize hlen x y,
    loop_anti 6 ec heap g.board g.stone hsize hlen x y]
  by_cases hw : g.stone = WHITE_STONE
  · simp [hw]
  · by_cases h1 : count_loop 6 (line_cls g.board g.stone x y (1, 0)) (for_range (-4) 4) 0 = true
    · simp [hw, h1]
    · by_cases h2 : count_loop 6 (line_cls g.board g.stone x y (0, 1)) (for_range (-4) 4) 0 = true
      · simp [hw, h1, h2]
      · by_cases h3 : count_loop 6 (line_cls g.board g.stone x y (1, 1)) (for_range (-4) 4) 0 = true
        · simp [hw, h1, h2, h3]
        · simp [hw, h1, h2, h3]

/-- The overline check returns `true` only when some direction has a run of six through
the cell. -/
theorem run_of_is_overline (ec : error_codes) (heap : Nat → Nat) (g : game)
    (hsize : g.board.size < 256) (hlen : g.board.grid.length = g.board.size * g.board.size)
    (x y : Nat) (hx : x < g.board.size) (hy : y < g.board.size)
    (h : is_overline ec heap g x y = true) :
    g.stone ≠ WHITE_STONE ∧ run_through g.board g.stone x y 6 := by
  rw [is_overline_iff ec heap g hsize hlen x y hx hy] at h
  refine ⟨h.1, ?_⟩
  unfold run_through
  rw [exists_direction]
  have key : ∀ d ∈ directions,
      (count_loop 6 (line_cls g.board g.stone x y d) (for_range (-4) 4) 0 = true
        → has_run g.board g.stone x y d 6) := fun d hd =>
    has_run_of_count_loop 6 (by omega) g.board hlen g.stone x y d hd
  rcases h.2 with h1 | h1 | h1 | h1
  · exact Or.inl (key _ (by simp [directions]) h1)
  · exact Or.inr (Or.inl (key _ (by simp [directions]) h1))
  · exact Or.inr (Or.inr (Or.inl (key _ (by simp [directions]) h1)))
  · exact Or.inr (Or.inr (Or.inr (key _ (by simp [directions]) h1)))
theorem board_set_ok (ec : error_codes) (b : board) (x y stone : Nat)
    (hstone : stone = BLACK_STONE ∨ stone = WHITE_STONE) (hx : x < b.size) (hy : y < b.size) :
    board_set ec b x y stone = outcome.ret () (with_stone b x y stone) := by
  unfold board_set with_stone
  rw [if_neg (by omega), if_neg (by omega)]

theorem grid_index_inj (size n m x y : Nat) (hn : n < size) (hx : x < size)
    (h : m * size + n = y * size + x) : n = x ∧ m = y := by
  have h1 : (m * size + n) % size = (y * size + x) % size := by rw [h]
  have h2 : (m * size + n) / size = (y * size + x) / size := by rw [h]
  have hpos : 0 < size := by omega
  rw [Nat.mul_add_mod_of_lt hn, Nat.mul_add_mod_of_lt hx] at h1
  rw [Nat.add_comm (m * size), Nat.add_comm (y * size), Nat.add_mul_div_right _ _ hpos,
    Nat.add_mul_div_right _ _ hpos, Nat.div_eq_of_lt hn, Nat.div_eq_of_lt hx] at h2
  omega

/-- The cells of the board after a stone is written. -/
theorem cell_at_with_stone (b : board) (hlen : b.grid.length = b.size * b.size)
    (x y stone : Nat) (hx : x < b.size) (hy : y < b.size) (cx cy : Int) :
    cell_at (with_stone b x y stone) cx cy
      = if cx = (x : Int) ∧ cy = (y : Int) then some stone else cell_at b cx cy := by
  unfold cell_at
  have hon : on_board (with_stone b x y stone) cx cy ↔ on_board b cx cy := Iff.rfl
  by_cases hb : on_board b cx cy
  · rw [if_pos (hon.mpr hb), if_pos hb]
    obtain ⟨h1, h2, h3, h4⟩ := hb
    obtain ⟨n, rfl⟩ := Int.eq_ofNat_of_zero_le h1
    obtain ⟨m, rfl⟩ := Int.eq_ofNat_of_zero_le h3
    have hn : n < b.size := by omega
    have hm : m < b.size := by omega
    simp only [Int.toNat_ofNat, with_stone]
    by_cases heq : n = x ∧ m = y
    · obtain ⟨rfl, rfl⟩ := heq
      have hidx : m * b.size + n < b.grid.length := by
        rw [hlen]; exact grid_index_lt _ _ _ hn hm
      simp [List.getElem?_set_self, hidx]
    · have hne : y * b.size + x ≠ m * b.size + n := by
        intro h
        exact heq (grid_index_inj b.size n m x y hn hx h.symm)
      rw [List.getElem?_set_ne hne]
      rw [if_neg]
      intro h
      apply heq
      omega
  · rw [if_neg (fun h => hb (hon.mp h)), if_neg hb]
    rw [if_neg]
    rintro ⟨rfl, rfl⟩
    exact hb ⟨by omega, by omega, by omega, by omega⟩

theorem with_stone_size (b : board) (x y stone : Nat) :
    (with_stone b x y stone).size = b.size := rfl

theorem with_stone_length (b : board) (x y stone : Nat) :
    (with_stone b x y stone).grid.length = b.grid.length := by
  simp [with_stone]

theorem game_check_win_fst (ec : error_codes) (heap : Nat → Nat) (g : game)
    (hsize : g.board.size < 256) (hlen : g.board.grid.length = g.board.size * g.board.size)
    (htype : g.type = GAME_FREESTYLE ∨ g.type = GAME_RENJU)
    (x y : Nat) (hx : x < g.board.size) (hy : y < g.board.size) :
    (game_check_win ec heap g x y).1 = true ↔ run_through g.board g.stone x y 5 := by
  unfold game_check_win
  rcases htype with h | h
  · rw [if_pos h, ← game_check_win_freestyle_iff ec heap g hsize hlen x y hx hy]
    split_ifs with hw <;> simp [hw]
  · rw [if_neg (by rw [h]; decide), if_pos h,
      ← game_check_win_renju_iff ec heap g hsize hlen x y hx hy]
    split_ifs with hw <;> simp [hw]

theorem game_check_win_snd (ec : error_codes) (heap : Nat → Nat) (g : game) (x y : Nat) :
    (game_check_win ec heap g x y).2
      = if g.type = GAME_RENJU ∧ (game_check_win ec heap g x y).1 = true
        then { g with winner := g.stone } else g := by
  unfold game_check_win
  by_cases h0 : g.type = GAME_FREESTYLE
  · have h1 : ¬ g.type = GAME_RENJU := by rw [h0]; decide
    rw [if_pos h0]
    split_ifs <;> simp_all
  · rw [if_neg h0]
    by_cases h1 : g.type = GAME_RENJU
    · rw [if_pos h1, game_check_win_renju_state]
      split_ifs <;> simp_all
    · rw [if_neg h1]
      simp [h1]

theorem stone_placed_board (g : game) (x y : Nat) :
    (stone_placed g x y).board = with_stone g.board x y g.stone := rfl

theorem stone_placed_stone (g : game) (x y : Nat) : (stone_placed g x y).stone = g.stone := rfl

theorem stone_placed_type (g : game) (x y : Nat) : (stone_placed g x y).type = g.type := rfl

theorem stone_placed_moves (g : game) (x y : Nat) :
    (stone_placed g x y).moves = g.moves ++ [{ x := x, y := y }] := rfl

/-- What `game_place_stone` does in a Freestyle game in state `Playing`. -/
theorem place_freestyle (ec : error_codes) (heap : Nat → Nat) (g : game) (hwf : g.wf)
    (htype : g.type = GAME_FREESTYLE) (hstate : g.state = GAME_STATE_PLAYING)
    (x y : Nat) (hx : x < g.board.size) (hy : y < g.board.size) :
    game_place_stone ec heap g x y = outcome.ret true (freestyle_next g x y) := by
  unfold freestyle_next
  have hlen1 : (stone_placed g x y).board.grid.length
      = (stone_placed g x y).board.size * (stone_placed g x y).board.size := by
    rw [stone_placed_board, with_stone_length, with_stone_size]; exact hwf.grid_len
  have hwin := game_check_win_fst ec heap (stone_placed g x y) hwf.size_lt hlen1
    (Or.inl htype) x y hx hy
  have hsnd := game_check_win_snd ec heap (stone_placed g x y) x y
  have hnr : ¬ (stone_placed g x y).type = GAME_RENJU := by
    rw [stone_placed_type, htype]; decide
  rw [if_neg (fun h => hnr h.1)] at hsnd
  unfold game_place_stone
  rw [if_neg (by rw [hstate]; simp), if_pos htype, board_set_ok ec g.board x y g.stone
    hwf.stone_ok hx hy]
  simp only
  rw [show record_move g (with_stone g.board x y g.stone) x y = stone_placed g x y from rfl,
    hsnd]
  rw [stone_placed_stone] at hwin
  by_cases hr : run_through (stone_placed g x y).board g.stone x y 5
  · rw [if_pos (hwin.mpr hr), if_pos hr]; rfl
  · rw [if_neg (fun h => hr (hwin.mp h)), if_neg hr]
    split_ifs <;> rfl

/-- What `game_place_stone` does in a Renju game in state `Playing`. -/
theorem place_renju (ec : error_codes) (heap : Nat → Nat) (g : game) (hwf : g.wf)
    (htype : g.type = GAME_RENJU) (hstate : g.state = GAME_STATE_PLAYING)
    (x y : Nat) (hx : x < g.board.size) (hy : y < g.board.size) :
    game_place_stone ec heap g x y = outcome.ret true (renju_next ec heap g x y) := by
  unfold renju_next
  have hlen1 : (stone_placed g x y).board.grid.length
      = (stone_placed g x y).board.size * (stone_placed g x y).board.size := by
    rw [stone_placed_board, with_stone_length, with_stone_size]; exact hwf.grid_len
  have hwin := game_check_win_fst ec heap (stone_placed g x y) hwf.size_lt hlen1
    (Or.inr htype) x y hx hy
  have hsnd := game_check_win_snd ec heap (stone_placed g x y) x y
  unfold game_place_stone
  rw [if_neg (by rw [hstate]; simp), if_neg (by rw [htype]; decide), if_pos htype,
    board_set_ok ec g.board x y g.stone hwf.stone_ok hx hy]
  simp only
  rw [show record_move g (with_stone g.board x y g.stone) x y = stone_placed g x y from rfl]
  rw [stone_placed_stone] at hwin
  by_cases ho : is_overline ec heap (stone_placed g x y) x y = true
  · rw [if_pos ho, if_pos ho]
  · rw [if_neg ho, if_neg ho]
    by_cases hr : run_through (stone_placed g x y).board g.stone x y 5
    · have h2 : (game_check_win ec heap (stone_placed g x y) x y).2
          = { stone_placed g x y with winner := g.stone } := by
        rw [hsnd, if_pos ⟨htype, hwin.mpr hr⟩]; rfl
      rw [if_pos (hwin.mpr hr), if_pos hr, h2]
    · have hnw : ¬ (game_check_win ec heap (stone_placed g x y) x y).1 = true :=
        fun h => hr (hwin.mp h)
      have h2 : (game_check_win ec heap (stone_placed g x y) x y).2 = stone_placed g x y := by
        rw [hsnd, if_neg (fun h => hnw h.2)]
      rw [if_neg hnw, if_neg hr, h2]
      split_ifs <;> rfl


theorem freestyle_next_board (g : game) (x y : Nat) :
    (freestyle_next g x y).board = with_stone g.board x y g.stone := by
  unfold freestyle_next
  split_ifs <;> rfl

theorem freestyle_next_moves (g : game) (x y : Nat) :
    (freestyle_next g x y).moves = g.moves ++ [{ x := x, y := y }] := by
  unfold freestyle_next
  split_ifs <;> rfl

theorem freestyle_next_type (g : game) (x y : Nat) :
    (freestyle_next g x y).type = g.type := by
  unfold freestyle_next
  split_ifs <;> rfl

theorem renju_next_board (ec : error_codes) (heap : Nat → Nat) (g : game) (x y : Nat) :
    (renju_next ec heap g x y).board = with_stone g.board x y g.stone := by
  unfold renju_next
  split_ifs <;> rfl

theorem renju_next_moves (ec : error_codes) (heap : Nat → Nat) (g : game) (x y : Nat) :
    (renju_next ec heap g x y).moves = g.moves ++ [{ x := x, y := y }] := by
  unfold renju_next
  split_ifs <;> rfl

theorem renju_next_type (ec : error_codes) (heap : Nat → Nat) (g : game) (x y : Nat) :
    (renju_next ec heap g x y).type = g.type := by
  unfold renju_next
  split_ifs <;> rfl

/-- A Freestyle placement as a step of a sequence of placements. -/
theorem place_all_cons_freestyle (ec : error_codes) (heap : Nat → Nat) (g : game)
    (x y : Nat) (ms : List move) (hwf : g.wf) (htype : g.type = GAME_FREESTYLE)
    (hstate : g.state = GAME_STATE_PLAYING) (hx : x < g.board.size) (hy : y < g.board.size) :
    place_all ec heap g ({ x := x, y := y } :: ms)
      = place_all ec heap (freestyle_next g x y) ms := by
  rw [place_all]
  simp only
  rw [place_freestyle ec heap g hwf htype hstate x y hx hy]

/-- The placement returns `true` with the next game of the ruleset. -/
theorem place_returns (ec : error_codes) (heap : Nat → Nat) (g : game) (hwf : g.wf)
    (htype : g.type = GAME_FREESTYLE ∨ g.type = GAME_RENJU)
    (hstate : g.state = GAME_STATE_PLAYING)
    (x y : Nat) (hx : x < g.board.size) (hy : y < g.board.size) :
    ∃ g', game_place_stone ec heap g x y = outcome.ret true g' ∧
      (g' = freestyle_next g x y ∨ g' = renju_next ec heap g x y) := by
  rcases htype with h | h
  · exact ⟨_, place_freestyle ec heap g hwf h hstate x y hx hy, Or.inl rfl⟩
  · exact ⟨_, place_renju ec heap g hwf h hstate x y hx hy, Or.inr rfl⟩

theorem toggle_ne (stone : Nat) (h : stone = BLACK_STONE ∨ stone = WHITE_STONE) :
    toggle stone ≠ stone ∧ (toggle stone = BLACK_STONE ∨ toggle stone = WHITE_STONE) := by
  unfold toggle
  rcases h with h | h <;> rw [h] <;> decide

theorem freestyle_next_cases (g : game) (x y : Nat) :
    ((freestyle_next g x y).state = GAME_STATE_FINISHED ∧ (freestyle_next g x y).stone = g.stone)
    ∨ ((freestyle_next g x y).state = g.state ∧ (freestyle_next g x y).stone = toggle g.stone) := by
  unfold freestyle_next
  by_cases h1 : run_through (stone_placed g x y).board g.stone x y 5
  · rw [if_pos h1]; exact Or.inl ⟨rfl, rfl⟩
  · rw [if_neg h1]
    by_cases h2 : game_check_draw (stone_placed g x y) = true
    · rw [if_pos h2]; exact Or.inl ⟨rfl, rfl⟩
    · rw [if_neg h2]; exact Or.inr ⟨rfl, rfl⟩

theorem renju_next_cases (ec : error_codes) (heap : Nat → Nat) (g : game) (x y : Nat) :
    ((renju_next ec heap g x y).state = GAME_STATE_FORBIDDEN
      ∧ (renju_next ec heap g x y).stone = g.stone)
    ∨ ((renju_next ec heap g x y).state = GAME_STATE_FINISHED
      ∧ (renju_next ec heap g x y).stone = g.stone)
    ∨ ((renju_next ec heap g x y).state = g.state
      ∧ (renju_next ec heap g x y).stone = toggle g.stone) := by
  unfold renju_next
  by_cases h0 : is_overline ec heap (stone_placed g x y) x y = true
  · rw [if_pos h0]; exact Or.inl ⟨rfl, rfl⟩
  · rw [if_neg h0]
    by_cases h1 : run_through (stone_placed g x y).board g.stone x y 5
    · rw [if_pos h1]; exact Or.inr (Or.inl ⟨rfl, rfl⟩)
    · rw [if_neg h1]
      by_cases h2 : game_check_draw (stone_placed g x y) = true
      · rw [if_pos h2]; exact Or.inr (Or.inl ⟨rfl, rfl⟩)
      · rw [if_neg h2]
        by_cases h3 : is_open_four ec heap (stone_placed g x y) x y = true
        · rw [if_pos h3]; exact Or.inl ⟨rfl, rfl⟩
        · rw [if_neg h3]; exact Or.inr (Or.inr ⟨rfl, rfl⟩)


/-! ### The loop of `is_open_four` -/

theorem count_loop_cons (T : Nat) (cls : Int → Option Bool) (i : Int) (rest : List Int)
    (count : Nat) :
    count_loop T cls (i :: rest) count =
      match cls i with
      | none => count_loop T cls rest count
      | some true => if count + 1 = T then true else count_loop T cls rest (count + 1)
      | some false => count_loop T cls rest 0 := rfl

theorem four_loop_cons (cls : Int → Option Bool) (opn : Int → Bool) (i : Int)
    (rest : List Int) (count total : Nat) :
    four_loop cls opn (i :: rest) count total =
      match cls i with
      | none => four_loop cls opn rest count total
      | some true =>
        if count + 1 = 4 then
          if opn i then four_loop cls opn rest (count + 1) (total + 1)
          else four_loop cls opn rest (count + 1) total
        else four_loop cls opn rest (count + 1) total
      | some false => four_loop cls opn rest 0 total := rfl

theorem count_after_cons (cls : Int → Option Bool) (i : Int) (rest : List Int)
    (count : Nat) :
    count_after cls (i :: rest) count =
      match cls i with
      | none => count_after cls rest count
      | some true => count_after cls rest (count + 1)
      | some false => count_after cls rest 0 := rfl

theorem four_loop_add (cls : Int → Option Bool) (opn : Int → Bool) (l : List Int)
    (count total : Nat) :
    four_loop cls opn l count total = total + four_loop cls opn l count 0 := by
  induction l generalizing count total with
  | nil => simp [four_loop]
  | cons i rest ih =>
    unfold four_loop
    rcases cls i with _ | v
    · exact ih count total
    · cases v
      · exact ih 0 total
      · simp only
        split_ifs
        · rw [ih (count + 1) (total + 1), ih (count + 1) (0 + 1)]; omega
        · exact ih (count + 1) total
        · exact ih (count + 1) total

/-- When `count` never reaches 4 the loop leaves `totalIntersections` as it was. -/
theorem four_loop_no_event (cls : Int → Option Bool) (opn : Int → Bool) (l : List Int)
    (count total : Nat) (hc : count < 4) (h : count_loop 4 cls l count = false) :
    four_loop cls opn l count total = total := by
  induction l generalizing count with
  | nil => rfl
  | cons i rest ih =>
    unfold count_loop at h
    unfold four_loop
    rcases hcl : cls i with _ | v
    · rw [hcl] at h
      exact ih count hc h
    · cases v
      · rw [hcl] at h
        exact ih 0 (by omega) h
      · rw [hcl] at h
        simp only at h ⊢
        by_cases h4 : count + 1 = 4
        · rw [if_pos h4] at h
          exact absurd h (by simp)
        · rw [if_neg h4] at h
          rw [if_neg h4]
          exact ih (count + 1) (by omega) h

/-- Between two increments of `totalIntersections` the loop reads at least five cells. -/
theorem four_loop_bound (cls : Int → Option Bool) (opn : Int → Bool) (l : List Int)
    (count total : Nat) :
    four_loop cls opn l count total
      ≤ total + (if count ≤ 3 then (l.length + count + 1) / 5 else l.length / 5) := by
  induction l generalizing count total with
  | nil =>
    simp only [four_loop, List.length_nil]
    split_ifs <;> omega
  | cons i rest ih =>
    rw [four_loop_cons]
    simp only [List.length_cons]
    rcases cls i with _ | v
    · have := ih count total
      simp only
      split_ifs at this ⊢ <;> omega
    · cases v
      · have := ih 0 total
        simp only
        rw [if_pos (by omega)] at this
        split_ifs <;> omega
      · simp only
        by_cases h4 : count + 1 = 4
        · have h1 := ih (count + 1) (total + 1)
          have h2 := ih (count + 1) total
          rw [if_neg (by omega)] at h1 h2
          have h3 : count ≤ 3 := by omega
          have h5 : (rest.length + 1 + count + 1) / 5 = rest.length / 5 + 1 := by omega
          rw [if_pos h4, if_pos h3, h5]
          by_cases ho : opn i = true
          · rw [if_pos ho]; omega
          · rw [if_neg ho]; omega
        · rw [if_neg h4]
          have h2 := ih (count + 1) total
          split_ifs at h2 ⊢ <;> omega

theorem four_loop_append (cls : Int → Option Bool) (opn : Int → Bool) (l1 l2 : List Int)
    (count total : Nat) :
    four_loop cls opn (l1 ++ l2) count total
      = four_loop cls opn l2 (count_after cls l1 count) (four_loop cls opn l1 count total) := by
  induction l1 generalizing count total with
  | nil => rfl
  | cons i rest ih =>
    rw [List.cons_append, four_loop_cons, four_loop_cons, count_after_cons]
    rcases cls i with _ | v
    · exact ih count total
    · cases v
      · exact ih 0 total
      · simp only
        by_cases h4 : count + 1 = 4
        · rw [if_pos h4, if_pos h4]
          by_cases ho : opn i = true
          · rw [if_pos ho, if_pos ho]; exact ih (count + 1) (total + 1)
          · rw [if_neg ho, if_neg ho]; exact ih (count + 1) total
        · rw [if_neg h4, if_neg h4]; exact ih (count + 1) total

theorem count_after_le (cls : Int → Option Bool) (l : List Int) (count : Nat) :
    count_after cls l count ≤ count + l.length := by
  induction l generalizing count with
  | nil => simp [count_after]
  | cons i rest ih =>
    unfold count_after
    simp only [List.length_cons]
    rcases cls i with _ | v
    · have := ih count; simp only; omega
    · cases v
      · have := ih 0; simp only; omega
      · have := ih (count + 1); simp only; omega

/-- A window that has, among its first four cells, one that does not hold the stone
increments `totalIntersections` at most once. -/
theorem four_loop_split (cls : Int → Option Bool) (opn : Int → Bool) (A B : List Int)
    (j : Int) (hj : cls j ≠ some true) (hA : A.length ≤ 3) (hAB : A.length + B.length ≤ 8)
    (total : Nat) :
    four_loop cls opn (A ++ j :: B) 0 total ≤ total + 1 := by
  rw [four_loop_append]
  have hA0 : four_loop cls opn A 0 total = total := by
    have := four_loop_bound cls opn A 0 total
    rw [if_pos (by omega)] at this
    have h0 : (A.length + 0 + 1) / 5 = 0 := by omega
    have hge : total ≤ four_loop cls opn A 0 total := by
      rw [four_loop_add]; omega
    omega
  have hcA := count_after_le cls A 0
  rw [hA0, four_loop_cons]
  rcases hcl : cls j with _ | v
  · simp only
    have := four_loop_bound cls opn B (count_after cls A 0) total
    rw [if_pos (by omega)] at this
    have : (B.length + count_after cls A 0 + 1) / 5 ≤ 1 := by omega
    omega
  · cases v
    · simp only
      have := four_loop_bound cls opn B 0 total
      rw [if_pos (by omega)] at this
      have : (B.length + 0 + 1) / 5 ≤ 1 := by omega
      omega
    · exact absurd hcl hj

/-- On the window `-4 .. 4`: if the four cells before the centre do not all hold the
stone, `totalIntersections` grows by at most one. -/
theorem four_loop_window_le (cls : Int → Option Bool) (opn : Int → Bool) (total : Nat)
    (h : ¬ (cls (-4) = some true ∧ cls (-3) = some true ∧ cls (-2) = some true
      ∧ cls (-1) = some true)) :
    four_loop cls opn (for_range (-4) 4) 0 total ≤ total + 1 := by
  rw [for_range_window]
  by_cases h4 : cls (-4) = some true
  · by_cases h3 : cls (-3) = some true
    · by_cases h2 : cls (-2) = some true
      · have h1 : cls (-1) ≠ some true := fun h1 => h ⟨h4, h3, h2, h1⟩
        exact four_loop_split cls opn [-4, -3, -2] [0, 1, 2, 3, 4] (-1) h1 (by simp)
          (by simp) total
      · exact four_loop_split cls opn [-4, -3] [-1, 0, 1, 2, 3, 4] (-2) h2 (by simp)
          (by simp) total
    · exact four_loop_split cls opn [-4] [-2, -1, 0, 1, 2, 3, 4] (-3) h3 (by simp)
        (by simp) total
  · exact four_loop_split cls opn [] [-3, -2, -1, 0, 1, 2, 3, 4] (-4) h4 (by simp)
      (by simp) total

/-- The loop with a weaker test of the two end cells counts at least as much. -/
theorem four_loop_mono (cls : Int → Option Bool) (opn opn' : Int → Bool) (l : List Int)
    (count total : Nat) (h : ∀ i ∈ l, opn i = true → opn' i = true) :
    four_loop cls opn l count total ≤ four_loop cls opn' l count total := by
  induction l generalizing count total with
  | nil => exact le_refl _
  | cons i rest ih =>
    have hr : ∀ c t, four_loop cls opn rest c t ≤ four_loop cls opn' rest c t :=
      fun c t => ih c t (fun j hj => h j (List.mem_cons_of_mem _ hj))
    have hi := h i (List.mem_cons_self _ _)
    rw [four_loop_cons, four_loop_cons]
    rcases cls i with _ | v
    · exact hr count total
    · cases v
      · exact hr 0 total
      · simp only
        by_cases h4 : count + 1 = 4
        · rw [if_pos h4, if_pos h4]
          by_cases ho : opn i = true
          · rw [if_pos ho, if_pos (hi ho)]; exact hr _ _
          · rw [if_neg ho]
            by_cases ho' : opn' i = true
            · rw [if_pos ho']
              have := hr (count + 1) total
              have h2 := four_loop_add cls opn' rest (count + 1) (total + 1)
              have h3 := four_loop_add cls opn' rest (count + 1) total
              omega
            · rw [if_neg ho']; exact hr _ _
        · rw [if_neg h4, if_neg h4]; exact hr _ _

theorem four_loop_congr2 (cls cls' : Int → Option Bool) (opn opn' : Int → Bool)
    (l : List Int) (count total : Nat) (h : ∀ i ∈ l, cls i = cls' i)
    (ho : ∀ i ∈ l, opn i = opn' i) :
    four_loop cls opn l count total = four_loop cls' opn' l count total := by
  induction l generalizing count total with
  | nil => rfl
  | cons i rest ih =>
    have hi : cls i = cls' i := h i (List.mem_cons_self _ _)
    have hoi : opn i = opn' i := ho i (List.mem_cons_self _ _)
    have hr : ∀ c t, four_loop cls opn rest c t = four_loop cls' opn' rest c t :=
      fun c t => ih c t (fun j hj => h j (List.mem_cons_of_mem _ hj))
        (fun j hj => ho j (List.mem_cons_of_mem _ hj))
    simp only [four_loop_cons, hi, hoi, hr]

theorem open_four_horizontal (ec : error_codes) (heap : Nat → Nat) (b : board)
    (stone : Nat) (hsize : b.size < 256) (hlen : b.grid.length = b.size * b.size)
    (x y : Nat) (hy : y < b.size) (total : Nat) :
    open_four_loop ec heap b stone (skip_line b.size) (fun i => (i, (y : Int)))
        (fun i => (i + 1, (y : Int))) (fun i => (i - 5, (y : Int)))
        (for_range ((x : Int) - 4) ((x : Int) + 4)) 0 total
      = total + open_fours ec heap b stone x y (1, 0) := by
  rw [open_four_loop_eq, four_loop_add, four_loop_centre]
  unfold open_fours
  congr 1
  apply four_loop_congr2
  · exact fun k _ => classify_horizontal ec heap b stone hsize hlen x y hy k
  · intro k _
    simp only [open_test, mul_one, mul_zero, add_zero]
    congr 4 <;> ring_nf

theorem open_four_vertical (ec : error_codes) (heap : Nat → Nat) (b : board)
    (stone : Nat) (hsize : b.size < 256) (hlen : b.grid.length = b.size * b.size)
    (x y : Nat) (hx : x < b.size) (total : Nat) :
    open_four_loop ec heap b stone (skip_line b.size) (fun j => ((x : Int), j))
        (fun j => ((x : Int), j + 1)) (fun j => ((x : Int), j - 5))
        (for_range ((y : Int) - 4) ((y : Int) + 4)) 0 total
      = total + open_fours ec heap b stone x y (0, 1) := by
  rw [open_four_loop_eq, four_loop_add, four_loop_centre]
  unfold open_fours
  congr 1
  apply four_loop_congr2
  · exact fun k _ => classify_vertical ec heap b stone hsize hlen x y hx k
  · intro k _
    simp only [open_test, mul_one, mul_zero, add_zero]
    congr 4 <;> ring_nf

theorem open_four_diag (ec : error_codes) (heap : Nat → Nat) (b : board)
    (stone : Nat) (hsize : b.size < 256) (hlen : b.grid.length = b.size * b.size)
    (x y : Nat) (total : Nat) :
    open_four_loop ec heap b stone (skip_diag b.size x y)
        (fun i => ((x : Int) + i, (y : Int) + i))
        (fun i => ((x : Int) + i + 1, (y : Int) + i + 1))
        (fun i => ((x : Int) + i - 5, (y : Int) + i - 5))
        (for_range (-4) 4) 0 total
      = total + open_fours ec heap b stone x y (1, 1) := by
  rw [open_four_loop_eq, four_loop_add]
  unfold open_fours
  congr 1
  apply four_loop_congr2
  · exact fun k _ => classify_diag ec heap b stone hsize hlen x y k
  · intro k _
    simp only [open_test, mul_one]
    congr 4 <;> ring_nf

theorem open_four_anti (ec : error_codes) (heap : Nat → Nat) (b : board)
    (stone : Nat) (hsize : b.size < 256) (hlen : b.grid.length = b.size * b.size)
    (x y : Nat) (total : Nat) :
    open_four_loop ec heap b stone (skip_anti b.size x y)
        (fun i => ((x : Int) + i, (y : Int) - i))
        (fun i => ((x : Int) + i + 1, (y : Int) - i - 1))
        (fun i => ((x : Int) + i - 5, (y : Int) - i + 5))
        (for_range (-4) 4) 0 total
      = total + open_fours ec heap b stone x y (1, -1) := by
  rw [open_four_loop_eq, four_loop_add]
  unfold open_fours
  congr 1
  apply four_loop_congr2
  · exact fun k _ => classify_anti ec heap b stone hsize hlen x y k
  · intro k _
    simp only [open_test, mul_one]
    congr 4 <;> ring_nf

/-- The function `is_open_four` in terms of the four directions. -/
theorem is_open_four_iff (ec : error_codes) (heap : Nat → Nat) (g : game)
    (hsize : g.board.size < 256) (hlen : g.board.grid.length = g.board.size * g.board.size)
    (x y : Nat) (hx : x < g.board.size) (hy : y < g.board.size) :
    is_open_four ec heap g x y = true ↔
      g.stone ≠ WHITE_STONE ∧
      1 < open_fours ec heap g.board g.stone x y (1, 0)
        + open_fours ec heap g.board g.stone x y (0, 1)
        + open_fours ec heap g.board g.stone x y (1, 1)
        + open_fours ec heap g.board g.stone x y (1, -1) := by
  unfold is_open_four
  by_cases hw : g.stone = WHITE_STONE
  · simp [hw]
  · rw [if_neg hw]
    simp only [open_four_horizontal ec heap g.board g.stone hsize hlen x y hy,
      open_four_vertical ec heap g.board g.stone hsize hlen x y hx,
      open_four_diag ec heap g.board g.stone hsize hlen x y,
      open_four_anti ec heap g.board g.stone hsize hlen x y, decide_eq_true_eq]
    constructor
    · intro h; exact ⟨hw, by omega⟩
    · intro h; omega

theorem open_upper_of_board_get (ec : error_codes) (heap : Nat → Nat) (b : board)
    (hsize : b.size < 256) (hlen : b.grid.length = b.size * b.size) (cx cy : Int)
    (h : board_get ec heap b (to_uchar cx) (to_uchar cy) = EMPTY_INTERSECTION) :
    open_upper b cx cy = true := by
  unfold open_upper
  by_cases hon : on_board b cx cy
  · rw [cell_at_eq_board_get ec heap b hsize hlen cx cy hon, h]
    rfl
  · rw [cell_at_off_board b cx cy hon]

theorem open_fours_le_upper (ec : error_codes) (heap : Nat → Nat) (b : board)
    (hsize : b.size < 256) (hlen : b.grid.length = b.size * b.size) (stone : Nat)
    (x y : Int) (d : Int × Int) :
    open_fours ec heap b stone x y d ≤ open_fours_upper b stone x y d := by
  unfold open_fours open_fours_upper
  apply four_loop_mono
  intro k _ hk
  simp only [open_test, decide_eq_true_eq] at hk
  rw [Bool.and_eq_true]
  exact ⟨open_upper_of_board_get ec heap b hsize hlen _ _ hk.1,
    open_upper_of_board_get ec heap b hsize hlen _ _ hk.2⟩

/-! ### Invariants of the reachable games -/

theorem countP_set_stone (l : List Nat) (i v : Nat) (hi : l[i]? = some EMPTY_INTERSECTION)
    (hv : v ≠ EMPTY_INTERSECTION) :
    (l.set i v).countP (fun v => decide (v ≠ EMPTY_INTERSECTION))
      = l.countP (fun v => decide (v ≠ EMPTY_INTERSECTION)) + 1 := by
  induction l generalizing i with
  | nil => simp at hi
  | cons a rest ih =>
    cases i with
    | zero =>
      simp only [List.getElem?_cons_zero, Option.some.injEq] at hi
      subst hi
      simp [List.set, List.countP_cons, hv]
    | succ i =>
      simp only [List.getElem?_cons_succ] at hi
      simp only [List.set, List.countP_cons, ih i hi]
      omega

theorem cell_at_nat (b : board) (x y : Nat) (hx : x < b.size) (hy : y < b.size) :
    cell_at b (x : Int) (y : Int) = b.grid[y * b.size + x]? := by
  unfold cell_at
  rw [if_pos ⟨by omega, by omega, by omega, by omega⟩]
  simp

theorem stones_with_stone (b : board) (x y stone : Nat) (hx : x < b.size) (hy : y < b.size)
    (hempty : cell_at b x y = some EMPTY_INTERSECTION) (hstone : stone ≠ EMPTY_INTERSECTION) :
    stones (with_stone b x y stone) = stones b + 1 := by
  rw [cell_at_nat b x y hx hy] at hempty
  exact countP_set_stone b.grid _ stone hempty hstone

theorem has_run_of_five_from (b : board) (c : Nat) (x0 y0 : Int) (d : Int × Int) (x y : Int)
    (t0 : Nat) (ht0 : t0 < 5) (hx : x0 + (t0 : Int) * d.1 = x) (hy : y0 + (t0 : Int) * d.2 = y)
    (h : five_from b c x0 y0 d) : has_run b c x y d 5 := by
  refine ⟨t0, ht0, fun t ht => ?_⟩
  have := h t ht
  rw [← hx, ← hy]
  rw [show x0 + (t0 : Int) * d.1 + ((t : Int) - (t0 : Int)) * d.1 = x0 + (t : Int) * d.1 by ring,
    show y0 + (t0 : Int) * d.2 + ((t : Int) - (t0 : Int)) * d.2 = y0 + (t : Int) * d.2 by ring]
  exact this

/-- Writing a stone creates a line of five only through the cell written. -/
theorem no_five_with_stone (b : board) (hlen : b.grid.length = b.size * b.size)
    (x y stone : Nat) (hx : x < b.size) (hy : y < b.size) (hb : no_five b)
    (hrun : ¬ run_through (with_stone b x y stone) stone x y 5) :
    no_five (with_stone b x y stone) := by
  intro c x0 y0 d hd hc hfive
  by_cases hthrough : ∃ t0 : Nat, t0 < 5 ∧ x0 + (t0 : Int) * d.1 = (x : Int)
      ∧ y0 + (t0 : Int) * d.2 = (y : Int)
  · obtain ⟨t0, ht0, hx0, hy0⟩ := hthrough
    have hcs : c = stone := by
      have h1 := hfive t0 ht0
      rw [hx0, hy0, cell_at_with_stone b hlen x y stone hx hy, if_pos ⟨rfl, rfl⟩] at h1
      exact (Option.some.inj h1).symm
    rw [hcs] at hfive
    exact hrun ⟨d, hd, has_run_of_five_from _ _ x0 y0 d x y t0 ht0 hx0 hy0 hfive⟩
  · apply hb c x0 y0 d hd hc
    intro t ht
    have h1 := hfive t ht
    rw [cell_at_with_stone b hlen x y stone hx hy, if_neg] at h1
    · exact h1
    · intro heq
      exact hthrough ⟨t, ht, heq.1, heq.2⟩

theorem freestyle_next_playing (g : game) (x y : Nat)
    (h : (freestyle_next g x y).state = GAME_STATE_PLAYING) :
    ¬ run_through (stone_placed g x y).board g.stone x y 5
      ∧ freestyle_next g x y = { stone_placed g x y with stone := toggle g.stone } := by
  unfold freestyle_next at h ⊢
  by_cases h1 : run_through (stone_placed g x y).board g.stone x y 5
  · rw [if_pos h1] at h; exact absurd h (by simp)
  · rw [if_neg h1] at h ⊢
    by_cases h2 : game_check_draw (stone_placed g x y) = true
    · rw [if_pos h2] at h; exact absurd h (by simp)
    · rw [if_neg h2]; exact ⟨h1, rfl⟩

theorem renju_next_playing (ec : error_codes) (heap : Nat → Nat) (g : game) (x y : Nat)
    (h : (renju_next ec heap g x y).state = GAME_STATE_PLAYING) :
    ¬ run_through (stone_placed g x y).board g.stone x y 5
      ∧ renju_next ec heap g x y = { stone_placed g x y with stone := toggle g.stone } := by
  unfold renju_next at h ⊢
  by_cases h0 : is_overline ec heap (stone_placed g x y) x y = true
  · rw [if_pos h0] at h; exact absurd h (by simp)
  · rw [if_neg h0] at h ⊢
    by_cases h1 : run_through (stone_placed g x y).board g.stone x y 5
    · rw [if_pos h1] at h; exact absurd h (by simp)
    · rw [if_neg h1] at h ⊢
      by_cases h2 : game_check_draw (stone_placed g x y) = true
      · rw [if_pos h2] at h; exact absurd h (by simp)
      · rw [if_neg h2] at h ⊢
        by_cases h3 : is_open_four ec heap (stone_placed g x y) x y = true
        · rw [if_pos h3] at h; exact absurd h (by simp)
        · rw [if_neg h3]; exact ⟨h1, rfl⟩

theorem stone_placed_wf (g : game) (hwf : g.wf) (x y : Nat) : (stone_placed g x y).wf := by
  refine ⟨hwf.size_lt, ?_, hwf.stone_ok, ?_⟩
  · rw [stone_placed_board, with_stone_length, with_stone_size]; exact hwf.grid_len
  · have hroom := hwf.room
    simp only [stone_placed, record_move, List.length_append, List.length_singleton]
    split_ifs <;> omega

/-- The invariant after the stone is written and the move recorded, for a game left in any
state with any colour to move and the winner field set or not as the state requires. -/
theorem inv_of_next (g : game) (hinv : g.inv) (hstate : g.state = GAME_STATE_PLAYING)
    (x y : Nat) (hx : x < g.board.size) (hy : y < g.board.size)
    (hempty : cell_at g.board x y = some EMPTY_INTERSECTION) (g' : game)
    (hboard : g'.board = with_stone g.board x y g.stone)
    (hmoves : g'.moves = g.moves ++ [{ x := x, y := y }])
    (hcap : g'.moves_capacity = (stone_placed g x y).moves_capacity)
    (hstone : g'.stone = g.stone ∨ g'.stone = toggle g.stone)
    (hplay : g'.state = GAME_STATE_PLAYING →
      g'.winner = g.winner ∧ ¬ run_through (with_stone g.board x y g.stone) g.stone x y 5) :
    g'.inv := by
  have hwf1 := stone_placed_wf g hinv.wf x y
  have hne : g.stone ≠ EMPTY_INTERSECTION := by
    rcases hinv.wf.stone_ok with h | h <;> rw [h] <;> decide
  refine ⟨⟨?_, ?_, ?_, ?_⟩, ?_, ?_, ?_⟩
  · rw [hboard]; exact hinv.wf.size_lt
  · rw [hboard, with_stone_length, with_stone_size]; exact hinv.wf.grid_len
  · rcases hstone with h | h
    · rw [h]; exact hinv.wf.stone_ok
    · rw [h]; exact (toggle_ne g.stone hinv.wf.stone_ok).2
  · rw [hmoves, hcap, ← stone_placed_moves]; exact hwf1.room
  · intro hp
    rw [(hplay hp).1]
    exact hinv.winner_none hstate
  · unfold game.moves_count
    rw [hmoves, hboard, stones_with_stone g.board x y g.stone hx hy hempty hne,
      List.length_append, ← hinv.count]
    rfl
  · intro hp
    rw [hboard]
    exact no_five_with_stone g.board hinv.wf.grid_len x y g.stone hx hy (hinv.no_run hstate)
      (hplay hp).2

theorem inv_create (board_size game_type : Nat) (hsize : board_size < 256) :
    (game_create board_size game_type).inv := by
  refine ⟨⟨hsize, ?_, Or.inl rfl, by simp [game_create]⟩, fun _ => rfl, ?_, ?_⟩
  · simp [game_create, board_create]
  · simp [game.moves_count, game_create, board_create, stones, List.countP_replicate]
  · intro _ c x y d _ hc hfive
    have h0 := hfive 0 (by decide)
    unfold cell_at at h0
    split_ifs at h0
    simp only [game_create, board_create] at h0
    rw [List.getElem?_replicate] at h0
    split_ifs at h0
    exact hc (Option.some.inj h0).symm

/-- A placement in state `Playing` on an empty cell of the board keeps the invariant. -/
theorem inv_place (ec : error_codes) (heap : Nat → Nat) (g g' : game) (x y : Nat) (r : Bool)
    (hinv : g.inv) (hstate : g.state = GAME_STATE_PLAYING)
    (hx : x < g.board.size) (hy : y < g.board.size)
    (hempty : cell_at g.board x y = some EMPTY_INTERSECTION)
    (hplace : game_place_stone ec heap g x y = outcome.ret r g') : g'.inv := by
  by_cases hF : g.type = GAME_FREESTYLE
  · rw [place_freestyle ec heap g hinv.wf hF hstate x y hx hy] at hplace
    injection hplace with _ hg
    subst hg
    apply inv_of_next g hinv hstate x y hx hy hempty _ (freestyle_next_board g x y)
      (freestyle_next_moves g x y)
    · unfold freestyle_next; split_ifs <;> rfl
    · rcases freestyle_next_cases g x y with h | h
      · exact Or.inl h.2
      · exact Or.inr h.2
    · intro hp
      obtain ⟨h1, h2⟩ := freestyle_next_playing g x y hp
      rw [h2]
      exact ⟨rfl, h1⟩
  · by_cases hR : g.type = GAME_RENJU
    · rw [place_renju ec heap g hinv.wf hR hstate x y hx hy] at hplace
      injection hplace with _ hg
      subst hg
      apply inv_of_next g hinv hstate x y hx hy hempty _ (renju_next_board ec heap g x y)
        (renju_next_moves ec heap g x y)
      · unfold renju_next; split_ifs <;> rfl
      · rcases renju_next_cases ec heap g x y with h | h | h
        · exact Or.inl h.2
        · exact Or.inl h.2
        · exact Or.inr h.2
      · intro hp
        obtain ⟨h1, h2⟩ := renju_next_playing ec heap g x y hp
        rw [h2]
        exact ⟨rfl, h1⟩
    · unfold game_place_stone at hplace
      rw [if_neg (by rw [hstate]; simp), if_neg hF, if_neg hR] at hplace
      injection hplace with _ hg
      subst hg
      exact hinv

theorem reachable_inv (ec : error_codes) (heap : Nat → Nat) (g : game)
    (h : reachable ec heap g) : g.inv := by
  induction h with
  | create board_size game_type hsize _ => exact inv_create board_size game_type hsize
  | place g g' x y r _ hstate hx hy hempty hplace ih =>
    exact inv_place ec heap g g' x y r ih hstate hx hy hempty hplace

/-! ### Full boards -/

theorem board_is_full_iff_all (b : board) (hlen : b.grid.length = b.size * b.size) :
    board_is_full b = true ↔ ∀ v ∈ b.grid, v ≠ EMPTY_INTERSECTION := by
  unfold board_is_full
  rw [List.all_eq_true]
  constructor
  · intro h v hv
    obtain ⟨i, hi, rfl⟩ := List.getElem_of_mem hv
    have := h i (by rw [List.mem_range, ← hlen]; exact hi)
    simp only [decide_eq_true_eq] at this
    rwa [List.getD_eq_getElem?_getD, List.getElem?_eq_getElem hi] at this
  · intro h i hi
    rw [List.mem_range, ← hlen] at hi
    simp only [decide_eq_true_eq]
    rw [List.getD_eq_getElem?_getD, List.getElem?_eq_getElem hi]
    exact h _ (List.getElem_mem hi)

theorem board_is_full_iff_stones (b : board) (hlen : b.grid.length = b.size * b.size) :
    board_is_full b = true ↔ stones b = b.size * b.size := by
  rw [board_is_full_iff_all b hlen, ← hlen]
  unfold stones
  rw [List.countP_eq_length]
  simp

/-- The draw test agrees with `board_is_full` when the history has one move per stone. -/
theorem game_check_draw_eq (g : game) (hlen : g.board.grid.length = g.board.size * g.board.size)
    (hcount : g.moves_count = stones g.board) :
    game_check_draw g = board_is_full g.board := by
  rw [Bool.eq_iff_iff, board_is_full_iff_stones g.board hlen, ← hcount]
  unfold game_check_draw
  simp only [decide_eq_true_eq]
  exact eq_comm

theorem board_is_full_of_cells (b : board) (hlen : b.grid.length = b.size * b.size)
    (h : ∀ cx cy : Int, on_board b cx cy → cell_at b cx cy ≠ some EMPTY_INTERSECTION) :
    board_is_full b = true := by
  rw [board_is_full_iff_all b hlen]
  intro v hv
  obtain ⟨i, hi, rfl⟩ := List.getElem_of_mem hv
  rw [hlen] at hi
  have hpos : 0 < b.size := by
    rcases Nat.eq_zero_or_pos b.size with h0 | h0
    · rw [h0] at hi; simp at hi
    · exact h0
  have hx : i % b.size < b.size := Nat.mod_lt _ hpos
  have hy : i / b.size < b.size := Nat.div_lt_of_lt_mul hi
  have hcell := h (((i % b.size : Nat)) : Int) (((i / b.size : Nat)) : Int)
    ⟨Int.natCast_nonneg _, by exact_mod_cast hx, Int.natCast_nonneg _, by exact_mod_cast hy⟩
  rw [cell_at_nat b _ _ hx hy] at hcell
  have hidx : i / b.size * b.size + i % b.size = i := Nat.div_add_mod' i b.size
  rw [hidx, List.getElem?_eq_getElem (by rw [hlen]; exact hi)] at hcell
  intro h0
  exact hcell (by rw [h0])

/-! ### Runs of six and the overline check -/

theorem offset_ne_centre (x y : Int) (d : Int × Int) (hd : d ∈ directions) (k : Int)
    (hk : k ≠ 0) : ¬ (x + k * d.1 = x ∧ y + k * d.2 = y) := by
  simp only [directions, List.mem_cons, List.mem_singleton, List.not_mem_nil, or_false] at hd
  rcases hd with rfl | rfl | rfl | rfl <;> simp only <;> omega

/-- When the board had no line of five, a run of six through the stone just written lies
inside the window of the overline check, which therefore finds it. -/
theorem count_loop_six_of_run (b : board) (hlen : b.grid.length = b.size * b.size)
    (x y stone : Nat) (hx : x < b.size) (hy : y < b.size)
    (hstone : stone ≠ EMPTY_INTERSECTION) (hb : no_five b)
    (d : Int × Int) (hd : d ∈ directions)
    (h : has_run (with_stone b x y stone) stone x y d 6) :
    count_loop 6 (line_cls (with_stone b x y stone) stone x y d) (for_range (-4) 4) 0
      = true := by
  obtain ⟨s, hs, hrun⟩ := h
  have hold : ∀ k : Int, k ≠ 0 →
      cell_at (with_stone b x y stone) ((x : Int) + k * d.1) ((y : Int) + k * d.2) = some stone →
      cell_at b ((x : Int) + k * d.1) ((y : Int) + k * d.2) = some stone := by
    intro k hk hc
    rw [cell_at_with_stone b hlen x y stone hx hy, if_neg (offset_ne_centre _ _ d hd k hk)] at hc
    exact hc
  by_cases h0 : s = 0
  · exfalso
    apply hb stone ((x : Int) + d.1) ((y : Int) + d.2) d hd hstone
    intro t ht
    have h1 := hold ((t : Int) + 1) (by omega) (by
      have := hrun (t + 1) (by omega)
      rw [h0] at this
      simpa using this)
    rw [show (x : Int) + d.1 + (t : Int) * d.1 = (x : Int) + ((t : Int) + 1) * d.1 by ring,
      show (y : Int) + d.2 + (t : Int) * d.2 = (y : Int) + ((t : Int) + 1) * d.2 by ring]
    exact h1
  · by_cases h5 : s = 5
    · exfalso
      apply hb stone ((x : Int) - 5 * d.1) ((y : Int) - 5 * d.2) d hd hstone
      intro t ht
      have h1 := hold ((t : Int) - 5) (by omega) (by
        have := hrun t (by omega)
        rw [h5] at this
        simpa using this)
      rw [show (x : Int) - 5 * d.1 + (t : Int) * d.1 = (x : Int) + ((t : Int) - 5) * d.1 by ring,
        show (y : Int) - 5 * d.2 + (t : Int) * d.2 = (y : Int) + ((t : Int) - 5) * d.2 by ring]
      exact h1
    · apply count_loop_of_run 6 _ s (by omega) hs (by omega)
      intro t ht
      rw [line_cls_some_true]
      exact hrun t ht

theorem is_overline_of_run_six (ec : error_codes) (heap : Nat → Nat) (g : game) (hwf : g.wf)
    (x y : Nat) (hx : x < g.board.size) (hy : y < g.board.size)
    (hblack : g.stone = BLACK_STONE) (hb : no_five g.board)
    (h : run_through (stone_placed g x y).board g.stone x y 6) :
    is_overline ec heap (stone_placed g x y) x y = true := by
  have hwf1 := stone_placed_wf g hwf x y
  rw [is_overline_iff ec heap _ hwf1.size_lt hwf1.grid_len x y hx hy]
  refine ⟨by rw [stone_placed_stone, hblack]; decide, ?_⟩
  obtain ⟨d, hd, hrun⟩ := h
  have hne : g.stone ≠ EMPTY_INTERSECTION := by rw [hblack]; decide
  have key := count_loop_six_of_run g.board hwf.grid_len x y g.stone hx hy hne hb d hd hrun
  rw [stone_placed_board, stone_placed_stone]
  simp only [directions, List.mem_cons, List.mem_singleton, List.not_mem_nil, or_false] at hd
  rcases hd with rfl | rfl | rfl | rfl
  · exact Or.inl key
  · exact Or.inr (Or.inl key)
  · exact Or.inr (Or.inr (Or.inl key))
  · exact Or.inr (Or.inr (Or.inr key))

theorem run_through_mono (b : board) (c : Nat) (x y n : Nat) (hn : 0 < n)
    (h : run_through b c x y (n + 1)) : run_through b c x y n := by
  obtain ⟨d, hd, hrun⟩ := h
  exact ⟨d, hd, has_run_mono b c x y d n hn hrun⟩

theorem is_overline_false_of_no_run (ec : error_codes) (heap : Nat → Nat) (g : game)
    (hwf : g.wf) (x y : Nat) (hx : x < g.board.size) (hy : y < g.board.size)
    (h : ¬ run_through (stone_placed g x y).board g.stone x y 6) :
    ¬ is_overline ec heap (stone_placed g x y) x y = true := by
  intro ho
  have hwf1 := stone_placed_wf g hwf x y
  exact h (run_of_is_overline ec heap _ hwf1.size_lt hwf1.grid_len x y hx hy ho).2

/-! ### Bounds on the count of `is_open_four` -/

theorem centre_class (b : board) (stone : Nat) (x y : Int) (d : Int × Int)
    (hc : cell_at b x y = some stone) : line_cls b stone x y d 0 = some true := by
  rw [line_cls_some_true]; simpa using hc

/-- A direction without a run of four through the stone adds nothing to the count. -/
theorem open_fours_eq_zero (ec : error_codes) (heap : Nat → Nat) (b : board)
    (hlen : b.grid.length = b.size * b.size) (stone : Nat) (x y : Int) (d : Int × Int)
    (hd : d ∈ directions) (hc : cell_at b x y = some stone)
    (h : ¬ has_run b stone x y d 4) : open_fours ec heap b stone x y d = 0 := by
  unfold open_fours
  apply four_loop_no_event _ _ _ 0 0 (by decide)
  by_contra hne
  rw [Bool.not_eq_false] at hne
  exact h (has_run_four_of_count_loop b hlen stone x y d hd hc hne)

/-- A direction without a run of five through the stone adds at most one to the count. -/
theorem open_fours_le_one (ec : error_codes) (heap : Nat → Nat) (b : board)
    (stone : Nat) (x y : Int) (d : Int × Int) (hc : cell_at b x y = some stone)
    (h : ¬ has_run b stone x y d 5) : open_fours ec heap b stone x y d ≤ 1 := by
  unfold open_fours
  have := four_loop_window_le (line_cls b stone x y d)
    (open_test ec heap b (fun k => (x + (k + 1) * d.1, y + (k + 1) * d.2))
      (fun k => (x + (k - 5) * d.1, y + (k - 5) * d.2))) 0 (by
    rintro ⟨h4, h3, h2, h1⟩
    apply h
    rw [has_run_iff]
    refine ⟨4, by decide, fun t ht => ?_⟩
    have h0 := centre_class b stone x y d hc
    interval_cases t
    · simpa using h4
    · simpa using h3
    · simpa using h2
    · simpa using h1
    · simpa using h0)
  omega

theorem reachable_game_after (ec : error_codes) (heap : Nat → Nat) (ms : List move) :
    ∀ g : game, reachable ec heap g → legal_moves ec heap g ms = true →
      reachable ec heap (game_after ec heap g ms) := by
  induction ms with
  | nil => intro g hg _; exact hg
  | cons m ms ih =>
    intro g hg hl
    unfold legal_moves at hl
    rw [Bool.and_eq_true, decide_eq_true_eq] at hl
    obtain ⟨⟨hstate, hx, hy, hempty⟩, hrest⟩ := hl
    rcases hp : game_place_stone ec heap g m.x m.y with ⟨r, g'⟩ | ⟨code, g'⟩
    · rw [hp] at hrest
      have hg' : reachable ec heap g' :=
        reachable.place g g' m.x m.y r hg hstate hx hy hempty hp
      have := ih g' hg' hrest
      unfold game_after at this ⊢
      rw [place_all, hp]
      exact this
    · rw [hp] at hrest
      exact absurd hrest (by simp)

/-! ### Reads of the grid -/

theorem board_get_of_grid_read (ec : error_codes) (heap : Nat → Nat) (b : board) (x y v : Nat)
    (h : grid_read b x y = some v) : board_get ec heap b x y = v := by
  unfold grid_read at h
  unfold board_get
  by_cases hg : x > b.size ∨ y > b.size
  · rw [if_pos hg] at h; exact Option.noConfusion h
  · rw [if_neg hg] at h
    rw [if_neg hg, List.getD_eq_getElem?_getD, h]
    rfl

theorem open_fours_lower_le (ec : error_codes) (heap : Nat → Nat) (b : board) (stone : Nat)
    (x y : Int) (d : Int × Int) :
    open_fours_lower b stone x y d ≤ open_fours ec heap b stone x y d := by
  unfold open_fours open_fours_lower
  apply four_loop_mono
  intro k _ hk
  simp only [decide_eq_true_eq] at hk
  simp only [open_test, decide_eq_true_eq]
  exact ⟨board_get_of_grid_read ec heap b _ _ _ hk.1,
    board_get_of_grid_read ec heap b _ _ _ hk.2⟩

/-! ### board.c on its own -/

theorem board_get_eq_getElem? (ec : error_codes) (heap : Nat → Nat) (b : board)
    (hlen : b.grid.length = b.size * b.size) (x y : Nat) (hx : x < b.size) (hy : y < b.size) :
    b.grid[y * b.size + x]? = some (board_get ec heap b x y) := by
  have hidx : y * b.size + x < b.grid.length := by
    rw [hlen]; exact grid_index_lt _ _ _ hx hy
  unfold board_get
  rw [if_neg (by omega), List.getD_eq_getElem?_getD, List.getElem?_eq_getElem hidx]
  rfl

theorem board_get_with_stone (ec : error_codes) (heap : Nat → Nat) (b : board)
    (hlen : b.grid.length = b.size * b.size) (x y c : Nat) (hx : x < b.size) (hy : y < b.size)
    (x' y' : Nat) (hx' : x' < b.size) (hy' : y' < b.size) :
    board_get ec heap (with_stone b x y c) x' y'
      = if x' = x ∧ y' = y then c else board_get ec heap b x' y' := by
  have hlen' : (with_stone b x y c).grid.length
      = (with_stone b x y c).size * (with_stone b x y c).size := by
    rw [with_stone_length, with_stone_size]; exact hlen
  have h1 := board_get_eq_getElem? ec heap (with_stone b x y c) hlen' x' y' hx' hy'
  have h2 := board_get_eq_getElem? ec heap b hlen x' y' hx' hy'
  have hidx : y' * b.size + x' < b.grid.length := by
    rw [hlen]; exact grid_index_lt _ _ _ hx' hy'
  simp only [with_stone] at h1
  by_cases heq : x' = x ∧ y' = y
  · obtain ⟨rfl, rfl⟩ := heq
    rw [List.getElem?_set_self hidx] at h1
    rw [if_pos ⟨rfl, rfl⟩]
    exact (Option.some.inj h1).symm
  · have hne : y * b.size + x ≠ y' * b.size + x' := by
      intro h
      exact heq (grid_index_inj b.size x' y' x y hx' hx h.symm)
    rw [List.getElem?_set_ne hne, h2] at h1
    rw [if_neg heq]
    exact (Option.some.inj h1).symm

theorem board_is_full_iff_cells (ec : error_codes) (heap : Nat → Nat) (b : board)
    (hlen : b.grid.length = b.size * b.size) :
    board_is_full b = true ↔
      ∀ x y : Nat, x < b.size → y < b.size → board_get ec heap b x y ≠ EMPTY_INTERSECTION := by
  rw [board_is_full_iff_all b hlen]
  constructor
  · intro h x y hx hy
    have hidx : y * b.size + x < b.grid.length := by
      rw [hlen]; exact grid_index_lt _ _ _ hx hy
    have hg := board_get_eq_getElem? ec heap b hlen x y hx hy
    rw [List.getElem?_eq_getElem hidx] at hg
    rw [← Option.some.inj hg]
    exact h _ (List.getElem_mem hidx)
  · intro h v hv
    obtain ⟨i, hi, rfl⟩ := List.getElem_of_mem hv
    have hi' := hi
    rw [hlen] at hi'
    have hpos : 0 < b.size := by
      rcases Nat.eq_zero_or_pos b.size with h0 | h0
      · rw [h0] at hi'; simp at hi'
      · exact h0
    have hx : i % b.size < b.size := Nat.mod_lt _ hpos
    have hy : i / b.size < b.size := Nat.div_lt_of_lt_mul hi'
    have hg := board_get_eq_getElem? ec heap b hlen _ _ hx hy
    rw [Nat.div_add_mod' i b.size, List.getElem?_eq_getElem hi] at hg
    rw [Option.some.inj hg]
    exact h _ _ hx hy

/-! ### The history and the state of reachable games -/

theorem is_overline_black (ec : error_codes) (heap : Nat → Nat) (g : game) (x y : Nat)
    (h : is_overline ec heap g x y = true) : g.stone ≠ WHITE_STONE := by
  intro hw
  unfold is_overline at h
  rw [if_pos hw] at h
  exact Bool.false_ne_true h

theorem is_open_four_black (ec : error_codes) (heap : Nat → Nat) (g : game) (x y : Nat)
    (h : is_open_four ec heap g x y = true) : g.stone ≠ WHITE_STONE := by
  intro hw
  unfold is_open_four at h
  rw [if_pos hw] at h
  exact Bool.false_ne_true h

theorem ply_colour_ne_empty (i : Nat) : ply_colour i ≠ EMPTY_INTERSECTION := by
  unfold ply_colour
  split_ifs <;> decide

theorem last_stone_of_append (g' : game) (b : board) (hlen : b.grid.length = b.size * b.size)
    (ms : List move) (x y stone : Nat) (hx : x < b.size) (hy : y < b.size)
    (hboard : g'.board = with_stone b x y stone)
    (hmoves : g'.moves = ms ++ [{ x := x, y := y }]) :
    last_stone g' = some stone := by
  unfold last_stone
  rw [hmoves, List.getLast?_concat, hboard]
  simp only
  rw [cell_at_with_stone b hlen x y stone hx hy, if_pos ⟨rfl, rfl⟩]

/-- The three ways a call of `game_place_stone` made in state `Playing` on a cell of the
board can return. -/
theorem place_result (ec : error_codes) (heap : Nat → Nat) (g g' : game) (x y : Nat)
    (r : Bool) (hwf : g.wf) (hstate : g.state = GAME_STATE_PLAYING)
    (hx : x < g.board.size) (hy : y < g.board.size)
    (hplace : game_place_stone ec heap g x y = outcome.ret r g') :
    (g' = g ∧ g.type ≠ GAME_FREESTYLE ∧ g.type ≠ GAME_RENJU)
    ∨ (g.type = GAME_FREESTYLE ∧ g' = freestyle_next g x y)
    ∨ (g.type = GAME_RENJU ∧ g' = renju_next ec heap g x y) := by
  by_cases hF : g.type = GAME_FREESTYLE
  · rw [place_freestyle ec heap g hwf hF hstate x y hx hy] at hplace
    injection hplace with _ hg
    exact Or.inr (Or.inl ⟨hF, hg.symm⟩)
  · by_cases hR : g.type = GAME_RENJU
    · rw [place_renju ec heap g hwf hR hstate x y hx hy] at hplace
      injection hplace with _ hg
      exact Or.inr (Or.inr ⟨hR, hg.symm⟩)
    · unfold game_place_stone at hplace
      rw [if_neg (by rw [hstate]; simp), if_neg hF, if_neg hR] at hplace
      injection hplace with _ hg
      exact Or.inl ⟨hg.symm, hF, hR⟩

/-- The history invariant after a stone is written on an empty cell and the move
recorded. -/
theorem hist_of_next (g : game) (hwf : g.wf) (hhist : g.hist)
    (hstate : g.state = GAME_STATE_PLAYING)
    (x y : Nat) (hx : x < g.board.size) (hy : y < g.board.size)
    (hempty : cell_at g.board x y = some EMPTY_INTERSECTION) (g' : game)
    (hboard : g'.board = with_stone g.board x y g.stone)
    (hmoves : g'.moves = g.moves ++ [{ x := x, y := y }])
    (hplay : g'.state = GAME_STATE_PLAYING → g'.stone = toggle g.stone) : g'.hist := by
  have hturn := hhist.turn hstate
  unfold game.moves_count at hturn
  have hcol : g.stone = ply_colour g.moves.length := by
    unfold ply_colour
    by_cases hb : g.stone = BLACK_STONE
    · rw [if_pos (hturn.mp hb)]; exact hb
    · rw [if_neg (fun h => hb (hturn.mpr h))]
      rcases hwf.stone_ok with h | h
      · exact absurd h hb
      · exact h
  constructor
  · intro i m hm
    rw [hmoves] at hm
    rw [hboard, cell_at_with_stone g.board hwf.grid_len x y g.stone hx hy]
    by_cases hi : i < g.moves.length
    · rw [List.getElem?_append_left hi] at hm
      have hold := hhist.cells i m hm
      rw [if_neg, hold]
      rintro ⟨h1, h2⟩
      rw [h1, h2, hempty] at hold
      exact ply_colour_ne_empty i (Option.some.inj hold).symm
    · rw [List.getElem?_append_right (by omega)] at hm
      have hi0 : i - g.moves.length = 0 := by
        by_contra hne
        rw [List.getElem?_eq_none (by simp; omega)] at hm
        exact Option.noConfusion hm
      rw [hi0] at hm
      simp only [List.getElem?_cons_zero, Option.some.injEq] at hm
      have hieq : i = g.moves.length := by omega
      rw [← hm, if_pos ⟨rfl, rfl⟩, hieq, hcol]
  · intro hp
    rw [hplay hp]
    unfold game.moves_count
    rw [hmoves, List.length_append, List.length_singleton]
    unfold toggle
    constructor
    · intro h
      by_cases hb : g.stone = BLACK_STONE
      · rw [if_pos hb] at h; exact absurd h (by decide)
      · have := fun h' => hb (hturn.mpr h')
        omega
    · intro h
      have hb : ¬ g.stone = BLACK_STONE := fun hb => by
        have := hturn.mp hb
        omega
      rw [if_neg hb]

theorem reachable_hist (ec : error_codes) (heap : Nat → Nat) (g : game)
    (h : reachable ec heap g) : g.hist := by
  induction h with
  | create board_size game_type _ _ =>
    constructor
    · intro i m hm
      simp [game_create] at hm
    · intro _
      simp [game_create, game.moves_count]
  | place g g' x y r hg hstate hx hy hempty hplace ih =>
    have hinv := reachable_inv ec heap g hg
    rcases place_result ec heap g g' x y r hinv.wf hstate hx hy hplace with h | h | h
    · rw [h.1]; exact ih
    · rw [h.2]
      apply hist_of_next g hinv.wf ih hstate x y hx hy hempty _ (freestyle_next_board g x y)
        (freestyle_next_moves g x y)
      intro hp
      rw [(freestyle_next_playing g x y hp).2]
    · rw [h.2]
      apply hist_of_next g hinv.wf ih hstate x y hx hy hempty _
        (renju_next_board ec heap g x y) (renju_next_moves ec heap g x y)
      intro hp
      rw [(renju_next_playing ec heap g x y hp).2]

theorem reachable_consistent (ec : error_codes) (heap : Nat → Nat) (g : game)
    (h : reachable ec heap g) : g.consistent := by
  induction h with
  | create board_size game_type _ _ =>
    refine ⟨Or.inl rfl, fun _ => rfl, fun h => ?_, fun h => ?_⟩
    · exact absurd h (by simp [game_create])
    · exact absurd h (by simp [game_create])
  | place g g' x y r hg hstate hx hy hempty hplace ih =>
    have hinv := reachable_inv ec heap g hg
    have hinv' := inv_place ec heap g g' x y r hinv hstate hx hy hempty hplace
    have hwf1 := stone_placed_wf g hinv.wf x y
    have hwin := hinv.winner_none hstate
    have hlast : ∀ g2 : game, g2.board = with_stone g.board x y g.stone →
        g2.moves = g.moves ++ [{ x := x, y := y }] → last_stone g2 = some g.stone :=
      fun g2 h1 h2 => last_stone_of_append g2 g.board hinv.wf.grid_len g.moves x y g.stone
        hx hy h1 h2
    have hfull : ∀ g2 : game, g2.inv → g2.board = with_stone g.board x y g.stone →
        g2.moves = g.moves ++ [{ x := x, y := y }] →
        game_check_draw (stone_placed g x y) = true → board_is_full g2.board = true := by
      intro g2 hi2 h1 h2 hd
      have hc := hi2.count
      unfold game.moves_count at hc
      rw [h1, h2, ← stone_placed_board, ← stone_placed_moves] at hc
      rw [h1, ← stone_placed_board, ← game_check_draw_eq _ hwf1.grid_len hc]
      exact hd
    rcases place_result ec heap g g' x y r hinv.wf hstate hx hy hplace with h | h | h
    · rw [h.1]; exact ih
    · obtain ⟨_, rfl⟩ := h
      have hb := freestyle_next_board g x y
      have hm := freestyle_next_moves g x y
      have hl := hlast _ hb hm
      have hf := hfull _ hinv' hb hm
      unfold freestyle_next at hl hf ⊢
      by_cases h1 : run_through (stone_placed g x y).board g.stone x y 5
      · rw [if_pos h1] at hl ⊢
        refine ⟨Or.inr (Or.inr rfl), fun h => absurd h (by simp), fun h => absurd h (by simp),
          fun _ => Or.inr ⟨hinv.wf.stone_ok, hl⟩⟩
      · rw [if_neg h1] at hl hf ⊢
        by_cases h2 : game_check_draw (stone_placed g x y) = true
        · rw [if_pos h2] at hl hf ⊢
          refine ⟨Or.inr (Or.inr rfl), fun h => absurd h (by simp),
            fun h => absurd h (by simp), fun _ => Or.inl ⟨hwin, hf h2⟩⟩
        · rw [if_neg h2]
          refine ⟨Or.inl hstate, fun _ => hwin, fun h => ?_, fun h => ?_⟩
          · exact absurd (hstate ▸ h : GAME_STATE_PLAYING = GAME_STATE_FORBIDDEN) (by decide)
          · exact absurd (hstate ▸ h : GAME_STATE_PLAYING = GAME_STATE_FINISHED) (by decide)
    · obtain ⟨hR, rfl⟩ := h
      have hb := renju_next_board ec heap g x y
      have hm := renju_next_moves ec heap g x y
      have hl := hlast _ hb hm
      have hf := hfull _ hinv' hb hm
      have hblack : g.stone ≠ WHITE_STONE → g.stone = BLACK_STONE := fun hne => by
        rcases hinv.wf.stone_ok with h | h
        · exact h
        · exact absurd h hne
      unfold renju_next at hl hf ⊢
      by_cases h0 : is_overline ec heap (stone_placed g x y) x y = true
      · rw [if_pos h0] at hl ⊢
        have hbk := hblack (is_overline_black ec heap (stone_placed g x y) x y h0)
        refine ⟨Or.inr (Or.inl rfl), fun h => absurd h (by simp),
          fun _ => ⟨hR, hbk, by rw [hl, hbk], rfl⟩, fun h => absurd h (by simp)⟩
      · rw [if_neg h0] at hl hf ⊢
        by_cases h1 : run_through (stone_placed g x y).board g.stone x y 5
        · rw [if_pos h1] at hl ⊢
          refine ⟨Or.inr (Or.inr rfl), fun h => absurd h (by simp),
            fun h => absurd h (by simp), fun _ => Or.inr ⟨hinv.wf.stone_ok, hl⟩⟩
        · rw [if_neg h1] at hl hf ⊢
          by_cases h2 : game_check_draw (stone_placed g x y) = true
          · rw [if_pos h2] at hl hf ⊢
            refine ⟨Or.inr (Or.inr rfl), fun h => absurd h (by simp),
              fun h => absurd h (by simp), fun _ => Or.inl ⟨hwin, hf h2⟩⟩
          · rw [if_neg h2] at hl ⊢
            by_cases h3 : is_open_four ec heap (stone_placed g x y) x y = true
            · rw [if_pos h3] at hl ⊢
              have hbk := hblack (is_open_four_black ec heap (stone_placed g x y) x y h3)
              refine ⟨Or.inr (Or.inl rfl), fun h => absurd h (by simp),
                fun _ => ⟨hR, hbk, by rw [hl, hbk], rfl⟩, fun h => absurd h (by simp)⟩
            · rw [if_neg h3]
              refine ⟨Or.inl hstate, fun _ => hwin, fun h => ?_, fun h => ?_⟩
              · exact absurd (hstate ▸ h : GAME_STATE_PLAYING = GAME_STATE_FORBIDDEN)
                  (by decide)
              · exact absurd (hstate ▸ h : GAME_STATE_PLAYING = GAME_STATE_FINISHED)
                  (by decide)

theorem to_char_small (i : Int) (h0 : 0 ≤ i) (h1 : i < 128) : to_char i = i := by
  unfold to_char
  omega


/-! ### Reads that leave the grid -/

theorem board_get_of_memory_read (ec : error_codes) (heap : Nat → Nat) (b : board)
    (x y v : Nat) (h : memory_read heap b x y = some v) : board_get ec heap b x y = v := by
  unfold memory_read at h
  unfold board_get
  by_cases hg : x > b.size ∨ y > b.size
  · rw [if_pos hg] at h; exact Option.noConfusion h
  · rw [if_neg hg] at h
    rw [if_neg hg]
    exact Option.some.inj h

theorem memory_open_of_board_get (ec : error_codes) (heap : Nat → Nat) (b : board)
    (cx cy : Int)
    (h : board_get ec heap b (to_uchar cx) (to_uchar cy) = EMPTY_INTERSECTION) :
    memory_open heap b cx cy = true := by
  unfold memory_open
  cases hm : memory_read heap b (to_uchar cx) (to_uchar cy) with
  | none => rfl
  | some v =>
    have := board_get_of_memory_read ec heap b _ _ v hm
    simp only [decide_eq_true_eq]
    rw [← this, h]

theorem open_fours_passed_le (ec : error_codes) (heap : Nat → Nat) (b : board) (stone : Nat)
    (x y : Int) (d : Int × Int) :
    open_fours_passed heap b stone x y d ≤ open_fours ec heap b stone x y d := by
  unfold open_fours open_fours_passed
  apply four_loop_mono
  intro k _ hk
  simp only [decide_eq_true_eq] at hk
  simp only [open_test, decide_eq_true_eq]
  exact ⟨board_get_of_memory_read ec heap b _ _ _ hk.1,
    board_get_of_memory_read ec heap b _ _ _ hk.2⟩

theorem open_fours_le_allowed (ec : error_codes) (heap : Nat → Nat) (b : board)
    (stone : Nat) (x y : Int) (d : Int × Int) :
    open_fours ec heap b stone x y d ≤ open_fours_allowed heap b stone x y d := by
  unfold open_fours open_fours_allowed
  apply four_loop_mono
  intro k _ hk
  simp only [open_test, decide_eq_true_eq] at hk
  rw [Bool.and_eq_true]
  exact ⟨memory_open_of_board_get ec heap b _ _ hk.1,
    memory_open_of_board_get ec heap b _ _ hk.2⟩

/-! ### Replaying a history -/

theorem place_all_append (ec : error_codes) (heap : Nat → Nat) (ms ns : List move) :
    ∀ g : game, place_all ec heap g (ms ++ ns)
      = match place_all ec heap g ms with
        | outcome.ret _ g' => place_all ec heap g' ns
        | outcome.exit code s => outcome.exit code s := by
  induction ms with
  | nil => intro g; rfl
  | cons m ms ih =>
    intro g
    simp only [List.cons_append, place_all]
    cases h : game_place_stone ec heap g m.x m.y with
    | ret r g' => exact ih g'
    | exit code s => rfl

theorem place_all_single (ec : error_codes) (heap : Nat → Nat) (g g' : game) (x y : Nat)
    (r : Bool) (h : game_place_stone ec heap g x y = outcome.ret r g') :
    place_all ec heap g [{ x := x, y := y }] = outcome.ret true g' := by
  simp only [place_all, h]

/-- A replay that returns has made every call in state `Playing`. -/
theorem place_all_playing (ec : error_codes) (heap : Nat → Nat) (ms : List move) (m : move)
    (rest : List move) (g g' : game) (r : Bool)
    (h : place_all ec heap g (ms ++ m :: rest) = outcome.ret r g') :
    ∃ g1, place_all ec heap g ms = outcome.ret true g1 ∧ g1.state = GAME_STATE_PLAYING := by
  rw [place_all_append] at h
  have htrue : ∀ (l : List move) (a b : game) (q : Bool),
      place_all ec heap a l = outcome.ret q b → q = true := by
    intro l
    induction l with
    | nil =>
      intro a b q hq
      simp only [place_all, outcome.ret.injEq] at hq
      exact hq.1.symm
    | cons k l ih =>
      intro a b q hq
      simp only [place_all] at hq
      cases hk : game_place_stone ec heap a k.x k.y with
      | ret r1 a1 => rw [hk] at hq; exact ih a1 b q hq
      | exit c s => rw [hk] at hq; exact outcome.noConfusion hq
  cases h1 : place_all ec heap g ms with
  | exit c s => rw [h1] at h; exact outcome.noConfusion h
  | ret q g1 =>
    rw [h1] at h
    have hq := htrue ms g g1 q h1
    subst hq
    refine ⟨g1, rfl, ?_⟩
    by_contra hne
    simp only [place_all] at h
    unfold game_place_stone at h
    rw [if_pos hne] at h
    exact outcome.noConfusion h

theorem stone_placed_winner (g : game) (w x y : Nat) :
    stone_placed { g with winner := w } x y = { stone_placed g x y with winner := w } := rfl

/-- The winner stored in a game has no part in what a Freestyle placement decides. -/
theorem freestyle_next_winner (g : game) (w x y : Nat)
    (hw : g.winner = EMPTY_INTERSECTION) (hs : g.stone ≠ EMPTY_INTERSECTION) :
    freestyle_next { g with winner := w } x y
      = if (freestyle_next g x y).winner = EMPTY_INTERSECTION then
          { freestyle_next g x y with winner := w }
        else freestyle_next g x y := by
  unfold freestyle_next
  rw [stone_placed_winner]
  show (if run_through (stone_placed g x y).board g.stone x y 5 then _ else
    if game_check_draw (stone_placed g x y) = true then _ else _) = _
  by_cases h1 : run_through (stone_placed g x y).board g.stone x y 5
  · rw [if_pos h1, if_pos h1]
    exact (if_neg hs).symm
  · rw [if_neg h1, if_neg h1]
    by_cases h2 : game_check_draw (stone_placed g x y) = true
    · rw [if_pos h2, if_pos h2]
      exact (if_pos hw).symm
    · rw [if_neg h2, if_neg h2]
      exact (if_pos hw).symm

/-- The winner stored in a game has no part in what a Renju placement decides. -/
theorem renju_next_winner (ec : error_codes) (heap : Nat → Nat) (g : game) (w x y : Nat)
    (hw : g.winner = EMPTY_INTERSECTION) (hs : g.stone ≠ EMPTY_INTERSECTION) :
    renju_next ec heap { g with winner := w } x y
      = if (renju_next ec heap g x y).winner = EMPTY_INTERSECTION then
          { renju_next ec heap g x y with winner := w }
        else renju_next ec heap g x y := by
  unfold renju_next
  rw [stone_placed_winner]
  show (if is_overline ec heap (stone_placed g x y) x y = true then _ else
    if run_through (stone_placed g x y).board g.stone x y 5 then _ else
    if game_check_draw (stone_placed g x y) = true then _ else
    if is_open_four ec heap (stone_placed g x y) x y = true then _ else _) = _
  have hW : ¬ (WHITE_STONE = EMPTY_INTERSECTION) := by decide
  by_cases h0 : is_overline ec heap (stone_placed g x y) x y = true
  · rw [if_pos h0, if_pos h0]
    exact (if_neg hW).symm
  · rw [if_neg h0, if_neg h0]
    by_cases h1 : run_through (stone_placed g x y).board g.stone x y 5
    · rw [if_pos h1, if_pos h1]
      exact (if_neg hs).symm
    · rw [if_neg h1, if_neg h1]
      by_cases h2 : game_check_draw (stone_placed g x y) = true
      · rw [if_pos h2, if_pos h2]
        exact (if_pos hw).symm
      · rw [if_neg h2, if_neg h2]
        by_cases h3 : is_open_four ec heap (stone_placed g x y) x y = true
        · rw [if_pos h3, if_pos h3]
          exact (if_neg hW).symm
        · rw [if_neg h3, if_neg h3]
          exact (if_pos hw).symm

/-- Replaying the history of a reachable game on the fresh game of its size and ruleset,
with any value `w` stored as winner beforehand, returns the game, `w` still in place
where no call has assigned the winner. -/
theorem replay_history (ec : error_codes) (heap : Nat → Nat) (g : game)
    (h : reachable ec heap g) (w : Nat) :
    place_all ec heap { game_create g.board.size g.type with winner := w } g.moves
      = outcome.ret true
        (if g.winner = EMPTY_INTERSECTION then { g with winner := w } else g) := by
  induction h with
  | create board_size game_type _ _ => rfl
  | place g g' x y r hg hstate hx hy hempty hplace ih =>
    have hinv := reachable_inv ec heap g hg
    have hw0 := hinv.winner_none hstate
    have hne : g.stone ≠ EMPTY_INTERSECTION := by
      rcases hinv.wf.stone_ok with h | h <;> rw [h] <;> decide
    rw [if_pos hw0] at ih
    have hwfw : ({ g with winner := w } : game).wf :=
      ⟨hinv.wf.size_lt, hinv.wf.grid_len, hinv.wf.stone_ok, hinv.wf.room⟩
    rcases place_result ec heap g g' x y r hinv.wf hstate hx hy hplace with h | h | h
    · rw [h.1, if_pos hw0]; exact ih
    · obtain ⟨htype, rfl⟩ := h
      have e1 : (freestyle_next g x y).board.size = g.board.size := by
        rw [freestyle_next_board, with_stone_size]
      have key : place_all ec heap { game_create g.board.size g.type with winner := w }
          (g.moves ++ [{ x := x, y := y }])
          = outcome.ret true
            (if (freestyle_next g x y).winner = EMPTY_INTERSECTION then
              { freestyle_next g x y with winner := w }
            else freestyle_next g x y) := by
        rw [place_all_append, ih]
        show place_all ec heap { g with winner := w } [{ x := x, y := y }] = _
        rw [place_all_single ec heap _ _ x y true
          (place_freestyle ec heap { g with winner := w } hwfw htype hstate x y hx hy),
          freestyle_next_winner g w x y hw0 hne]
      exact (show place_all ec heap
          { game_create (freestyle_next g x y).board.size (freestyle_next g x y).type
            with winner := w } (freestyle_next g x y).moves
          = place_all ec heap { game_create g.board.size g.type with winner := w }
            (g.moves ++ [{ x := x, y := y }]) by
        rw [e1, freestyle_next_type, freestyle_next_moves]).trans key
    · obtain ⟨htype, rfl⟩ := h
      have e1 : (renju_next ec heap g x y).board.size = g.board.size := by
        rw [renju_next_board, with_stone_size]
      have key : place_all ec heap { game_create g.board.size g.type with winner := w }
          (g.moves ++ [{ x := x, y := y }])
          = outcome.ret true
            (if (renju_next ec heap g x y).winner = EMPTY_INTERSECTION then
              { renju_next ec heap g x y with winner := w }
            else renju_next ec heap g x y) := by
        rw [place_all_append, ih]
        show place_all ec heap { g with winner := w } [{ x := x, y := y }] = _
        rw [place_all_single ec heap _ _ x y true
          (place_renju ec heap { g with winner := w } hwfw htype hstate x y hx hy),
          renju_next_winner ec heap g w x y hw0 hne]
      exact (show place_all ec heap
          { game_create (renju_next ec heap g x y).board.size (renju_next ec heap g x y).type
            with winner := w } (renju_next ec heap g x y).moves
          = place_all ec heap { game_create g.board.size g.type with winner := w }
            (g.moves ++ [{ x := x, y := y }]) by
        rw [e1, renju_next_type, renju_next_moves]).trans key

/-! ### game.c: replay -/

theorem replay_loop_calls (ec : error_codes) (heap : Nat → Nat) (junk : Nat → move)
    (g : game) (n : Nat) :
    ∀ (i : Nat) (g2 : game) (calls : List move),
      ∃ rest, (replay_loop ec heap junk g n i g2 calls).final.2 = calls ++ rest
        ∧ (0 < n → ∃ more, rest = moves_entry junk g i :: more) := by
  induction n with
  | zero =>
    intro i g2 calls
    exact ⟨[], by simp [replay_loop, outcome.final], fun h => absurd h (by decide)⟩
  | succ n ih =>
    intro i g2 calls
    unfold replay_loop
    cases h : game_place_stone ec heap g2 (moves_entry junk g i).x (moves_entry junk g i).y with
    | exit code s =>
      exact ⟨[moves_entry junk g i], rfl, fun _ => ⟨[], rfl⟩⟩
    | ret r s =>
      obtain ⟨rest, h1, _⟩ := ih (i + 1) s (calls ++ [moves_entry junk g i])
      refine ⟨moves_entry junk g i :: rest, ?_, fun _ => ⟨rest, rfl⟩⟩
      show (replay_loop ec heap junk g n (i + 1) s (calls ++ [moves_entry junk g i])).final.2 = _
      rw [h1, List.append_assoc]
      rfl

/-- The loop of `game_replay` over the entries `i, ..., i + n - 1` of a history that has
them passes these entries, in order, until a call exits. -/
theorem replay_loop_history (ec : error_codes) (heap : Nat → Nat) (junk : Nat → move)
    (g : game) (n : Nat) :
    ∀ (i : Nat) (g2 : game) (calls : List move), i + n ≤ g.moves.length →
      match replay_loop ec heap junk g n i g2 calls with
      | outcome.ret _ s => s.2 = calls ++ (g.moves.drop i).take n
      | outcome.exit _ s => s.2 <+: calls ++ (g.moves.drop i).take n := by
  induction n with
  | zero =>
    intro i g2 calls _
    simp [replay_loop]
  | succ n ih =>
    intro i g2 calls hi
    have hlt : i < g.moves.length := by omega
    have hentry : moves_entry junk g i = g.moves[i] := by
      unfold moves_entry
      rw [List.getD_eq_getElem?_getD, List.getElem?_eq_getElem hlt]
      rfl
    have hdrop : (g.moves.drop i).take (n + 1)
        = g.moves[i] :: (g.moves.drop (i + 1)).take n := by
      rw [List.drop_eq_getElem_cons hlt, List.take_succ_cons]
    unfold replay_loop
    rw [hentry, hdrop]
    cases h : game_place_stone ec heap g2 g.moves[i].x g.moves[i].y with
    | exit code s =>
      show calls ++ [g.moves[i]] <+: calls ++ g.moves[i] :: _
      exact ⟨(g.moves.drop (i + 1)).take n, by simp⟩
    | ret r s =>
      have := ih (i + 1) s (calls ++ [g.moves[i]]) (by omega)
      show match replay_loop ec heap junk g n (i + 1) s (calls ++ [g.moves[i]]) with
        | outcome.ret _ s => s.2 = calls ++ g.moves[i] :: (g.moves.drop (i + 1)).take n
        | outcome.exit _ s => s.2 <+: calls ++ g.moves[i] :: (g.moves.drop (i + 1)).take n
      rw [show calls ++ g.moves[i] :: (g.moves.drop (i + 1)).take n
        = (calls ++ [g.moves[i]]) ++ (g.moves.drop (i + 1)).take n by simp]
      exact this

/-- For a saved game with a history that is not empty, `game_replay` passes the moves of
the history to `game_place_stone`, in order and no other move: all of them when it
returns, an initial part of them when a call exits; the saved game is left as it was. -/
theorem game_replay_of_history (ec : error_codes) (heap : Nat → Nat) (junk : Nat → move)
    (g : game) (hstate : g.state ≠ GAME_STATE_PLAYING)
    (htype : g.type = GAME_FREESTYLE ∨ g.type = GAME_RENJU)
    (hpos : 0 < g.moves_count) (hmax : g.moves_count < 2 ^ 64) :
    (game_replay ec heap junk g).final.g = g ∧
    (game_replay ec heap junk g).final.calls <+: g.moves ∧
    (∀ s, game_replay ec heap junk g = outcome.ret () s → s.calls = g.moves) := by
  have hm : moves_count_minus_one g = g.moves.length - 1 := by
    unfold moves_count_minus_one game.moves_count at *
    omega
  have hlen : 0 < g.moves.length := hpos
  have hlt : g.moves.length - 1 < g.moves.length := by omega
  have hentry : moves_entry junk g (g.moves.length - 1) = g.moves[g.moves.length - 1] := by
    unfold moves_entry
    rw [List.getD_eq_getElem?_getD, List.getElem?_eq_getElem hlt]
    rfl
  have hall : (g.moves.drop 0).take (g.moves.length - 1) ++ [g.moves[g.moves.length - 1]]
      = g.moves := by
    have h1 := List.take_succ (l := g.moves) (n := g.moves.length - 1)
    rw [List.getElem?_eq_getElem hlt, show g.moves.length - 1 + 1 = g.moves.length by omega,
      List.take_length] at h1
    rw [List.drop_zero]
    exact h1.symm
  have hloop := replay_loop_history ec heap junk g (g.moves.length - 1) 0
    (game_create g.board.size g.type) [] (by omega)
  unfold game_replay
  rw [if_neg hstate, if_neg (by rcases htype with h | h <;> simp [h]), hm, hentry]
  cases h : replay_loop ec heap junk g (g.moves.length - 1) 0
      (game_create g.board.size g.type) [] with
  | exit code s =>
    rw [h] at hloop
    simp only [List.nil_append] at hloop
    dsimp only
    refine ⟨rfl, ?_, fun s hs => outcome.noConfusion hs⟩
    show s.2 <+: g.moves
    exact hloop.trans ⟨[g.moves[g.moves.length - 1]], hall⟩
  | ret u s =>
    rw [h] at hloop
    simp only [List.nil_append] at hloop
    dsimp only
    cases h2 : game_place_stone ec heap s.1 g.moves[g.moves.length - 1].x
        g.moves[g.moves.length - 1].y with
    | exit code s2 =>
      dsimp only
      refine ⟨rfl, ?_, fun s hs => outcome.noConfusion hs⟩
      show s.2 ++ [g.moves[g.moves.length - 1]] <+: g.moves
      rw [hloop, hall]
    | ret r s2 =>
      dsimp only
      refine ⟨rfl, ?_, ?_⟩
      · show s.2 ++ [g.moves[g.moves.length - 1]] <+: g.moves
        rw [hloop, hall]
      · intro s3 hs
        simp only [outcome.ret.injEq, true_and] at hs
        rw [← hs]
        show s.2 ++ [g.moves[g.moves.length - 1]] = g.moves
        rw [hloop, hall]

/-! ### io.c: writing and reading back -/

theorem is_space_of_digit (c : Nat) (h : is_digit c = true) : is_space c = false := by
  simp only [is_digit, decide_eq_true_eq] at h
  simp only [is_space, decide_eq_false_iff_not]
  omega

theorem skip_space_newline (s : List Nat) : skip_space (10 :: s) = skip_space s := by
  simp [skip_space, is_space]

theorem skip_space_of_not_space (c : Nat) (s : List Nat) (h : is_space c = false) :
    skip_space (c :: s) = c :: s := by
  simp [skip_space, h]

theorem skip_space_idem (s : List Nat) : skip_space (skip_space s) = skip_space s := by
  induction s with
  | nil => rfl
  | cons c s ih =>
    by_cases h : is_space c = true
    · simp only [skip_space, h, if_true]; exact ih
    · have h' : is_space c = false := by simpa using h
      rw [skip_space_of_not_space c s h', skip_space_of_not_space c s h']

theorem scan_int_skip_space (s : List Nat) : scan_int (skip_space s) = scan_int s := by
  unfold scan_int
  rw [skip_space_idem]

theorem scan_digits_decimal (fuel : Nat) :
    ∀ (n : Nat) (acc t : List Nat), n < fuel →
      scan_digits 0 (decimal_digits fuel n acc ++ t) = scan_digits n (acc ++ t) := by
  induction fuel with
  | zero => intro n _ _ h; omega
  | succ fuel ih =>
    intro n acc t hn
    unfold decimal_digits
    by_cases h : n < 10
    · rw [if_pos h]
      have hd : is_digit (48 + n) = true := by
        simp only [is_digit, decide_eq_true_eq]; omega
      simp only [List.cons_append, scan_digits, hd, if_true]
      congr 1
      omega
    · rw [if_neg h, ih (n / 10) _ t (by omega)]
      have hd : is_digit (48 + n % 10) = true := by
        simp only [is_digit, decide_eq_true_eq]; omega
      simp only [List.cons_append, scan_digits, hd, if_true]
      congr 1
      omega

theorem decimal_digits_head (fuel : Nat) :
    ∀ (n : Nat) (acc : List Nat), n < fuel →
      ∃ d ds, decimal_digits fuel n acc = d :: ds ∧ is_digit d = true := by
  induction fuel with
  | zero => intro n _ h; omega
  | succ fuel ih =>
    intro n acc hn
    unfold decimal_digits
    by_cases h : n < 10
    · rw [if_pos h]
      exact ⟨48 + n, acc, rfl, by simp only [is_digit, decide_eq_true_eq]; omega⟩
    · rw [if_neg h]
      exact ih (n / 10) _ (by omega)

/-- Reading back a number written by `fprintf`, a newline after it. -/
theorem scan_int_decimal (n : Nat) (t : List Nat) :
    scan_int (decimal n ++ 10 :: t) = (some (n : Int), 10 :: t) := by
  obtain ⟨d, ds, hd, hdig⟩ := decimal_digits_head (n + 1) n [] (by omega)
  have hval : scan_digits 0 (decimal n ++ 10 :: t) = (n, 10 :: t) := by
    unfold decimal
    rw [scan_digits_decimal (n + 1) n [] (10 :: t) (by omega)]
    simp [scan_digits, is_digit]
  have hcons : decimal n ++ 10 :: t = d :: (ds ++ 10 :: t) := by
    unfold decimal
    rw [hd]; rfl
  rw [hcons] at hval ⊢
  unfold scan_int
  rw [skip_space_of_not_space d _ (is_space_of_digit d hdig)]
  simp only [hdig, if_true, hval]

theorem scan_int_newline (s : List Nat) : scan_int (10 :: s) = scan_int s := by
  rw [← scan_int_skip_space (10 :: s), skip_space_newline, scan_int_skip_space]

/-- The header written by `game_export` is read back by the `fscanf` of `game_import`. -/
theorem scan_header_export (stack : Nat → Int) (a b c d : Nat) (t : List Nat) :
    scan_header stack (10 :: (decimal a ++ 10 :: (decimal b ++ 10 ::
      (decimal c ++ 10 :: (decimal d ++ 10 :: t)))))
      = ⟨a, b, c, d, skip_space t⟩ := by
  unfold scan_header
  rw [scan_int_newline, scan_int_decimal]
  simp only
  rw [scan_int_skip_space, scan_int_newline, scan_int_decimal]
  simp only
  rw [scan_int_skip_space, scan_int_newline, scan_int_decimal]
  simp only
  rw [scan_int_skip_space, scan_int_newline, scan_int_decimal]
  simp only
  rw [skip_space_newline]

theorem skip_space_export_moves (ms : List move) (h : ∀ m ∈ ms, m.x < 200) :
    skip_space (export_moves ms) = export_moves ms := by
  cases ms with
  | nil => rfl
  | cons m ms =>
    have hx := h m (List.mem_cons_self _ _)
    unfold export_moves
    apply skip_space_of_not_space
    simp only [is_space, decide_eq_false_iff_not]
    omega

theorem import_coordinates (x y : Nat) (hx : x < 256) (hy : y < 256) :
    to_uchar (to_char (((x + 65) % 256 : Nat) : Int) - CHAR_A) = x
      ∧ to_uchar (((y + 1 : Nat) : Int) - 1) = y := by
  unfold to_uchar to_char
  simp only [CHAR_A]
  constructor <;> omega

/-- On the lines written by `game_export` for a list of moves with columns below 200, the
loop of `game_import` makes the calls of `place_all`. -/
theorem import_loop_export (ec : error_codes) (heap : Nat → Nat) (ms : List move) :
    ∀ (n : Nat) (y0 : Int) (g : game), (∀ m ∈ ms, m.x < 200 ∧ m.y < 256) →
      (export_moves ms).length ≤ n →
      import_loop ec heap n y0 g (export_moves ms)
        = match place_all ec heap g ms with
          | outcome.ret _ g' => outcome.ret () g'
          | outcome.exit code s => outcome.exit code s := by
  induction ms with
  | nil =>
    intro n y0 g _ _
    cases n <;> rfl
  | cons m ms ih =>
    intro n y0 g hms hn
    have hm := hms m (List.mem_cons_self _ _)
    have hrest : ∀ k ∈ ms, k.x < 200 ∧ k.y < 256 :=
      fun k hk => hms k (List.mem_cons_of_mem _ hk)
    have hco := import_coordinates m.x m.y (by omega) hm.2
    cases n with
    | zero => simp [export_moves] at hn
    | succ n =>
      have hlen : (export_moves ms).length ≤ n := by
        simp only [export_moves, List.length_cons, List.length_append] at hn
        omega
      unfold export_moves
      unfold import_loop
      rw [scan_int_decimal]
      simp only
      rw [hco.1, hco.2, skip_space_newline,
        skip_space_export_moves ms (fun k hk => (hrest k hk).1)]
      unfold place_all
      cases h : game_place_stone ec heap g m.x m.y with
      | exit code s => rfl
      | ret r g' => exact ih n _ g' hrest hlen

theorem reachable_type_lt (ec : error_codes) (heap : Nat → Nat) (g : game)
    (h : reachable ec heap g) : g.type < 256 := by
  induction h with
  | create board_size game_type _ htype => exact htype
  | place g g' x y r hg hstate hx hy hempty hplace ih =>
    have hinv := reachable_inv ec heap g hg
    rcases place_result ec heap g g' x y r hinv.wf hstate hx hy hplace with h | h | h
    · rw [h.1]; exact ih
    · rw [h.2, freestyle_next_type]; exact ih
    · rw [h.2, renju_next_type]; exact ih

theorem reachable_moves_on_board (ec : error_codes) (heap : Nat → Nat) (g : game)
    (h : reachable ec heap g) : ∀ m ∈ g.moves, m.x < g.board.size ∧ m.y < g.board.size := by
  intro m hm
  obtain ⟨i, hi, hget⟩ := List.getElem_of_mem hm
  have hcell := (reachable_hist ec heap g h).cells i m
    (by rw [List.getElem?_eq_getElem hi, hget])
  obtain ⟨_, h2, _, h4⟩ := cell_at_some_on_board _ _ _ _ hcell
  exact ⟨by exact_mod_cast h2, by exact_mod_cast h4⟩

/-- What `game_import` does with the text `game_export` writes for a game whose moves
have columns below 200: it replays the history on the fresh game of the stored size and
ruleset, the stored winner in place, and then stores the state. -/
theorem import_of_export (ec : error_codes) (FILE_INPUT_ERR : Nat) (heap : Nat → Nat)
    (stack : Nat → Int) (g : game) (hsize : g.board.size < 256) (htype : g.type < 256)
    (hst : g.state < 256) (hwin : g.winner < 256)
    (hvalid : ∀ m ∈ g.moves, m.x < 200 ∧ m.y < 256) :
    game_import ec FILE_INPUT_ERR heap stack (game_export g)
      = match place_all ec heap { game_create g.board.size g.type with winner := g.winner }
          g.moves with
        | outcome.ret _ g' => outcome.ret { g' with state := g.state } ()
        | outcome.exit code _ => outcome.exit code () := by
  unfold game_export game_import
  simp only [ne_eq, not_true_eq_false, or_self, if_false]
  rw [scan_header_export, skip_space_export_moves g.moves (fun m hm => (hvalid m hm).1)]
  simp only
  rw [to_uchar_of_lt _ hsize, to_uchar_of_lt _ htype, to_uchar_of_lt _ hwin,
    to_uchar_of_lt _ hst, import_loop_export ec heap g.moves _ _ _ hvalid (le_refl _)]
  rw [show ({ game_create g.board.size g.type with
        state := GAME_STATE_PLAYING, winner := g.winner } : game)
      = { game_create g.board.size g.type with winner := g.winner } from rfl]
  cases place_all ec heap { game_create g.board.size g.type with winner := g.winner }
      g.moves with
  | ret a g' => rfl
  | exit code s => rfl

/-- Reading back what `game_export` writes for a reachable game on a board of at most
200 columns, stored with any state `st`, rebuilds the game with the state `st`, when the
bytes behind the grid are those of the calls that reached the game. -/
theorem import_export (ec : error_codes) (FILE_INPUT_ERR : Nat) (heap : Nat → Nat)
    (stack : Nat → Int) (g : game) (hreach : reachable ec heap g)
    (hsize : g.board.size ≤ 200) (st : Nat) (hst : st < 256) :
    game_import ec FILE_INPUT_ERR heap stack (game_export { g with state := st })
      = outcome.ret { g with state := st } () := by
  have hinv := reachable_inv ec heap g hreach
  have hcons := reachable_consistent ec heap g hreach
  have htype := reachable_type_lt ec heap g hreach
  have hmoves := reachable_moves_on_board ec heap g hreach
  have hwin : g.winner < 256 := by
    rcases hcons.states with h | h | h
    · rw [hcons.playing h]; decide
    · rw [(hcons.forbidden h).2.2.2]; decide
    · rcases hcons.finished h with h1 | h1
      · rw [h1.1]; decide
      · rcases h1.1 with h2 | h2 <;> rw [h2] <;> decide
  have hvalid : ∀ m ∈ g.moves, m.x < 200 ∧ m.y < 256 := by
    intro m hm
    have := hmoves m hm
    have := hinv.wf.size_lt
    omega
  have hreplay := replay_history ec heap g hreach g.winner
  have hsame : (if g.winner = EMPTY_INTERSECTION then { g with winner := g.winner } else g)
      = g := by
    by_cases hw : g.winner = EMPTY_INTERSECTION
    · rw [if_pos hw]
    · rw [if_neg hw]
  rw [hsame] at hreplay
  rw [import_of_export ec FILE_INPUT_ERR heap stack { g with state := st } hinv.wf.size_lt
    htype hst hwin hvalid]
  show (match place_all ec heap { game_create g.board.size g.type with winner := g.winner }
      g.moves with
    | outcome.ret _ g' => outcome.ret { g' with state := st } ()
    | outcome.exit code _ => outcome.exit code ()) = _
  rw [hreplay]

/-- A save file of a board of 201 columns whose only move is in column 200: `%c` writes
the byte 9 for the column, the white-space directive that ends the first `fscanf` of
`game_import` reads it, and the loop takes the digit `'1'` for the column, 240. -/
theorem import_column_200 (ec : error_codes) (FILE_INPUT_ERR : Nat) (heap : Nat → Nat)
    (stack : Nat → Int) (g : game) (hsize : g.board.size = 201)
    (htype : g.type = GAME_FREESTYLE) (hmoves : g.moves = [{ x := 200, y := 0 }]) :
    game_import ec FILE_INPUT_ERR heap stack (game_export g)
      = outcome.exit ec.COORDINATE_ERR () := by
  unfold game_export game_import
  simp only [ne_eq, not_true_eq_false, or_self, if_false]
  rw [scan_header_export, hmoves, hsize, htype,
    show skip_space (export_moves [{ x := 200, y := 0 }]) = [49, 10] by decide]
  simp only
  rw [to_uchar_of_lt 201 (by decide), to_uchar_of_lt GAME_FREESTYLE (by decide)]
  have hx : to_uchar (to_char ((49 : Nat) : Int) - CHAR_A) = 240 := by decide
  have hscan : scan_int [10] = (none, []) := by decide
  have hplace : ∀ (g0 : game) (y : Nat), g0.state = GAME_STATE_PLAYING →
      g0.type = GAME_FREESTYLE → g0.stone = BLACK_STONE → g0.board.size = 201 →
      game_place_stone ec heap g0 240 y
        = outcome.exit ec.COORDINATE_ERR { g0 with board := g0.board } := by
    intro g0 y hs ht hstone hsz
    have hb : board_set ec g0.board 240 y g0.stone
        = outcome.exit ec.COORDINATE_ERR g0.board := by
      unfold board_set
      rw [if_neg (by rw [hstone]; decide), if_pos (Or.inl (by rw [hsz]; decide))]
    unfold game_place_stone
    rw [if_neg (by rw [hs]; simp), if_pos ht, hb]
  simp only [List.length_cons, List.length_nil]
  unfold import_loop
  rw [hscan]
  simp only
  rw [hx, hplace _ _ rfl rfl rfl rfl]

theorem skip_space_length (s : List Nat) : (skip_space s).length ≤ s.length := by
  induction s with
  | nil => exact le_refl _
  | cons c s ih =>
    unfold skip_space
    by_cases h : is_space c = true
    · rw [if_pos h]; exact Nat.le_succ_of_le ih
    · rw [if_neg h]

theorem scan_digits_length (s : List Nat) :
    ∀ acc : Nat, (scan_digits acc s).2.length ≤ s.length := by
  induction s with
  | nil => intro acc; exact le_refl _
  | cons c s ih =>
    intro acc
    unfold scan_digits
    by_cases h : is_digit c = true
    · rw [if_pos h]; exact Nat.le_succ_of_le (ih _)
    · rw [if_neg h]

theorem scan_int_length (s : List Nat) : (scan_int s).2.length ≤ s.length := by
  have h0 := skip_space_length s
  unfold scan_int
  cases hs : skip_space s with
  | nil => exact Nat.zero_le _
  | cons c r =>
    rw [hs] at h0
    simp only
    by_cases h1 : is_digit c = true
    · rw [if_pos h1]
      exact (scan_digits_length (c :: r) 0).trans h0
    · rw [if_neg h1]
      by_cases h2 : c = 45 ∨ c = 43
      · rw [if_pos h2]
        cases r with
        | nil => exact Nat.zero_le _
        | cons d r' =>
          simp only
          have h3 := scan_digits_length (d :: r') 0
          simp only [List.length_cons] at h0 h3
          by_cases h4 : is_digit d = true
          · rw [if_pos h4]
            simp only [List.length_cons] at *
            omega
          · rw [if_neg h4]
            simp only [List.length_cons]
            omega
      · rw [if_neg h2]
        exact h0

/-- The loop of `game_import` does not depend on the bound of its iterations once the
bound is the length of the text. -/
theorem import_loop_bound (ec : error_codes) (heap : Nat → Nat) (n : Nat) :
    ∀ (m : Nat) (y : Int) (g : game) (s : List Nat), s.length ≤ n → s.length ≤ m →
      import_loop ec heap n y g s = import_loop ec heap m y g s := by
  induction n with
  | zero =>
    intro m y g s hn _
    have hs : s = [] := List.length_eq_zero.mp (Nat.le_zero.mp hn)
    subst hs
    cases m <;> rfl
  | succ n ih =>
    intro m y g s hn hm
    cases s with
    | nil => cases m <;> rfl
    | cons c s =>
      cases m with
      | zero => simp at hm
      | succ m =>
        have hlen := scan_int_length s
        simp only [List.length_cons] at hn hm
        unfold import_loop
        cases hsc : scan_int s with
        | mk o r =>
          rw [hsc] at hlen
          have hr : r.length ≤ s.length := hlen
          have hk := skip_space_length r
          cases o with
          | none =>
            simp only
            cases game_place_stone ec heap g (to_uchar (to_char (c : Int) - CHAR_A))
                (to_uchar (y - 1)) with
            | exit code s' => rfl
            | ret a g' => exact ih m y g' r (by omega) (by omega)
          | some v =>
            simp only
            cases game_place_stone ec heap g (to_uchar (to_char (c : Int) - CHAR_A))
                (to_uchar (v - 1)) with
            | exit code s' => rfl
            | ret a g' => exact ih m v g' (skip_space r) (by omega) (by omega)

/-- With the same error codes and the same bytes behind the grid as in the calls that
reached it, a game is the replay of its history on the fresh game of its size and ruleset,
and every call of the replay is made in state `Playing`. -/
theorem replay_in_same_memory (ec : error_codes) (heap : Nat → Nat) (g : game)
    (h : reachable ec heap g) :
    place_all ec heap (game_create g.board.size g.type) g.moves = outcome.ret true g ∧
    ∀ (ms : List move) (m : move) (rest : List move), g.moves = ms ++ m :: rest →
      ∃ g1, place_all ec heap (game_create g.board.size g.type) ms = outcome.ret true g1
        ∧ g1.state = GAME_STATE_PLAYING := by
  have h0 := replay_history ec heap g h EMPTY_INTERSECTION
  have h1 : place_all ec heap (game_create g.board.size g.type) g.moves
      = outcome.ret true g := by
    rw [show game_create g.board.size g.type
      = { game_create g.board.size g.type with winner := EMPTY_INTERSECTION } from rfl, h0]
    by_cases hw : g.winner = EMPTY_INTERSECTION
    · rw [if_pos hw]
      congr 1
      cases g
      simp only at hw
      subst hw
      rfl
    · rw [if_neg hw]
  refine ⟨h1, ?_⟩
  intro ms m rest hms
  rw [hms] at h1
  exact place_all_playing ec heap ms m rest _ g true h1
/-! ## The claims -/

/-- C1 (Freestyle win).  In a Freestyle game in state `Playing`, for a cell `(x, y)` of the
board, `game_place_stone` returns `true` leaving the board with the mover's stone written
at `(x, y)`; if on that board some direction has a contiguous run of 5 or more of the
mover's stones through `(x, y)`, the state left is `Finished` and the winner is the mover.
On a 15 x 15 board the moves A1, B1, A2, B2, A3, B3, A4, B4, A5 end with state `Finished`
and winner Black. -/
theorem freestyle_five_wins :
    (∀ (ec : error_codes) (heap : Nat → Nat) (g : game) (x y : Nat), g.wf →
      g.type = GAME_FREESTYLE → g.state = GAME_STATE_PLAYING →
      x < g.board.size → y < g.board.size →
      ∃ g', game_place_stone ec heap g x y = outcome.ret true g' ∧
        g'.board = with_stone g.board x y g.stone ∧
        (run_through g'.board g.stone x y 5 →
          g'.state = GAME_STATE_FINISHED ∧ g'.winner = g.stone)) ∧
    (∀ (ec : error_codes) (heap : Nat → Nat),
      ∃ g', place_all ec heap (game_create 15 GAME_FREESTYLE) five_in_column_A
          = outcome.ret true g' ∧
        g'.state = GAME_STATE_FINISHED ∧ g'.winner = BLACK_STONE) := by
  constructor
  · intro ec heap g x y hwf htype hstate hx hy
    refine ⟨_, place_freestyle ec heap g hwf htype hstate x y hx hy, ?_, ?_⟩
    · exact freestyle_next_board g x y
    · intro hrun
      rw [freestyle_next_board, ← stone_placed_board] at hrun
      unfold freestyle_next
      rw [if_pos hrun]
      exact ⟨rfl, rfl⟩
  · intro ec heap
    unfold five_in_column_A
    rw [place_all_cons_freestyle _ _ _ _ _ _ (by decide!) (by decide!) (by decide!) (by decide!)
        (by decide!),
      place_all_cons_freestyle _ _ _ _ _ _ (by decide!) (by decide!) (by decide!) (by decide!)
        (by decide!),
      place_all_cons_freestyle _ _ _ _ _ _ (by decide!) (by decide!) (by decide!) (by decide!)
        (by decide!),
      place_all_cons_freestyle _ _ _ _ _ _ (by decide!) (by decide!) (by decide!) (by decide!)
        (by decide!),
      place_all_cons_freestyle _ _ _ _ _ _ (by decide!) (by decide!) (by decide!) (by decide!)
        (by decide!),
      place_all_cons_freestyle _ _ _ _ _ _ (by decide!) (by decide!) (by decide!) (by decide!)
        (by decide!),
      place_all_cons_freestyle _ _ _ _ _ _ (by decide!) (by decide!) (by decide!) (by decide!)
        (by decide!),
      place_all_cons_freestyle _ _ _ _ _ _ (by decide!) (by decide!) (by decide!) (by decide!)
        (by decide!),
      place_all_cons_freestyle _ _ _ _ _ _ (by decide!) (by decide!) (by decide!) (by decide!)
        (by decide!)]
    exact ⟨_, rfl, by decide!, by decide!⟩

/-- Witness for C1: Black completes five in column 0 of a 5 x 5 Freestyle board. -/
theorem freestyle_five_wins_witness :
    ∃ g', game_place_stone sample_codes zero_heap (four_in_column GAME_FREESTYLE) 0 4
        = outcome.ret true g' ∧
      run_through g'.board BLACK_STONE 0 4 5 ∧
      g'.state = GAME_STATE_FINISHED ∧ g'.winner = BLACK_STONE := by
  obtain ⟨g', h1, h2, h3⟩ := freestyle_five_wins.1 sample_codes zero_heap
    (four_in_column GAME_FREESTYLE) 0 4 (by decide) (by decide) (by decide) (by decide)
    (by decide)
  have hrun : run_through g'.board BLACK_STONE 0 4 5 := by
    rw [h2]; decide
  exact ⟨g', h1, hrun, h3 hrun⟩

/-- C2 (Renju overline takes precedence).  In a Renju game reached from `game_create` by
placements made in state `Playing` on empty cells of the board, with Black to move, a
placement on a cell `(x, y)` of the board (empty or not) returns `true` leaving the board
with the black stone written; if on that board some direction has a contiguous run of 6
or more black stones through `(x, y)`, the state left is `Forbidden` and the winner is
White, although the run contains a run of five. -/
theorem renju_overline_forbidden (ec : error_codes) (heap : Nat → Nat) (g : game)
    (hreach : reachable ec heap g) (htype : g.type = GAME_RENJU)
    (hstate : g.state = GAME_STATE_PLAYING) (hblack : g.stone = BLACK_STONE)
    (x y : Nat) (hx : x < g.board.size) (hy : y < g.board.size) :
    ∃ g', game_place_stone ec heap g x y = outcome.ret true g' ∧
      g'.board = with_stone g.board x y BLACK_STONE ∧
      (run_through g'.board BLACK_STONE x y 6 →
        g'.state = GAME_STATE_FORBIDDEN ∧ g'.winner = WHITE_STONE) := by
  have hinv := reachable_inv ec heap g hreach
  refine ⟨_, place_renju ec heap g hinv.wf htype hstate x y hx hy, ?_, ?_⟩
  · rw [renju_next_board, hblack]
  · rw [renju_next_board, ← stone_placed_board, ← hblack]
    intro hrun
    have ho := is_overline_of_run_six ec heap g hinv.wf x y hx hy hblack
      (hinv.no_run hstate) hrun
    unfold renju_next
    rw [if_pos ho]
    exact ⟨rfl, rfl⟩

/-- Witness for C2: on the 7 x 7 board Black joins `(0..2, 0)` and `(4..5, 0)` at
`(3, 0)`; the run of six is forbidden. -/
theorem renju_overline_forbidden_witness :
    ∃ g', game_place_stone sample_codes zero_heap split_five_game 3 0 = outcome.ret true g' ∧
      run_through g'.board BLACK_STONE 3 0 6 ∧
      g'.state = GAME_STATE_FORBIDDEN ∧ g'.winner = WHITE_STONE := by
  obtain ⟨g', h1, h2, h3⟩ := renju_overline_forbidden sample_codes zero_heap split_five_game
    (reachable_game_after sample_codes zero_heap split_five_moves _
      (reachable.create 7 GAME_RENJU (by decide) (by decide)) (by decide!))
    (by decide!) (by decide!) (by decide!) 3 0 (by decide!) (by decide!)
  have hrun : run_through g'.board BLACK_STONE 3 0 6 := by
    rw [h2]; decide!
  exact ⟨g', h1, hrun, h3 hrun⟩

/-- C3 (Renju five for Black).  In a Renju game in state `Playing` with Black to move, a
placement on a cell `(x, y)` of the board returns `true` leaving the board with the black
stone written; if on that board some direction has a contiguous run of exactly 5 black
stones through `(x, y)` (a run of 5 and none of 6) and no direction has a run of 6 or
more through `(x, y)`, the state left is `Finished` and the winner is Black. -/
theorem renju_exact_five_wins (ec : error_codes) (heap : Nat → Nat) (g : game)
    (hwf : g.wf) (htype : g.type = GAME_RENJU)
    (hstate : g.state = GAME_STATE_PLAYING) (hblack : g.stone = BLACK_STONE)
    (x y : Nat) (hx : x < g.board.size) (hy : y < g.board.size) :
    ∃ g', game_place_stone ec heap g x y = outcome.ret true g' ∧
      g'.board = with_stone g.board x y BLACK_STONE ∧
      ((∃ d ∈ directions, has_run g'.board BLACK_STONE x y d 5
          ∧ ¬ has_run g'.board BLACK_STONE x y d 6) →
        (∀ d ∈ directions, ¬ has_run g'.board BLACK_STONE x y d 6) →
        g'.state = GAME_STATE_FINISHED ∧ g'.winner = BLACK_STONE) := by
  refine ⟨_, place_renju ec heap g hwf htype hstate x y hx hy, ?_, ?_⟩
  · rw [renju_next_board, hblack]
  · rw [renju_next_board, ← stone_placed_board, ← hblack]
    rintro ⟨d, hd, h5, _⟩ h6
    have ho := is_overline_false_of_no_run ec heap g hwf x y hx hy
      (fun ⟨d', hd', hr⟩ => h6 d' hd' hr)
    have hr : run_through (stone_placed g x y).board g.stone x y 5 := ⟨d, hd, h5⟩
    unfold renju_next
    rw [if_neg ho, if_pos hr]
    exact ⟨rfl, rfl⟩

/-- Witness for C3: Black completes exactly five in column 0 of the 5 x 5 Renju board. -/
theorem renju_exact_five_wins_witness :
    ∃ g', game_place_stone sample_codes zero_heap (four_in_column GAME_RENJU) 0 4
        = outcome.ret true g' ∧
      (∃ d ∈ directions, has_run g'.board BLACK_STONE 0 4 d 5
          ∧ ¬ has_run g'.board BLACK_STONE 0 4 d 6) ∧
      g'.state = GAME_STATE_FINISHED ∧ g'.winner = BLACK_STONE := by
  obtain ⟨g', h1, h2, h3⟩ := renju_exact_five_wins sample_codes zero_heap
    (four_in_column GAME_RENJU) (by decide) rfl rfl rfl 0 4 (by decide) (by decide)
  have hfive : ∃ d ∈ directions, has_run g'.board BLACK_STONE 0 4 d 5
      ∧ ¬ has_run g'.board BLACK_STONE 0 4 d 6 := by
    rw [h2]; decide
  have hsix : ∀ d ∈ directions, ¬ has_run g'.board BLACK_STONE 0 4 d 6 := by
    rw [h2]; decide
  exact ⟨g', h1, hfive, h3 hfive hsix⟩

/-- C4, the code at a failing input.  The 15 x 15 Renju game `double_four_game` is reached
from `game_create` by the twelve legal moves `double_four_moves`; Black is to move and
`(7, 7)` is empty; the stone there creates no
run of five and does not fill the board, and it makes an open four in two directions:
the row `(4..7, 7)` with `(3, 7)` and `(8, 7)` empty, and the column `(7, 4..7)` with
`(7, 3)` and `(7, 8)` empty.  Whatever the error codes and the memory outside the grid,
`game_place_stone` leaves the state `Playing` with White to move, not `Forbidden`: for
the row the code reads `(2, 7)`, two cells before the run, where a white stone stands. -/
theorem double_open_four_missed :
    legal_moves sample_codes zero_heap (game_create 15 GAME_RENJU) double_four_moves = true ∧
    game_after sample_codes zero_heap (game_create 15 GAME_RENJU) double_four_moves
      = double_four_game ∧
    double_four_game.type = GAME_RENJU ∧
    double_four_game.state = GAME_STATE_PLAYING ∧
    double_four_game.stone = BLACK_STONE ∧
    cell_at double_four_game.board 7 7 = some EMPTY_INTERSECTION ∧
    ∀ (ec : error_codes) (heap : Nat → Nat),
      ∃ g', game_place_stone ec heap double_four_game 7 7 = outcome.ret true g' ∧
        ¬ run_through g'.board BLACK_STONE 7 7 5 ∧
        board_is_full g'.board = false ∧
        double_open_four g'.board BLACK_STONE 7 7 ∧
        g'.state = GAME_STATE_PLAYING ∧ g'.stone = WHITE_STONE := by
  refine ⟨by decide!, by decide!, by decide!, by decide!, by decide!, by decide!, ?_⟩
  intro ec heap
  have hwf : double_four_game.wf := by decide!
  have hwf1 := stone_placed_wf double_four_game hwf 7 7
  have h5 : ¬ run_through (stone_placed double_four_game 7 7).board
      double_four_game.stone 7 7 5 := by decide!
  have h6 : ¬ run_through (stone_placed double_four_game 7 7).board
      double_four_game.stone 7 7 6 := by decide!
  have ho := is_overline_false_of_no_run ec heap double_four_game hwf 7 7 (by decide!)
    (by decide!) h6
  have hd : ¬ game_check_draw (stone_placed double_four_game 7 7) = true := by decide!
  have hup : open_fours_upper (stone_placed double_four_game 7 7).board
        (stone_placed double_four_game 7 7).stone ((7 : Nat) : Int) ((7 : Nat) : Int) (1, 0)
      + open_fours_upper (stone_placed double_four_game 7 7).board
        (stone_placed double_four_game 7 7).stone ((7 : Nat) : Int) ((7 : Nat) : Int) (0, 1)
      + open_fours_upper (stone_placed double_four_game 7 7).board
        (stone_placed double_four_game 7 7).stone ((7 : Nat) : Int) ((7 : Nat) : Int) (1, 1)
      + open_fours_upper (stone_placed double_four_game 7 7).board
        (stone_placed double_four_game 7 7).stone ((7 : Nat) : Int) ((7 : Nat) : Int) (1, -1)
      ≤ 1 := by decide!
  have hf : ¬ is_open_four ec heap (stone_placed double_four_game 7 7) 7 7 = true := by
    rw [is_open_four_iff ec heap _ hwf1.size_lt hwf1.grid_len 7 7 (by decide!) (by decide!)]
    rintro ⟨_, hlt⟩
    have l1 := open_fours_le_upper ec heap _ hwf1.size_lt hwf1.grid_len
      (stone_placed double_four_game 7 7).stone ((7 : Nat) : Int) ((7 : Nat) : Int) (1, 0)
    have l2 := open_fours_le_upper ec heap _ hwf1.size_lt hwf1.grid_len
      (stone_placed double_four_game 7 7).stone ((7 : Nat) : Int) ((7 : Nat) : Int) (0, 1)
    have l3 := open_fours_le_upper ec heap _ hwf1.size_lt hwf1.grid_len
      (stone_placed double_four_game 7 7).stone ((7 : Nat) : Int) ((7 : Nat) : Int) (1, 1)
    have l4 := open_fours_le_upper ec heap _ hwf1.size_lt hwf1.grid_len
      (stone_placed double_four_game 7 7).stone ((7 : Nat) : Int) ((7 : Nat) : Int) (1, -1)
    omega
  have hnext : renju_next ec heap double_four_game 7 7
      = { stone_placed double_four_game 7 7 with stone := toggle double_four_game.stone } := by
    unfold renju_next
    rw [if_neg ho, if_neg h5, if_neg hd, if_neg hf]
  refine ⟨_, place_renju ec heap double_four_game hwf (by decide!) (by decide!) 7 7
    (by decide!) (by decide!), ?_⟩
  rw [hnext]
  exact ⟨by decide!, by decide!, by decide!, by decide!, by decide!⟩

/-- Counterexample to C5 as stated.  The 3 x 3 Renju game `overplayed_game` is what the
eight calls of `game_place_stone` for `overplayed_moves` leave of the fresh game, six of
them on cells that are not empty: it is in state `Playing` with Black to move and
`(2, 2)` is an empty cell of its board.  The stone there makes no run of 4 in any
direction, let alone a run of 5, and the board is not full; yet the state left is
`Finished`, not `Playing`: the draw test compares `moves_count`, here 9, with
`size * size`. -/
theorem single_four_counterexample :
    place_all sample_codes zero_heap (game_create 3 GAME_RENJU) overplayed_moves
      = outcome.ret true overplayed_game ∧
    overplayed_game.type = GAME_RENJU ∧
    overplayed_game.state = GAME_STATE_PLAYING ∧
    overplayed_game.stone = BLACK_STONE ∧
    cell_at overplayed_game.board 2 2 = some EMPTY_INTERSECTION ∧
    ∀ (ec : error_codes) (heap : Nat → Nat),
      ∃ g', game_place_stone ec heap overplayed_game 2 2 = outcome.ret true g' ∧
        (∀ d ∈ directions, ¬ has_run g'.board BLACK_STONE 2 2 d 4) ∧
        ¬ run_through g'.board BLACK_STONE 2 2 5 ∧
        board_is_full g'.board = false ∧
        g'.moves_count = 9 ∧
        g'.state = GAME_STATE_FINISHED := by
  refine ⟨by decide!, rfl, rfl, rfl, by decide!, ?_⟩
  intro ec heap
  have hwf : overplayed_game.wf := by decide!
  have h5 : ¬ run_through (stone_placed overplayed_game 2 2).board
      overplayed_game.stone 2 2 5 := by decide!
  have h6 : ¬ run_through (stone_placed overplayed_game 2 2).board
      overplayed_game.stone 2 2 6 := by decide!
  have ho := is_overline_false_of_no_run ec heap overplayed_game hwf 2 2 (by decide!)
    (by decide!) h6
  have hd : game_check_draw (stone_placed overplayed_game 2 2) = true := by decide!
  have hnext : renju_next ec heap overplayed_game 2 2
      = { stone_placed overplayed_game 2 2 with state := GAME_STATE_FINISHED } := by
    unfold renju_next
    rw [if_neg ho, if_neg h5, if_pos hd]
  refine ⟨_, place_renju ec heap overplayed_game hwf rfl rfl 2 2 (by decide!) (by decide!), ?_⟩
  rw [hnext]
  exact ⟨by decide!, by decide!, by decide!, by decide!, by decide!⟩

/-- C5 as amended (a single open four does not end the game).  In a Renju game reached from
`game_create` by placements made in state `Playing` on empty cells of the board, with
Black to move, a placement on an empty cell `(x, y)` of the board returns `true` leaving
the board with the black stone written; if on that board at most one of the four
directions has a contiguous run of 4 or more black stones through `(x, y)`, no direction
has a run of 5 or more, and the board is not full, then the state left is `Playing`, the
winner is none and White is to move. -/
theorem single_four_keeps_playing (ec : error_codes) (heap : Nat → Nat) (g : game)
    (hreach : reachable ec heap g) (htype : g.type = GAME_RENJU)
    (hstate : g.state = GAME_STATE_PLAYING) (hblack : g.stone = BLACK_STONE)
    (x y : Nat) (hx : x < g.board.size) (hy : y < g.board.size)
    (hempty : cell_at g.board x y = some EMPTY_INTERSECTION) :
    ∃ g', game_place_stone ec heap g x y = outcome.ret true g' ∧
      g'.board = with_stone g.board x y BLACK_STONE ∧
      ((∀ d1 ∈ directions, ∀ d2 ∈ directions,
          has_run g'.board BLACK_STONE x y d1 4 → has_run g'.board BLACK_STONE x y d2 4 →
          d1 = d2) →
        ¬ run_through g'.board BLACK_STONE x y 5 →
        board_is_full g'.board = false →
        g'.state = GAME_STATE_PLAYING ∧ g'.winner = EMPTY_INTERSECTION
          ∧ g'.stone = WHITE_STONE) := by
  have hinv := reachable_inv ec heap g hreach
  have hret := place_renju ec heap g hinv.wf htype hstate x y hx hy
  have hinv' : (renju_next ec heap g x y).inv :=
    reachable_inv ec heap _ (reachable.place g _ x y true hreach hstate hx hy hempty hret)
  refine ⟨_, hret, ?_, ?_⟩
  · rw [renju_next_board, hblack]
  · have hwf1 := stone_placed_wf g hinv.wf x y
    have hcount := hinv'.count
    unfold game.moves_count at hcount
    rw [renju_next_board, renju_next_moves, ← stone_placed_board, ← stone_placed_moves]
      at hcount
    rw [renju_next_board, ← stone_placed_board, ← hblack]
    intro hone h5 hfull
    have h6 : ¬ run_through (stone_placed g x y).board g.stone x y 6 :=
      fun h => h5 (run_through_mono _ _ _ _ 5 (by decide) h)
    have ho := is_overline_false_of_no_run ec heap g hinv.wf x y hx hy h6
    have hd : ¬ game_check_draw (stone_placed g x y) = true := by
      rw [game_check_draw_eq _ hwf1.grid_len hcount, hfull]
      simp
    have hcentre : cell_at (stone_placed g x y).board (x : Int) (y : Int) = some g.stone := by
      rw [stone_placed_board, cell_at_with_stone g.board hinv.wf.grid_len x y g.stone hx hy,
        if_pos ⟨rfl, rfl⟩]
    have hle : ∀ d ∈ directions,
        open_fours ec heap (stone_placed g x y).board g.stone x y d ≤ 1 := fun d _ =>
      open_fours_le_one ec heap _ g.stone x y d hcentre (fun h => h5 ⟨d, ‹d ∈ directions›, h⟩)
    have hzero : ∀ d ∈ directions, ¬ has_run (stone_placed g x y).board g.stone x y d 4 →
        open_fours ec heap (stone_placed g x y).board g.stone x y d = 0 := fun d hd h =>
      open_fours_eq_zero ec heap _ hwf1.grid_len g.stone x y d hd hcentre h
    have hf : ¬ is_open_four ec heap (stone_placed g x y) x y = true := by
      rw [is_open_four_iff ec heap _ hwf1.size_lt hwf1.grid_len x y hx hy, stone_placed_stone]
      rintro ⟨_, hlt⟩
      have m1 : ((1 : Int), (0 : Int)) ∈ directions := by simp [directions]
      have m2 : ((0 : Int), (1 : Int)) ∈ directions := by simp [directions]
      have m3 : ((1 : Int), (1 : Int)) ∈ directions := by simp [directions]
      have m4 : ((1 : Int), (-1 : Int)) ∈ directions := by simp [directions]
      have l1 := hle _ m1
      have l2 := hle _ m2
      have l3 := hle _ m3
      have l4 := hle _ m4
      have z1 := hzero _ m1
      have z2 := hzero _ m2
      have z3 := hzero _ m3
      have z4 := hzero _ m4
      have n12 : ((1 : Int), (0 : Int)) ≠ ((0 : Int), (1 : Int)) := by decide
      have n13 : ((1 : Int), (0 : Int)) ≠ ((1 : Int), (1 : Int)) := by decide
      have n14 : ((1 : Int), (0 : Int)) ≠ ((1 : Int), (-1 : Int)) := by decide
      have n23 : ((0 : Int), (1 : Int)) ≠ ((1 : Int), (1 : Int)) := by decide
      have n24 : ((0 : Int), (1 : Int)) ≠ ((1 : Int), (-1 : Int)) := by decide
      have n34 : ((1 : Int), (1 : Int)) ≠ ((1 : Int), (-1 : Int)) := by decide
      by_cases r1 : has_run (stone_placed g x y).board g.stone x y (1, 0) 4
      · have e2 := z2 (fun r => n12 (hone _ m1 _ m2 r1 r))
        have e3 := z3 (fun r => n13 (hone _ m1 _ m3 r1 r))
        have e4 := z4 (fun r => n14 (hone _ m1 _ m4 r1 r))
        omega
      · have e1 := z1 r1
        by_cases r2 : has_run (stone_placed g x y).board g.stone x y (0, 1) 4
        · have e3 := z3 (fun r => n23 (hone _ m2 _ m3 r2 r))
          have e4 := z4 (fun r => n24 (hone _ m2 _ m4 r2 r))
          omega
        · have e2 := z2 r2
          by_cases r3 : has_run (stone_placed g x y).board g.stone x y (1, 1) 4
          · have e4 := z4 (fun r => n34 (hone _ m3 _ m4 r3 r))
            omega
          · have e3 := z3 r3
            omega
    unfold renju_next
    rw [if_neg ho, if_neg h5, if_neg hd, if_neg hf]
    refine ⟨hstate, hinv.winner_none hstate, ?_⟩
    show toggle g.stone = WHITE_STONE
    rw [hblack]; rfl

/-- Witness for C5: in `double_four_game` the black stone at `(3, 7)` makes the single
four `(3..6, 7)`; the game goes on with White to move. -/
theorem single_four_keeps_playing_witness :
    ∃ g', game_place_stone sample_codes zero_heap double_four_game 3 7 = outcome.ret true g' ∧
      has_run g'.board BLACK_STONE 3 7 (1, 0) 4 ∧
      g'.state = GAME_STATE_PLAYING ∧ g'.winner = EMPTY_INTERSECTION
        ∧ g'.stone = WHITE_STONE := by
  have hreach : reachable sample_codes zero_heap double_four_game := by
    have h := reachable_game_after sample_codes zero_heap double_four_moves _
      (reachable.create 15 GAME_RENJU (by decide) (by decide)) (by decide!)
    rwa [show game_after sample_codes zero_heap (game_create 15 GAME_RENJU) double_four_moves
      = double_four_game by decide!] at h
  obtain ⟨g', h1, h2, h3⟩ := single_four_keeps_playing sample_codes zero_heap double_four_game
    hreach rfl rfl rfl 3 7 (by decide) (by decide) (by decide!)
  have hrun : has_run g'.board BLACK_STONE 3 7 (1, 0) 4 := by rw [h2]; decide!
  exact ⟨g', h1, hrun, h3 (by rw [h2]; decide!) (by rw [h2]; decide!) (by rw [h2]; decide!)⟩

/-- C6 (draw).  In a game of either ruleset reached from `game_create` by placements made
in state `Playing` on empty cells of the board, a placement on the last empty cell
`(x, y)` returns `true`, and if the stone completes no run of 5 or more through `(x, y)`
the state left is `Finished` and the winner is none.  For every game so reached the draw
test `moves_count == size * size` is true exactly when `board_is_full` is. -/
theorem draw_on_last_cell :
    (∀ (ec : error_codes) (heap : Nat → Nat) (g : game) (x y : Nat),
      reachable ec heap g → (g.type = GAME_FREESTYLE ∨ g.type = GAME_RENJU) →
      g.state = GAME_STATE_PLAYING → x < g.board.size → y < g.board.size →
      cell_at g.board x y = some EMPTY_INTERSECTION →
      (∀ cx cy : Int, on_board g.board cx cy → ¬ (cx = (x : Int) ∧ cy = (y : Int)) →
        cell_at g.board cx cy ≠ some EMPTY_INTERSECTION) →
      ∃ g', game_place_stone ec heap g x y = outcome.ret true g' ∧
        g'.board = with_stone g.board x y g.stone ∧
        (¬ run_through g'.board g.stone x y 5 →
          g'.state = GAME_STATE_FINISHED ∧ g'.winner = EMPTY_INTERSECTION)) ∧
    (∀ (ec : error_codes) (heap : Nat → Nat) (g : game), reachable ec heap g →
      game_check_draw g = board_is_full g.board) := by
  constructor
  · intro ec heap g x y hreach htype hstate hx hy hempty hlast
    have hinv := reachable_inv ec heap g hreach
    obtain ⟨g', hret, hg'⟩ := place_returns ec heap g hinv.wf htype hstate x y hx hy
    have hinv' : g'.inv :=
      reachable_inv ec heap _ (reachable.place g _ x y true hreach hstate hx hy hempty hret)
    have hwf1 := stone_placed_wf g hinv.wf x y
    have hboard : g'.board = with_stone g.board x y g.stone := by
      rcases hg' with h | h <;> rw [h]
      · exact freestyle_next_board g x y
      · exact renju_next_board ec heap g x y
    have hmoves : g'.moves = (stone_placed g x y).moves := by
      rcases hg' with h | h <;> rw [h]
      · exact freestyle_next_moves g x y
      · exact renju_next_moves ec heap g x y
    have hcount := hinv'.count
    unfold game.moves_count at hcount
    rw [hboard, hmoves, ← stone_placed_board] at hcount
    have hne : g.stone ≠ EMPTY_INTERSECTION := by
      rcases hinv.wf.stone_ok with h | h <;> rw [h] <;> decide
    have hfull : board_is_full (stone_placed g x y).board = true := by
      apply board_is_full_of_cells _ hwf1.grid_len
      intro cx cy hon
      rw [stone_placed_board, cell_at_with_stone g.board hinv.wf.grid_len x y g.stone hx hy]
      by_cases hc : cx = (x : Int) ∧ cy = (y : Int)
      · rw [if_pos hc]
        intro h
        exact hne (Option.some.inj h)
      · rw [if_neg hc]
        exact hlast cx cy hon hc
    have hd : game_check_draw (stone_placed g x y) = true := by
      rw [game_check_draw_eq _ hwf1.grid_len hcount, hfull]
    refine ⟨g', hret, hboard, ?_⟩
    rw [hboard, ← stone_placed_board]
    intro h5
    rcases hg' with h | h
    · rw [h]
      unfold freestyle_next
      rw [if_neg h5, if_pos hd]
      exact ⟨rfl, hinv.winner_none hstate⟩
    · rw [h]
      have h6 : ¬ run_through (stone_placed g x y).board g.stone x y 6 :=
        fun h => h5 (run_through_mono _ _ _ _ 5 (by decide) h)
      have ho := is_overline_false_of_no_run ec heap g hinv.wf x y hx hy h6
      unfold renju_next
      rw [if_neg ho, if_neg h5, if_pos hd]
      exact ⟨rfl, hinv.winner_none hstate⟩
  · intro ec heap g hreach
    have hinv := reachable_inv ec heap g hreach
    exact game_check_draw_eq g hinv.wf.grid_len hinv.count

/-- Witness for C6: the 5 x 5 Freestyle game `near_full_game` is reached by the 24 legal
moves `near_full_moves`; Black fills its last empty cell `(4, 4)` without a line of five,
and the game is drawn. -/
theorem draw_on_last_cell_witness :
    reachable sample_codes zero_heap near_full_game ∧
    near_full_game.moves_count = 24 ∧
    cell_at near_full_game.board 4 4 = some EMPTY_INTERSECTION ∧
    ∃ g', game_place_stone sample_codes zero_heap near_full_game 4 4 = outcome.ret true g' ∧
      ¬ run_through g'.board BLACK_STONE 4 4 5 ∧
      g'.state = GAME_STATE_FINISHED ∧ g'.winner = EMPTY_INTERSECTION := by
  have hreach : reachable sample_codes zero_heap near_full_game := by
    have h := reachable_game_after sample_codes zero_heap near_full_moves _
      (reachable.create 5 GAME_FREESTYLE (by decide) (by decide)) (by decide!)
    rwa [show game_after sample_codes zero_heap (game_create 5 GAME_FREESTYLE) near_full_moves
      = near_full_game by decide!] at h
  obtain ⟨g', h1, h2, h3⟩ := draw_on_last_cell.1 sample_codes zero_heap near_full_game 4 4
    hreach (Or.inl rfl) rfl (by decide) (by decide) (by decide!)
    (by
      intro cx cy hon hne
      have hs : (near_full_game.board.size : Int) = 5 := rfl
      unfold on_board at hon
      rw [hs] at hon
      obtain ⟨c1, c2, c3, c4⟩ := hon
      interval_cases cx <;> interval_cases cy <;>
        first
        | decide!
        | exact absurd ⟨by norm_num, by norm_num⟩ hne)
  have hrun : ¬ run_through g'.board BLACK_STONE 4 4 5 := by rw [h2]; decide!
  exact ⟨hreach, rfl, by decide!, g', h1, hrun, h3 hrun⟩

/-- C7 (only `Playing` permits moves).  When the state is `Stopped`, `Finished` or
`Forbidden`, `game_place_stone` calls `exit(INPUT_ERR)` and the game at that moment is
the game it was given: board, history, `stone`, `state` and `winner` are untouched. -/
theorem place_outside_playing_exits (ec : error_codes) (heap : Nat → Nat) (g : game)
    (x y : Nat)
    (h : g.state = GAME_STATE_STOPPED ∨ g.state = GAME_STATE_FINISHED
      ∨ g.state = GAME_STATE_FORBIDDEN) :
    game_place_stone ec heap g x y = outcome.exit ec.INPUT_ERR g := by
  unfold game_place_stone
  rw [if_pos]
  rcases h with h | h | h <;> rw [h] <;> decide

/-- Witness for C7: a finished game refuses a further stone. -/
theorem place_outside_playing_exits_witness :
    game_place_stone sample_codes zero_heap
        { four_in_column GAME_RENJU with state := GAME_STATE_FINISHED } 2 2
      = outcome.exit sample_codes.INPUT_ERR
        { four_in_column GAME_RENJU with state := GAME_STATE_FINISHED } :=
  place_outside_playing_exits sample_codes zero_heap
    { four_in_column GAME_RENJU with state := GAME_STATE_FINISHED } 2 2 (Or.inr (Or.inl rfl))

/-- C8 (effect and frame of a placement).  In state `Playing`, for either ruleset and a
cell `(x, y)` of the board, `game_place_stone` returns `true`; afterwards the cell
`(x, y)` holds the colour that was to move, every other cell is as before, the history
is the previous history with the one move `(x, y)` appended, and the ruleset and the
board size are unchanged; the state left is `Playing`, `Finished` or `Forbidden`. -/
theorem place_effect_and_frame (ec : error_codes) (heap : Nat → Nat) (g : game) (hwf : g.wf)
    (htype : g.type = GAME_FREESTYLE ∨ g.type = GAME_RENJU)
    (hstate : g.state = GAME_STATE_PLAYING)
    (x y : Nat) (hx : x < g.board.size) (hy : y < g.board.size) :
    ∃ g', game_place_stone ec heap g x y = outcome.ret true g' ∧
      board_get ec heap g'.board x y = g.stone ∧
      cell_at g'.board x y = some g.stone ∧
      (∀ cx cy : Int, ¬ (cx = (x : Int) ∧ cy = (y : Int)) →
        cell_at g'.board cx cy = cell_at g.board cx cy) ∧
      g'.moves = g.moves ++ [{ x := x, y := y }] ∧
      g'.moves_count = g.moves_count + 1 ∧
      (∀ i : Nat, i < g.moves_count → g'.moves[i]? = g.moves[i]?) ∧
      g'.type = g.type ∧
      g'.board.size = g.board.size ∧
      g'.board.grid.length = g.board.grid.length ∧
      (g'.state = GAME_STATE_PLAYING ∨ g'.state = GAME_STATE_FINISHED
        ∨ g'.state = GAME_STATE_FORBIDDEN) := by
  obtain ⟨g', hret, hg'⟩ := place_returns ec heap g hwf htype hstate x y hx hy
  have hboard : g'.board = with_stone g.board x y g.stone := by
    rcases hg' with h | h <;> rw [h]
    · exact freestyle_next_board g x y
    · exact renju_next_board ec heap g x y
  have hmoves : g'.moves = g.moves ++ [{ x := x, y := y }] := by
    rcases hg' with h | h <;> rw [h]
    · exact freestyle_next_moves g x y
    · exact renju_next_moves ec heap g x y
  have hty : g'.type = g.type := by
    rcases hg' with h | h <;> rw [h]
    · exact freestyle_next_type g x y
    · exact renju_next_type ec heap g x y
  have hst : g'.state = GAME_STATE_PLAYING ∨ g'.state = GAME_STATE_FINISHED
      ∨ g'.state = GAME_STATE_FORBIDDEN := by
    rcases hg' with h | h <;> rw [h]
    · unfold freestyle_next
      split_ifs
      · exact Or.inr (Or.inl rfl)
      · exact Or.inr (Or.inl rfl)
      · exact Or.inl hstate
    · unfold renju_next
      split_ifs
      · exact Or.inr (Or.inr rfl)
      · exact Or.inr (Or.inl rfl)
      · exact Or.inr (Or.inl rfl)
      · exact Or.inr (Or.inr rfl)
      · exact Or.inl hstate
  have hcell : cell_at g'.board x y = some g.stone := by
    rw [hboard, cell_at_with_stone g.board hwf.grid_len x y g.stone hx hy, if_pos ⟨rfl, rfl⟩]
  have hlen' : g'.board.grid.length = g'.board.size * g'.board.size := by
    rw [hboard, with_stone_length, with_stone_size]; exact hwf.grid_len
  have hsz' : g'.board.size < 256 := by rw [hboard, with_stone_size]; exact hwf.size_lt
  refine ⟨g', hret, ?_, hcell, ?_, hmoves, ?_, ?_, hty, ?_, ?_, hst⟩
  · have hget := cell_at_eq_board_get ec heap g'.board hsz' hlen' (x : Int) (y : Int)
      (cell_at_some_on_board _ _ _ _ hcell)
    have hlt := hwf.size_lt
    rw [hcell, to_uchar_of_lt x (by omega), to_uchar_of_lt y (by omega)] at hget
    exact (Option.some.inj hget).symm
  · intro cx cy hne
    rw [hboard, cell_at_with_stone g.board hwf.grid_len x y g.stone hx hy, if_neg hne]
  · unfold game.moves_count
    rw [hmoves, List.length_append]
    rfl
  · intro i hi
    unfold game.moves_count at hi
    rw [hmoves, List.getElem?_append_left hi]
  · rw [hboard]; rfl
  · rw [hboard, with_stone_length]

/-- Witness for C8: a stone at the centre of the 5 x 5 Renju board. -/
theorem place_effect_and_frame_witness :
    ∃ g', game_place_stone sample_codes zero_heap (four_in_column GAME_RENJU) 2 2
        = outcome.ret true g' ∧
      cell_at g'.board 2 2 = some BLACK_STONE ∧
      g'.moves = (four_in_column GAME_RENJU).moves ++ [{ x := 2, y := 2 }] := by
  obtain ⟨g', h1, _, h3, _, h5, _⟩ := place_effect_and_frame sample_codes zero_heap
    (four_in_column GAME_RENJU) (by decide) (Or.inr rfl) rfl 2 2 (by decide) (by decide)
  exact ⟨g', h1, h3, h5⟩

/-- C9 (turn toggling).  In state `Playing`, for either ruleset and a cell of the board,
`game_place_stone` returns `true`; if the state it leaves is still `Playing`, `stone`
(the colour to move) is the colour opposite to the mover, and if it leaves `Finished` or
`Forbidden`, `stone` is still the mover. -/
theorem turn_toggles_unless_game_ends (ec : error_codes) (heap : Nat → Nat) (g : game)
    (hwf : g.wf) (htype : g.type = GAME_FREESTYLE ∨ g.type = GAME_RENJU)
    (hstate : g.state = GAME_STATE_PLAYING)
    (x y : Nat) (hx : x < g.board.size) (hy : y < g.board.size) :
    ∃ g', game_place_stone ec heap g x y = outcome.ret true g' ∧
      (g'.state = GAME_STATE_PLAYING →
        g'.stone ≠ g.stone ∧ (g'.stone = BLACK_STONE ∨ g'.stone = WHITE_STONE)) ∧
      (g'.state = GAME_STATE_FINISHED ∨ g'.state = GAME_STATE_FORBIDDEN →
        g'.stone = g.stone) := by
  obtain ⟨g', hret, hg'⟩ := place_returns ec heap g hwf htype hstate x y hx hy
  have hcases : (g'.state = GAME_STATE_FORBIDDEN ∧ g'.stone = g.stone)
      ∨ (g'.state = GAME_STATE_FINISHED ∧ g'.stone = g.stone)
      ∨ (g'.state = GAME_STATE_PLAYING ∧ g'.stone = toggle g.stone) := by
    rcases hg' with h | h <;> rw [h]
    · rcases freestyle_next_cases g x y with h1 | h1
      · exact Or.inr (Or.inl h1)
      · rw [hstate] at h1; exact Or.inr (Or.inr h1)
    · have := renju_next_cases ec heap g x y
      rw [hstate] at this
      exact this
  refine ⟨g', hret, ?_, ?_⟩
  · intro hp
    rcases hcases with h | h | h
    · rw [h.1] at hp; exact absurd hp (by decide)
    · rw [h.1] at hp; exact absurd hp (by decide)
    · rw [h.2]; exact toggle_ne g.stone hwf.stone_ok
  · intro hp
    rcases hcases with h | h | h
    · exact h.2
    · exact h.2
    · rw [h.1] at hp
      rcases hp with hp | hp <;> exact absurd hp (by decide)

/-- Witness for C9: the stone at the centre of the 5 x 5 Renju board passes the turn. -/
theorem turn_toggles_unless_game_ends_witness :
    ∃ g', game_place_stone sample_codes zero_heap (four_in_column GAME_RENJU) 2 2
        = outcome.ret true g' ∧
      (g'.state = GAME_STATE_PLAYING →
        g'.stone ≠ BLACK_STONE ∧ (g'.stone = BLACK_STONE ∨ g'.stone = WHITE_STONE)) ∧
      (g'.state = GAME_STATE_FINISHED ∨ g'.state = GAME_STATE_FORBIDDEN →
        g'.stone = BLACK_STONE) :=
  turn_toggles_unless_game_ends sample_codes zero_heap (four_in_column GAME_RENJU)
    (by decide) (Or.inr rfl) rfl 2 2 (by decide) (by decide)

/-- Counterexample to C10 as stated: in a Freestyle game Black places the fifth stone of
a column on an empty cell of the board; the call returns `true` and the colour to move
is still Black, not White. -/
theorem freestyle_turn_counterexample :
    (four_in_column GAME_FREESTYLE).wf ∧
    (four_in_column GAME_FREESTYLE).state = GAME_STATE_PLAYING ∧
    (four_in_column GAME_FREESTYLE).stone = BLACK_STONE ∧
    cell_at (four_in_column GAME_FREESTYLE).board 0 4 = some EMPTY_INTERSECTION ∧
    ∃ g', game_place_stone sample_codes zero_heap (four_in_column GAME_FREESTYLE) 0 4
        = outcome.ret true g' ∧ g'.stone = BLACK_STONE := by
  refine ⟨by decide, by decide, by decide, by decide,
    freestyle_next (four_in_column GAME_FREESTYLE) 0 4, ?_, ?_⟩
  · exact place_freestyle sample_codes zero_heap (four_in_column GAME_FREESTYLE) (by decide)
      rfl rfl 0 4 (by decide) (by decide)
  · decide

/-- C10 as amended.  In a Freestyle game in state `Playing`, for a cell of the board,
empty or not, `game_place_stone` returns `true`; when the stone completes a run of 5 or
more through it, or the number of recorded moves reaches `size * size` with this move,
the state left is `Finished` and the colour to move is unchanged; otherwise the state left
is `Playing` and the colour to move is the opposite one. -/
theorem freestyle_turn_alternates_while_playing (ec : error_codes) (heap : Nat → Nat)
    (g : game) (hwf : g.wf) (htype : g.type = GAME_FREESTYLE)
    (hstate : g.state = GAME_STATE_PLAYING)
    (x y : Nat) (hx : x < g.board.size) (hy : y < g.board.size) :
    ∃ g', game_place_stone ec heap g x y = outcome.ret true g' ∧
      ((run_through g'.board g.stone x y 5 ∨ g'.moves_count = g.board.size * g.board.size) →
        g'.state = GAME_STATE_FINISHED ∧ g'.stone = g.stone) ∧
      (¬ (run_through g'.board g.stone x y 5 ∨ g'.moves_count = g.board.size * g.board.size) →
        g'.state = GAME_STATE_PLAYING ∧ g'.stone ≠ g.stone
          ∧ (g'.stone = BLACK_STONE ∨ g'.stone = WHITE_STONE)) := by
  refine ⟨_, place_freestyle ec heap g hwf htype hstate x y hx hy, ?_, ?_⟩
  · rw [freestyle_next_board, ← stone_placed_board]
    unfold game.moves_count
    rw [freestyle_next_moves, ← stone_placed_moves]
    intro h
    unfold freestyle_next
    by_cases hr : run_through (stone_placed g x y).board g.stone x y 5
    · rw [if_pos hr]; exact ⟨rfl, rfl⟩
    · have hd : game_check_draw (stone_placed g x y) = true := by
        unfold game_check_draw game.moves_count
        rcases h with h | h
        · exact absurd h hr
        · simp only [decide_eq_true_eq]
          rw [h]; rfl
      rw [if_neg hr, if_pos hd]; exact ⟨rfl, rfl⟩
  · rw [freestyle_next_board, ← stone_placed_board]
    unfold game.moves_count
    rw [freestyle_next_moves, ← stone_placed_moves]
    intro h
    unfold freestyle_next
    have hr : ¬ run_through (stone_placed g x y).board g.stone x y 5 := fun hr => h (Or.inl hr)
    have hd : ¬ game_check_draw (stone_placed g x y) = true := by
      unfold game_check_draw game.moves_count
      simp only [decide_eq_true_eq]
      intro hd
      apply h
      right
      rw [← hd]; rfl
    rw [if_neg hr, if_neg hd]
    exact ⟨hstate, toggle_ne g.stone hwf.stone_ok⟩

/-- Witness for C10 as amended: a Freestyle stone at the centre of the 5 x 5 board. -/
theorem freestyle_turn_alternates_while_playing_witness :
    ∃ g', game_place_stone sample_codes zero_heap (four_in_column GAME_FREESTYLE) 2 2
        = outcome.ret true g' ∧
      g'.state = GAME_STATE_PLAYING ∧ g'.stone = WHITE_STONE := by
  obtain ⟨g', h1, _, h3⟩ := freestyle_turn_alternates_while_playing sample_codes zero_heap
    (four_in_column GAME_FREESTYLE) (by decide) rfl rfl 2 2 (by decide) (by decide)
  have hg : g' = freestyle_next (four_in_column GAME_FREESTYLE) 2 2 := by
    have := place_freestyle sample_codes zero_heap (four_in_column GAME_FREESTYLE)
      (by decide) rfl rfl 2 2 (by decide) (by decide)
    rw [h1] at this
    injection this with _ h
  subst hg
  exact ⟨_, h1, by decide, by decide⟩

/-- C11 (state/winner consistency).  In a game reached from `game_create` by placements
made in state `Playing` on empty cells of the board, the state is `Playing`, `Forbidden`
or `Finished`; `Playing` implies that the winner is none; `Forbidden` implies that the
ruleset is Renju, that the last stone placed is Black's (and Black is still the colour in
`stone`) and that the winner is White; `Finished` implies that the winner is none and the
board is full, or that the winner is the colour of the last stone placed.  So a Freestyle
game is never `Forbidden`, and neither is a game whose last stone is White's. -/
theorem state_winner_consistency (ec : error_codes) (heap : Nat → Nat) (g : game)
    (h : reachable ec heap g) :
    (g.state = GAME_STATE_PLAYING ∨ g.state = GAME_STATE_FORBIDDEN
      ∨ g.state = GAME_STATE_FINISHED) ∧
    (g.state = GAME_STATE_PLAYING → g.winner = EMPTY_INTERSECTION) ∧
    (g.state = GAME_STATE_FORBIDDEN →
      g.type = GAME_RENJU ∧ g.stone = BLACK_STONE ∧ last_stone g = some BLACK_STONE
        ∧ g.winner = WHITE_STONE) ∧
    (g.state = GAME_STATE_FINISHED →
      (g.winner = EMPTY_INTERSECTION ∧ board_is_full g.board = true)
      ∨ ((g.winner = BLACK_STONE ∨ g.winner = WHITE_STONE) ∧ last_stone g = some g.winner)) ∧
    (g.type = GAME_FREESTYLE → g.state ≠ GAME_STATE_FORBIDDEN) ∧
    (last_stone g = some WHITE_STONE → g.state ≠ GAME_STATE_FORBIDDEN) := by
  have hc := reachable_consistent ec heap g h
  refine ⟨hc.states, hc.playing, hc.forbidden, hc.finished, ?_, ?_⟩
  · intro hF hs
    have := (hc.forbidden hs).1
    rw [hF] at this
    exact absurd this (by decide)
  · intro hl hs
    have := (hc.forbidden hs).2.2.1
    rw [hl] at this
    exact absurd this (by decide)

/-- Witness for C11: the 7 x 7 Renju game after Black's overline at `(3, 0)` is
`Forbidden`, Black placed the last stone and White is the winner. -/
theorem state_winner_consistency_witness :
    (game_after sample_codes zero_heap split_five_game [⟨3, 0⟩]).state = GAME_STATE_FORBIDDEN ∧
    (game_after sample_codes zero_heap split_five_game [⟨3, 0⟩]).type = GAME_RENJU ∧
    last_stone (game_after sample_codes zero_heap split_five_game [⟨3, 0⟩])
      = some BLACK_STONE ∧
    (game_after sample_codes zero_heap split_five_game [⟨3, 0⟩]).winner = WHITE_STONE := by
  have hreach : reachable sample_codes zero_heap
      (game_after sample_codes zero_heap split_five_game [⟨3, 0⟩]) :=
    reachable_game_after sample_codes zero_heap [⟨3, 0⟩] _
      (reachable_game_after sample_codes zero_heap split_five_moves _
        (reachable.create 7 GAME_RENJU (by decide) (by decide)) (by decide!)) (by decide!)
  have hs : (game_after sample_codes zero_heap split_five_game [⟨3, 0⟩]).state
      = GAME_STATE_FORBIDDEN := by decide!
  obtain ⟨h1, _, h3, h4⟩ := (state_winner_consistency sample_codes zero_heap _ hreach).2.2.1 hs
  exact ⟨hs, h1, h3, h4⟩

/-- C12 (history, board and turn).  In a game reached from `game_create` by placements
made in state `Playing` on empty cells of the board, `moves_count` is the number of
non-empty cells of the grid, the cell of the move of index `i` of the history holds
Black when `i` is even and White when `i` is odd, and while the state is `Playing` the
colour to move is Black exactly when `moves_count` is even. -/
theorem history_board_turn (ec : error_codes) (heap : Nat → Nat) (g : game)
    (h : reachable ec heap g) :
    g.board.grid.length = g.board.size * g.board.size ∧
    g.moves_count = stones g.board ∧
    (∀ (i : Nat) (m : move), g.moves[i]? = some m →
      cell_at g.board (m.x : Int) (m.y : Int)
        = some (if i % 2 = 0 then BLACK_STONE else WHITE_STONE)) ∧
    (g.state = GAME_STATE_PLAYING → (g.stone = BLACK_STONE ↔ g.moves_count % 2 = 0)) := by
  have hi := reachable_inv ec heap g h
  have hh := reachable_hist ec heap g h
  exact ⟨hi.wf.grid_len, hi.count, hh.cells, hh.turn⟩

/-- Witness for C12: `double_four_game` has twelve moves and twelve stones, and Black is to
move. -/
theorem history_board_turn_witness :
    double_four_game.moves_count = stones double_four_game.board ∧
    (double_four_game.stone = BLACK_STONE ↔ double_four_game.moves_count % 2 = 0) := by
  have hreach : reachable sample_codes zero_heap double_four_game := by
    have h := reachable_game_after sample_codes zero_heap double_four_moves _
      (reachable.create 15 GAME_RENJU (by decide) (by decide)) (by decide!)
    rwa [show game_after sample_codes zero_heap (game_create 15 GAME_RENJU) double_four_moves
      = double_four_game by decide!] at h
  obtain ⟨_, h2, _, h4⟩ := history_board_turn sample_codes zero_heap double_four_game hreach
  exact ⟨h2, h4 rfl⟩

/-- C13, the code at a failing input.  The 15 x 15 Renju game `edge_four_game` is reached
from `game_create` by the twelve legal moves `edge_four_moves`; Black is to move and
`(14, 7)` is empty.  The stone there creates no run of five and does not fill the board;
the only direction with a run of exactly four whose two neighbouring cells lie on the
board is the column `(14, 4..7)`, the row `(11..14, 7)` ending at the right edge.
Whatever the error codes and the memory outside the grid, `game_place_stone` leaves the
state `Forbidden` with winner White: for the row, `board_get(15, 7)` passes the guard
`x > size` and reads the grid byte of the cell `(0, 8)`, which is empty. -/
theorem edge_four_wraps_around :
    legal_moves sample_codes zero_heap (game_create 15 GAME_RENJU) edge_four_moves = true ∧
    game_after sample_codes zero_heap (game_create 15 GAME_RENJU) edge_four_moves
      = edge_four_game ∧
    edge_four_game.type = GAME_RENJU ∧
    edge_four_game.state = GAME_STATE_PLAYING ∧
    edge_four_game.stone = BLACK_STONE ∧
    cell_at edge_four_game.board 14 7 = some EMPTY_INTERSECTION ∧
    grid_read edge_four_game.board 15 7 = cell_at edge_four_game.board 0 8 ∧
    ∀ (ec : error_codes) (heap : Nat → Nat),
      ∃ g', game_place_stone ec heap edge_four_game 14 7 = outcome.ret true g' ∧
        ¬ run_through g'.board BLACK_STONE 14 7 5 ∧
        board_is_full g'.board = false ∧
        (∀ d ∈ directions, four_inside_board g'.board BLACK_STONE 14 7 d → d = (0, 1)) ∧
        g'.state = GAME_STATE_FORBIDDEN ∧ g'.winner = WHITE_STONE := by
  refine ⟨by decide!, by decide!, by decide!, by decide!, by decide!, by decide!, by decide!, ?_⟩
  intro ec heap
  have hwf : edge_four_game.wf := by decide!
  have hwf1 := stone_placed_wf edge_four_game hwf 14 7
  have h5 : ¬ run_through (stone_placed edge_four_game 14 7).board
      edge_four_game.stone 14 7 5 := by decide!
  have h6 : ¬ run_through (stone_placed edge_four_game 14 7).board
      edge_four_game.stone 14 7 6 := by decide!
  have ho := is_overline_false_of_no_run ec heap edge_four_game hwf 14 7 (by decide!)
    (by decide!) h6
  have hd : ¬ game_check_draw (stone_placed edge_four_game 14 7) = true := by decide!
  have hlow : 1 < open_fours_lower (stone_placed edge_four_game 14 7).board
        (stone_placed edge_four_game 14 7).stone ((14 : Nat) : Int) ((7 : Nat) : Int) (1, 0)
      + open_fours_lower (stone_placed edge_four_game 14 7).board
        (stone_placed edge_four_game 14 7).stone ((14 : Nat) : Int) ((7 : Nat) : Int) (0, 1)
      := by decide!
  have hf : is_open_four ec heap (stone_placed edge_four_game 14 7) 14 7 = true := by
    rw [is_open_four_iff ec heap _ hwf1.size_lt hwf1.grid_len 14 7 (by decide!) (by decide!)]
    refine ⟨by decide!, ?_⟩
    have l1 := open_fours_lower_le ec heap (stone_placed edge_four_game 14 7).board
      (stone_placed edge_four_game 14 7).stone ((14 : Nat) : Int) ((7 : Nat) : Int) (1, 0)
    have l2 := open_fours_lower_le ec heap (stone_placed edge_four_game 14 7).board
      (stone_placed edge_four_game 14 7).stone ((14 : Nat) : Int) ((7 : Nat) : Int) (0, 1)
    omega
  have hnext : renju_next ec heap edge_four_game 14 7
      = { stone_placed edge_four_game 14 7 with
          state := GAME_STATE_FORBIDDEN, winner := WHITE_STONE } := by
    unfold renju_next
    rw [if_neg ho, if_neg h5, if_neg hd, if_pos hf]
  refine ⟨_, place_renju ec heap edge_four_game hwf (by decide!) (by decide!) 14 7
    (by decide!) (by decide!), ?_⟩
  rw [hnext]
  exact ⟨by decide!, by decide!, by decide!, by decide!, by decide!⟩

/-- C14, the code at a failing input.  On a 3 x 3 board the coordinates `(3, 0)` have
`x >= size`, yet `board_get` returns the content of the cell `(0, 1)` (Empty on the fresh
board, White once a white stone stands there) and `board_set` returns normally after
writing the stone into the cell `(0, 1)`: the guard of both is `x > size`. -/
theorem column_size_not_rejected (ec : error_codes) (heap : Nat → Nat) :
    board_get ec heap (board_create 3) 3 0 = EMPTY_INTERSECTION ∧
    board_get ec heap (with_stone (board_create 3) 0 1 WHITE_STONE) 3 0 = WHITE_STONE ∧
    grid_read (board_create 3) 3 0 = cell_at (board_create 3) 0 1 ∧
    cell_at (board_create 3) 0 1 = some EMPTY_INTERSECTION ∧
    ∃ b', board_set ec (board_create 3) 3 0 BLACK_STONE = outcome.ret () b' ∧
      cell_at b' 0 1 = some BLACK_STONE :=
  ⟨rfl, rfl, by decide, by decide, with_stone (board_create 3) 0 1 BLACK_STONE, rfl, by decide⟩

/-- C15 (set overwrites exactly one cell).  On a board (a grid of `size * size` bytes), for
a cell `(x, y)` of the board and a colour `c`, `board_set` returns; afterwards
`board_get` gives `c` at `(x, y)` and what it gave before at every other cell of the
board, and the size is unchanged. -/
theorem board_set_overwrites_one_cell (ec : error_codes) (heap : Nat → Nat) (b : board)
    (hlen : b.grid.length = b.size * b.size) (x y c : Nat)
    (hx : x < b.size) (hy : y < b.size) (hc : c = BLACK_STONE ∨ c = WHITE_STONE) :
    ∃ b', board_set ec b x y c = outcome.ret () b' ∧
      board_get ec heap b' x y = c ∧
      (∀ x' y' : Nat, x' < b.size → y' < b.size → ¬ (x' = x ∧ y' = y) →
        board_get ec heap b' x' y' = board_get ec heap b x' y') ∧
      b'.size = b.size ∧ b'.grid.length = b.grid.length := by
  refine ⟨with_stone b x y c, board_set_ok ec b x y c hc hx hy, ?_, ?_, rfl,
    with_stone_length b x y c⟩
  · rw [board_get_with_stone ec heap b hlen x y c hx hy x y hx hy, if_pos ⟨rfl, rfl⟩]
  · intro x' y' hx' hy' hne
    rw [board_get_with_stone ec heap b hlen x y c hx hy x' y' hx' hy', if_neg hne]

/-- Witness for C15: a white stone at `(1, 2)` of a fresh 3 x 3 board. -/
theorem board_set_overwrites_one_cell_witness :
    ∃ b', board_set sample_codes (board_create 3) 1 2 WHITE_STONE = outcome.ret () b' ∧
      board_get sample_codes zero_heap b' 1 2 = WHITE_STONE ∧ b'.size = 3 := by
  obtain ⟨b', h1, h2, _, h4, _⟩ := board_set_overwrites_one_cell sample_codes zero_heap
    (board_create 3) (by decide) 1 2 WHITE_STONE (by decide) (by decide) (Or.inr rfl)
  exact ⟨b', h1, h2, h4⟩

/-- C16 (`board_is_full`).  On a board (a grid of `size * size` bytes) `board_is_full`
returns `true` if and only if `board_get` finds every cell `(x, y)` with `x, y < size`
non-empty. -/
theorem board_is_full_characterisation (ec : error_codes) (heap : Nat → Nat) (b : board)
    (hlen : b.grid.length = b.size * b.size) :
    board_is_full b = true ↔
      ∀ x y : Nat, x < b.size → y < b.size → board_get ec heap b x y ≠ EMPTY_INTERSECTION :=
  board_is_full_iff_cells ec heap b hlen

/-- Witness for C16: a fresh 3 x 3 board is not full and has an empty cell. -/
theorem board_is_full_characterisation_witness :
    (board_is_full (board_create 3) = true ↔
      ∀ x y : Nat, x < (board_create 3).size → y < (board_create 3).size →
        board_get sample_codes zero_heap (board_create 3) x y ≠ EMPTY_INTERSECTION) ∧
    board_is_full (board_create 3) = false :=
  ⟨board_is_full_characterisation sample_codes zero_heap (board_create 3) (by decide),
    by decide⟩

/-- C17 (fresh board).  For `size >= 1`, `board_create(size)` is a board of that size, with
a grid of `size * size` bytes, on which `board_get` gives Empty at every cell and on which
`board_is_full` is `false`. -/
theorem board_create_is_empty (ec : error_codes) (heap : Nat → Nat) (size : Nat)
    (hsize : 1 ≤ size) :
    (board_create size).size = size ∧
    (board_create size).grid.length = size * size ∧
    (∀ x y : Nat, x < size → y < size →
      board_get ec heap (board_create size) x y = EMPTY_INTERSECTION) ∧
    board_is_full (board_create size) = false := by
  have hlen : (board_create size).grid.length
      = (board_create size).size * (board_create size).size := by
    simp [board_create]
  have hcell : ∀ x y : Nat, x < size → y < size →
      board_get ec heap (board_create size) x y = EMPTY_INTERSECTION := by
    intro x y hx hy
    have hg := board_get_eq_getElem? ec heap (board_create size) hlen x y hx hy
    have hidx : y * size + x < size * size := grid_index_lt _ _ _ hx hy
    simp only [board_create] at hg
    rw [List.getElem?_replicate, if_pos hidx] at hg
    exact (Option.some.inj hg).symm
  refine ⟨rfl, by simp [board_create], hcell, ?_⟩
  rw [← Bool.not_eq_true, board_is_full_iff_cells ec heap _ hlen]
  intro h
  exact h 0 0 (by show 0 < size; omega) (by show 0 < size; omega)
    (hcell 0 0 (by omega) (by omega))

/-- Witness for C17: the fresh 15 x 15 board. -/
theorem board_create_is_empty_witness :
    (board_create 15).size = 15 ∧
    board_get sample_codes zero_heap (board_create 15) 14 14 = EMPTY_INTERSECTION ∧
    board_is_full (board_create 15) = false := by
  obtain ⟨h1, _, h3, h4⟩ := board_create_is_empty sample_codes zero_heap 15 (by decide)
  exact ⟨h1, h3 14 14 (by decide) (by decide), h4⟩

/-- C18, the code at a failing input.  On a 15 x 15 board `board_formal_coord` succeeds for
column 0, row 0 and stores the characters `'A'`, `'0'` and NUL: the label reads "A0", its
second character is the digit of `y`, not of `y + 1`. -/
theorem formal_coord_row_digit_is_zero_based (ec : error_codes) :
    board_formal_coord ec (board_create 15) 0 0
      = (ec.SUCCESS % 256, some [CHAR_A, CHAR_0, 0]) ∧
    CHAR_0 ≠ CHAR_1 :=
  ⟨rfl, by decide⟩

/-- C19 (coordinate round trip).  On a board of size at most 26, for a cell `(x, y)` of
the board, `board_formal_coord` returns `SUCCESS` and stores a label, and `board_coord`
on that label returns `SUCCESS` and stores exactly `(x, y)`. -/
theorem coord_round_trip (ec : error_codes) (b : board) (x y : Nat)
    (hsize : b.size ≤ 26) (hx : x < b.size) (hy : y < b.size) :
    ∃ s, board_formal_coord ec b x y = (ec.SUCCESS % 256, some s) ∧
      board_coord ec b s = (ec.SUCCESS % 256, some (x, y)) := by
  refine ⟨[to_char (CHAR_A + x), to_char (CHAR_0 + y), 0], ?_, ?_⟩
  · unfold board_formal_coord
    rw [if_neg (by omega)]
  · have hcx : to_char (CHAR_A + x) = CHAR_A + x := to_char_small _ (by simp only [CHAR_A]; omega)
      (by simp only [CHAR_A]; omega)
    have hcy : to_char (CHAR_0 + y) = CHAR_0 + y :=
      to_char_small _ (by simp only [CHAR_0]; omega)
      (by simp only [CHAR_0]; omega)
    have h0 : char_at [to_char (CHAR_A + x), to_char (CHAR_0 + y), 0] 0 = CHAR_A + x := by
      rw [hcx]; rfl
    have h1 : char_at [to_char (CHAR_A + x), to_char (CHAR_0 + y), 0] 1 = CHAR_0 + y := by
      rw [hcy]; rfl
    unfold board_coord
    rw [h0, h1, if_neg (by simp; omega), if_neg (by simp; omega)]
    have e1 : to_uchar (CHAR_A + (x : Int) - CHAR_A) = x := by
      rw [show CHAR_A + (x : Int) - CHAR_A = (x : Int) by ring]
      exact to_uchar_of_lt x (by omega)
    have e2 : to_uchar (CHAR_0 + (y : Int) - CHAR_0) = y := by
      rw [show CHAR_0 + (y : Int) - CHAR_0 = (y : Int) by ring]
      exact to_uchar_of_lt y (by omega)
    rw [e1, e2]

/-- Witness for C19: the cell `(7, 7)` of a 15 x 15 board. -/
theorem coord_round_trip_witness :
    ∃ s, board_formal_coord sample_codes (board_create 15) 7 7
        = (sample_codes.SUCCESS % 256, some s) ∧
      board_coord sample_codes (board_create 15) s
        = (sample_codes.SUCCESS % 256, some (7, 7)) :=
  coord_round_trip sample_codes (board_create 15) 7 7 (by decide) (by decide) (by decide)

/-- C20 (translation never leaves the board).  `board_formal_coord` stores no label
exactly when `x >= size` or `y >= size`; it then returns `COORDINATE_ERR`, and `SUCCESS`
otherwise, so that, the two codes being different, it returns `COORDINATE_ERR` if and only
if `x >= size` or `y >= size`.  Whenever `board_coord` stores a pair `(x, y)` (the case in
which it returns `SUCCESS`), `x < size` and `y < size`. -/
theorem translation_stays_on_board (ec : error_codes) (b : board) :
    (∀ x y : Nat,
      ((board_formal_coord ec b x y).2 = none ↔ (x ≥ b.size ∨ y ≥ b.size)) ∧
      ((x ≥ b.size ∨ y ≥ b.size) → (board_formal_coord ec b x y).1 = ec.COORDINATE_ERR % 256) ∧
      (¬ (x ≥ b.size ∨ y ≥ b.size) → (board_formal_coord ec b x y).1 = ec.SUCCESS % 256) ∧
      (ec.SUCCESS % 256 ≠ ec.COORDINATE_ERR % 256 →
        ((board_formal_coord ec b x y).1 = ec.COORDINATE_ERR % 256
          ↔ (x ≥ b.size ∨ y ≥ b.size)))) ∧
    (∀ (s : List Int) (x y : Nat), (board_coord ec b s).2 = some (x, y) →
      (board_coord ec b s).1 = ec.SUCCESS % 256 ∧ x < b.size ∧ y < b.size) := by
  constructor
  · intro x y
    unfold board_formal_coord
    by_cases h : x ≥ b.size ∨ y ≥ b.size
    · rw [if_pos h]
      exact ⟨⟨fun _ => h, fun _ => rfl⟩, fun _ => rfl, fun hn => absurd h hn,
        fun _ => ⟨fun _ => h, fun _ => rfl⟩⟩
    · rw [if_neg h]
      refine ⟨⟨fun hn => Option.noConfusion hn, fun hh => absurd hh h⟩, fun hh => absurd hh h,
        fun _ => rfl, fun hne => ⟨fun he => absurd he hne, fun hh => absurd hh h⟩⟩
  · intro s x y hs
    unfold board_coord at hs ⊢
    by_cases h0 : char_at s 0 < CHAR_A ∨ char_at s 0 > CHAR_A + (b.size : Int) - 1
    · rw [if_pos h0] at hs; exact Option.noConfusion hs
    · rw [if_neg h0] at hs ⊢
      by_cases h1 : char_at s 1 < CHAR_0 ∨ char_at s 1 > CHAR_0 + (b.size : Int) - 1
      · rw [if_pos h1] at hs; exact Option.noConfusion hs
      · rw [if_neg h1] at hs ⊢
        simp only [Option.some.injEq, Prod.mk.injEq] at hs
        obtain ⟨hx, hy⟩ := hs
        refine ⟨rfl, ?_, ?_⟩
        · rw [← hx]; unfold to_uchar; simp only [CHAR_A] at h0 ⊢; omega
        · rw [← hy]; unfold to_uchar; simp only [CHAR_0] at h1 ⊢; omega

/-- Witness for C20: with the sample codes `board_formal_coord` returns the coordinate
error for `(15, 0)` on a 15 x 15 board, and `board_coord` on the label "H7" stores a
pair below 15. -/
theorem translation_stays_on_board_witness :
    ((board_formal_coord sample_codes (board_create 15) 15 0).1
        = sample_codes.COORDINATE_ERR % 256
      ↔ (15 ≥ (board_create 15).size ∨ 0 ≥ (board_create 15).size)) ∧
    (board_coord sample_codes (board_create 15) [72, 55]).2 = some (7, 7) ∧
    7 < (board_create 15).size :=
  ⟨((translation_stays_on_board sample_codes (board_create 15)).1 15 0).2.2.2 (by decide),
    by decide,
    ((translation_stays_on_board sample_codes (board_create 15)).2 [72, 55] 7 7
      (by decide)).2.1⟩

/-- C21, the code at a failing input.  The 15 x 15 Renju game `behind_grid_game` is
reached from `game_create` by the fourteen legal moves `behind_grid_moves` when the bytes
behind the grid are 1; it is in state `Playing`.  Its thirteenth move, Black at `(7, 14)`,
completes the column `(7, 11..14)`, for which `is_open_four` reads the byte `grid[232]`
behind the grid.  From the text `game_export` writes for this game, `game_import` with
zero bytes behind the grid rebuilds no game: the replayed thirteenth move leaves the state
`Forbidden` and the fourteenth call of `game_place_stone` exits with `INPUT_ERR`.  With
bytes 1 behind the grid `game_import` returns the exported game. -/
theorem import_depends_on_byte_behind_grid :
    legal_moves sample_codes one_heap (game_create 15 GAME_RENJU) behind_grid_moves = true ∧
    game_after sample_codes one_heap (game_create 15 GAME_RENJU) behind_grid_moves
      = behind_grid_game ∧
    reachable sample_codes one_heap behind_grid_game ∧
    behind_grid_game.state = GAME_STATE_PLAYING ∧
    ∀ (FILE_INPUT_ERR : Nat) (stack : Nat → Int),
      game_import sample_codes FILE_INPUT_ERR zero_heap stack (game_export behind_grid_game)
        = outcome.exit sample_codes.INPUT_ERR () ∧
      game_import sample_codes FILE_INPUT_ERR one_heap stack (game_export behind_grid_game)
        = outcome.ret behind_grid_game () := by
  have hafter : game_after sample_codes one_heap (game_create 15 GAME_RENJU)
      behind_grid_moves = behind_grid_game := by decide!
  have hreach : reachable sample_codes one_heap behind_grid_game := by
    have h := reachable_game_after sample_codes one_heap behind_grid_moves _
      (reachable.create 15 GAME_RENJU (by decide) (by decide)) (by decide!)
    rwa [hafter] at h
  refine ⟨by decide!, hafter, hreach, rfl, ?_⟩
  intro FILE_INPUT_ERR stack
  constructor
  · rw [import_of_export sample_codes FILE_INPUT_ERR zero_heap stack behind_grid_game
      (by decide!) (by decide!) (by decide!) (by decide!) (by decide!)]
    decide!
  · have h := import_export sample_codes FILE_INPUT_ERR one_heap stack behind_grid_game
      hreach (by decide!) behind_grid_game.state (by decide!)
    exact h

/-- C22, the code at a failing input.  The 15 x 15 Renju game `behind_grid_game` is
reached from `game_create` by the fourteen legal moves `behind_grid_moves`, its history,
when the bytes behind the grid are 1; it is in state `Playing`.  Replayed on the fresh
15 x 15 Renju game with zero bytes behind the grid, the thirteenth move, Black at
`(7, 14)`, leaves the state `Forbidden` with winner White, because `is_open_four` reads
the byte `grid[232]` behind the grid, and the fourteenth call hits the not-`Playing` exit
with thirteen moves replayed.  Replayed with bytes 1 behind the grid the history gives the
game back. -/
theorem replay_depends_on_byte_behind_grid :
    reachable sample_codes one_heap behind_grid_game ∧
    behind_grid_game.state = GAME_STATE_PLAYING ∧
    behind_grid_game.moves = behind_grid_moves ∧
    place_all sample_codes zero_heap
        (game_create behind_grid_game.board.size behind_grid_game.type)
        behind_grid_game.moves
      = outcome.exit sample_codes.INPUT_ERR
        { stone_placed top_edge_game 7 14 with
          state := GAME_STATE_FORBIDDEN, winner := WHITE_STONE } ∧
    place_all sample_codes one_heap
        (game_create behind_grid_game.board.size behind_grid_game.type)
        behind_grid_game.moves
      = outcome.ret true behind_grid_game := by
  have hreach : reachable sample_codes one_heap behind_grid_game := by
    have h := reachable_game_after sample_codes one_heap behind_grid_moves _
      (reachable.create 15 GAME_RENJU (by decide) (by decide)) (by decide!)
    rwa [show game_after sample_codes one_heap (game_create 15 GAME_RENJU) behind_grid_moves
      = behind_grid_game by decide!] at h
  have hexit : place_all sample_codes zero_heap
        (game_create behind_grid_game.board.size behind_grid_game.type)
        behind_grid_game.moves
      = outcome.exit sample_codes.INPUT_ERR
        { stone_placed top_edge_game 7 14 with
          state := GAME_STATE_FORBIDDEN, winner := WHITE_STONE } := by decide!
  exact ⟨hreach, rfl, rfl, hexit,
    (replay_in_same_memory sample_codes one_heap behind_grid_game hreach).1⟩

/-- C23 (Renju does not restrict White).  In a Renju game in state `Playing` with White
to move, a placement on a cell `(x, y)` of the board returns `true` leaving the board with
the white stone written; if on that board some direction has a contiguous run of 5 or more
white stones through `(x, y)` (a run of 6 or more is one), the state left is `Finished`
and the winner is White; and whatever the board, the state left is not `Forbidden`. -/
theorem renju_white_unrestricted (ec : error_codes) (heap : Nat → Nat) (g : game)
    (hwf : g.wf) (htype : g.type = GAME_RENJU)
    (hstate : g.state = GAME_STATE_PLAYING) (hwhite : g.stone = WHITE_STONE)
    (x y : Nat) (hx : x < g.board.size) (hy : y < g.board.size) :
    ∃ g', game_place_stone ec heap g x y = outcome.ret true g' ∧
      g'.board = with_stone g.board x y WHITE_STONE ∧
      (run_through g'.board WHITE_STONE x y 5 →
        g'.state = GAME_STATE_FINISHED ∧ g'.winner = WHITE_STONE) ∧
      (run_through g'.board WHITE_STONE x y 6 →
        g'.state = GAME_STATE_FINISHED ∧ g'.winner = WHITE_STONE) ∧
      g'.state ≠ GAME_STATE_FORBIDDEN := by
  have ho : ¬ is_overline ec heap (stone_placed g x y) x y = true :=
    fun h => is_overline_black ec heap (stone_placed g x y) x y h hwhite
  have hf : ¬ is_open_four ec heap (stone_placed g x y) x y = true :=
    fun h => is_open_four_black ec heap (stone_placed g x y) x y h hwhite
  have hfive : run_through (renju_next ec heap g x y).board WHITE_STONE x y 5 →
      (renju_next ec heap g x y).state = GAME_STATE_FINISHED
        ∧ (renju_next ec heap g x y).winner = WHITE_STONE := by
    rw [renju_next_board, ← stone_placed_board, ← hwhite]
    intro hr
    unfold renju_next
    rw [if_neg ho, if_pos hr]
    exact ⟨rfl, rfl⟩
  refine ⟨_, place_renju ec heap g hwf htype hstate x y hx hy, ?_, hfive, ?_, ?_⟩
  · rw [renju_next_board, hwhite]
  · intro h6
    exact hfive (run_through_mono _ _ _ _ 5 (by decide) h6)
  · unfold renju_next
    rw [if_neg ho]
    by_cases h1 : run_through (stone_placed g x y).board g.stone x y 5
    · rw [if_pos h1]; simp
    · rw [if_neg h1]
      by_cases h2 : game_check_draw (stone_placed g x y) = true
      · rw [if_pos h2]; simp
      · rw [if_neg h2, if_neg hf]
        show g.state ≠ GAME_STATE_FORBIDDEN
        rw [hstate]; decide

/-- Witness for C23: White completes five in column 0 of a 5 x 5 Renju board. -/
theorem renju_white_unrestricted_witness :
    ∃ g', game_place_stone sample_codes zero_heap
        { four_in_column GAME_RENJU with
          board := { size := 5, grid := [2, 1, 0, 0, 0, 2, 1, 0, 0, 0, 2, 1, 0, 0, 0,
                                         2, 1, 0, 0, 0, 0, 0, 0, 0, 1] }
          stone := WHITE_STONE
          moves := (four_in_column GAME_RENJU).moves ++ [⟨4, 4⟩] } 0 4
        = outcome.ret true g' ∧
      run_through g'.board WHITE_STONE 0 4 5 ∧
      g'.state = GAME_STATE_FINISHED ∧ g'.winner = WHITE_STONE := by
  obtain ⟨g', h1, h2, h3, _⟩ := renju_white_unrestricted sample_codes zero_heap
    { four_in_column GAME_RENJU with
      board := { size := 5, grid := [2, 1, 0, 0, 0, 2, 1, 0, 0, 0, 2, 1, 0, 0, 0,
                                     2, 1, 0, 0, 0, 0, 0, 0, 0, 1] }
      stone := WHITE_STONE
      moves := (four_in_column GAME_RENJU).moves ++ [⟨4, 4⟩] }
    (by decide) rfl rfl rfl 0 4 (by decide) (by decide)
  have hrun : run_through g'.board WHITE_STONE 0 4 5 := by rw [h2]; decide
  exact ⟨g', h1, hrun, h3 hrun⟩

/-- C24, the code at a failing input.  The 15 x 15 Renju game `top_edge_game` is reached
from `game_create` by the twelve legal moves `top_edge_moves`; Black is to move and
`(7, 14)` is an empty cell of the board.  The stone there completes the column
`(7, 11..14)`, which ends at the top edge, and for it `is_open_four` calls
`board_get(7, 15)`: the guard `y > size` lets it pass and the byte read has the index
`15 * 15 + 7`, outside the grid of `15 * 15` bytes.  What `game_place_stone` returns
depends on that byte: with zero bytes behind the grid the state left is `Forbidden`, with
bytes 1 behind the grid it is `Playing`. -/
theorem open_four_reads_outside_grid :
    legal_moves sample_codes zero_heap (game_create 15 GAME_RENJU) top_edge_moves = true ∧
    game_after sample_codes zero_heap (game_create 15 GAME_RENJU) top_edge_moves
      = top_edge_game ∧
    top_edge_game.type = GAME_RENJU ∧
    top_edge_game.state = GAME_STATE_PLAYING ∧
    top_edge_game.stone = BLACK_STONE ∧
    cell_at top_edge_game.board 7 14 = some EMPTY_INTERSECTION ∧
    grid_read (stone_placed top_edge_game 7 14).board 7 15 = none ∧
    (∀ heap : Nat → Nat, memory_read heap (stone_placed top_edge_game 7 14).board 7 15
      = some (heap (15 * 15 + 7) % 256)) ∧
    (stone_placed top_edge_game 7 14).board.grid.length = 15 * 15 ∧
    ∀ ec : error_codes,
      (∃ g', game_place_stone ec zero_heap top_edge_game 7 14 = outcome.ret true g' ∧
        g'.state = GAME_STATE_FORBIDDEN ∧ g'.winner = WHITE_STONE) ∧
      (∃ g', game_place_stone ec one_heap top_edge_game 7 14 = outcome.ret true g' ∧
        g'.state = GAME_STATE_PLAYING ∧ g'.winner = EMPTY_INTERSECTION) := by
  refine ⟨by decide!, by decide!, by decide!, by decide!, by decide!, by decide!, by decide!,
    ?_, by decide!, ?_⟩
  · intro heap
    unfold memory_read
    rw [if_neg (by decide!)]
    have hlen : (stone_placed top_edge_game 7 14).board.grid.length = 225 := by decide!
    have hs : (stone_placed top_edge_game 7 14).board.size = 15 := by decide!
    rw [hs, List.getD_eq_getElem?_getD, List.getElem?_eq_none (by rw [hlen]; decide)]
    rfl
  intro ec
  have hwf : top_edge_game.wf := by decide!
  have hwf1 := stone_placed_wf top_edge_game hwf 7 14
  have h5 : ¬ run_through (stone_placed top_edge_game 7 14).board
      top_edge_game.stone 7 14 5 := by decide!
  have h6 : ¬ run_through (stone_placed top_edge_game 7 14).board
      top_edge_game.stone 7 14 6 := by decide!
  have hd : ¬ game_check_draw (stone_placed top_edge_game 7 14) = true := by decide!
  constructor
  · have ho := is_overline_false_of_no_run ec zero_heap top_edge_game hwf 7 14 (by decide!)
      (by decide!) h6
    have hlow : 1 < open_fours_passed zero_heap (stone_placed top_edge_game 7 14).board
          (stone_placed top_edge_game 7 14).stone ((7 : Nat) : Int) ((14 : Nat) : Int) (1, 0)
        + open_fours_passed zero_heap (stone_placed top_edge_game 7 14).board
          (stone_placed top_edge_game 7 14).stone ((7 : Nat) : Int) ((14 : Nat) : Int) (0, 1)
        := by decide!
    have hf : is_open_four ec zero_heap (stone_placed top_edge_game 7 14) 7 14 = true := by
      rw [is_open_four_iff ec zero_heap _ hwf1.size_lt hwf1.grid_len 7 14 (by decide!)
        (by decide!)]
      refine ⟨by decide!, ?_⟩
      have l1 := open_fours_passed_le ec zero_heap (stone_placed top_edge_game 7 14).board
        (stone_placed top_edge_game 7 14).stone ((7 : Nat) : Int) ((14 : Nat) : Int) (1, 0)
      have l2 := open_fours_passed_le ec zero_heap (stone_placed top_edge_game 7 14).board
        (stone_placed top_edge_game 7 14).stone ((7 : Nat) : Int) ((14 : Nat) : Int) (0, 1)
      omega
    have hnext : renju_next ec zero_heap top_edge_game 7 14
        = { stone_placed top_edge_game 7 14 with
            state := GAME_STATE_FORBIDDEN, winner := WHITE_STONE } := by
      unfold renju_next
      rw [if_neg ho, if_neg h5, if_neg hd, if_pos hf]
    refine ⟨_, place_renju ec zero_heap top_edge_game hwf (by decide!) (by decide!) 7 14
      (by decide!) (by decide!), ?_⟩
    rw [hnext]
    exact ⟨rfl, rfl⟩
  · have ho := is_overline_false_of_no_run ec one_heap top_edge_game hwf 7 14 (by decide!)
      (by decide!) h6
    have hup : open_fours_allowed one_heap (stone_placed top_edge_game 7 14).board
          (stone_placed top_edge_game 7 14).stone ((7 : Nat) : Int) ((14 : Nat) : Int) (1, 0)
        + open_fours_allowed one_heap (stone_placed top_edge_game 7 14).board
          (stone_placed top_edge_game 7 14).stone ((7 : Nat) : Int) ((14 : Nat) : Int) (0, 1)
        + open_fours_allowed one_heap (stone_placed top_edge_game 7 14).board
          (stone_placed top_edge_game 7 14).stone ((7 : Nat) : Int) ((14 : Nat) : Int) (1, 1)
        + open_fours_allowed one_heap (stone_placed top_edge_game 7 14).board
          (stone_placed top_edge_game 7 14).stone ((7 : Nat) : Int) ((14 : Nat) : Int) (1, -1)
        ≤ 1 := by decide!
    have hf : ¬ is_open_four ec one_heap (stone_placed top_edge_game 7 14) 7 14 = true := by
      rw [is_open_four_iff ec one_heap _ hwf1.size_lt hwf1.grid_len 7 14 (by decide!)
        (by decide!)]
      rintro ⟨_, hlt⟩
      have u1 := open_fours_le_allowed ec one_heap (stone_placed top_edge_game 7 14).board
        (stone_placed top_edge_game 7 14).stone ((7 : Nat) : Int) ((14 : Nat) : Int) (1, 0)
      have u2 := open_fours_le_allowed ec one_heap (stone_placed top_edge_game 7 14).board
        (stone_placed top_edge_game 7 14).stone ((7 : Nat) : Int) ((14 : Nat) : Int) (0, 1)
      have u3 := open_fours_le_allowed ec one_heap (stone_placed top_edge_game 7 14).board
        (stone_placed top_edge_game 7 14).stone ((7 : Nat) : Int) ((14 : Nat) : Int) (1, 1)
      have u4 := open_fours_le_allowed ec one_heap (stone_placed top_edge_game 7 14).board
        (stone_placed top_edge_game 7 14).stone ((7 : Nat) : Int) ((14 : Nat) : Int) (1, -1)
      omega
    have hnext : renju_next ec one_heap top_edge_game 7 14
        = { stone_placed top_edge_game 7 14 with
            stone := toggle top_edge_game.stone } := by
      unfold renju_next
      rw [if_neg ho, if_neg h5, if_neg hd, if_neg hf]
    refine ⟨_, place_renju ec one_heap top_edge_game hwf (by decide!) (by decide!) 7 14
      (by decide!) (by decide!), ?_⟩
    rw [hnext]
    exact ⟨rfl, rfl⟩

/-- C25, the code at a failing input.  The saved game `stopped_at_start` has state
`Stopped`, ruleset Freestyle and an empty history, `moves_count = 0`.  On it `game_replay`
does call `game_place_stone`: the bound `g->moves_count - 1` of its loop is computed in
`size_t` and is `2 ^ 64 - 1`, so the loop is entered and the first call gets the
coordinates found in `g->moves[0]`, an entry of the buffer that holds no move of the
history.  The saved game is left unchanged. -/
theorem replay_of_empty_history_places_a_stone :
    stopped_at_start.state = GAME_STATE_STOPPED ∧
    stopped_at_start.type = GAME_FREESTYLE ∧
    stopped_at_start.moves_count = 0 ∧
    moves_count_minus_one stopped_at_start = 2 ^ 64 - 1 ∧
    ∀ (ec : error_codes) (heap : Nat → Nat) (junk : Nat → move),
      (game_replay ec heap junk stopped_at_start).final.g = stopped_at_start ∧
      ∃ more, (game_replay ec heap junk stopped_at_start).final.calls = junk 0 :: more := by
  refine ⟨rfl, rfl, rfl, by decide, ?_⟩
  intro ec heap junk
  have hm : moves_count_minus_one stopped_at_start = 2 ^ 64 - 1 := by decide
  obtain ⟨rest, h1, h2⟩ := replay_loop_calls ec heap junk stopped_at_start (2 ^ 64 - 1) 0
    (game_create stopped_at_start.board.size stopped_at_start.type) []
  obtain ⟨more, h3⟩ := h2 (by decide)
  have hj : moves_entry junk stopped_at_start 0 = junk 0 := rfl
  rw [h3, hj, List.nil_append] at h1
  unfold game_replay
  rw [if_neg (by decide), if_neg (by decide), hm]
  cases h : replay_loop ec heap junk stopped_at_start (2 ^ 64 - 1) 0
      (game_create stopped_at_start.board.size stopped_at_start.type) [] with
  | exit code s =>
    rw [h] at h1
    exact ⟨rfl, more, h1⟩
  | ret u s =>
    rw [h] at h1
    have h1' : s.2 = junk 0 :: more := h1
    dsimp only
    cases h2 : game_place_stone ec heap s.1
        (moves_entry junk stopped_at_start (2 ^ 64 - 1)).x
        (moves_entry junk stopped_at_start (2 ^ 64 - 1)).y with
    | exit code s2 =>
      dsimp only
      refine ⟨rfl, more ++ [moves_entry junk stopped_at_start (2 ^ 64 - 1)], ?_⟩
      show s.2 ++ _ = _
      rw [h1']; rfl
    | ret r s2 =>
      dsimp only
      refine ⟨rfl, more ++ [moves_entry junk stopped_at_start (2 ^ 64 - 1)], ?_⟩
      show s.2 ++ _ = _
      rw [h1']; rfl

/-- C26 (no false wins).  On a game whose board has the stone at the cell `(x, y)` looked
at, each of the two win checks returns `true` only if some direction has 5 consecutive
cells of the board, `(x, y)` among them, that all hold the colour in `stone`.  Hence, for
a game reached from `game_create` by placements on empty cells and in state `Playing`, a
call of `game_place_stone` on a cell of the board that leaves the state `Finished` with
the mover as winner has completed a run of 5 or more through the placed stone. -/
theorem no_false_win :
    (∀ (ec : error_codes) (heap : Nat → Nat) (g : game) (x y : Nat), g.wf →
      x < g.board.size → y < g.board.size →
      (game_check_win_freestyle ec heap g x y = true → run_through g.board g.stone x y 5) ∧
      ((game_check_win_renju ec heap g x y).1 = true → run_through g.board g.stone x y 5) ∧
      ((game_check_win ec heap g x y).1 = true → run_through g.board g.stone x y 5)) ∧
    (∀ (ec : error_codes) (heap : Nat → Nat) (g g' : game) (x y : Nat) (r : Bool),
      reachable ec heap g → g.state = GAME_STATE_PLAYING →
      x < g.board.size → y < g.board.size →
      game_place_stone ec heap g x y = outcome.ret r g' →
      g'.state = GAME_STATE_FINISHED → g'.winner = g.stone →
      g'.board = with_stone g.board x y g.stone ∧ run_through g'.board g.stone x y 5) := by
  constructor
  · intro ec heap g x y hwf hx hy
    refine ⟨(game_check_win_freestyle_iff ec heap g hwf.size_lt hwf.grid_len x y hx hy).mp,
      (game_check_win_renju_iff ec heap g hwf.size_lt hwf.grid_len x y hx hy).mp, ?_⟩
    intro h
    unfold game_check_win at h
    by_cases hF : g.type = GAME_FREESTYLE
    · rw [if_pos hF] at h
      by_cases hw : game_check_win_freestyle ec heap g x y = true
      · exact (game_check_win_freestyle_iff ec heap g hwf.size_lt hwf.grid_len x y hx hy).mp hw
      · rw [if_neg hw] at h; exact absurd h (by simp)
    · rw [if_neg hF] at h
      by_cases hR : g.type = GAME_RENJU
      · rw [if_pos hR] at h
        by_cases hw : (game_check_win_renju ec heap g x y).1 = true
        · exact (game_check_win_renju_iff ec heap g hwf.size_lt hwf.grid_len x y hx hy).mp hw
        · rw [if_neg hw] at h; exact absurd h (by simp)
      · rw [if_neg hR] at h; exact absurd h (by simp)
  · intro ec heap g g' x y r hreach hstate hx hy hplace hfin hwin
    have hinv := reachable_inv ec heap g hreach
    have hw0 := hinv.winner_none hstate
    have hne : g.stone ≠ EMPTY_INTERSECTION := by
      rcases hinv.wf.stone_ok with h | h <;> rw [h] <;> decide
    rcases place_result ec heap g g' x y r hinv.wf hstate hx hy hplace with h | h | h
    · rw [h.1, hstate] at hfin; exact absurd hfin (by decide)
    · obtain ⟨_, rfl⟩ := h
      rw [freestyle_next_board, ← stone_placed_board]
      refine ⟨rfl, ?_⟩
      by_contra hr
      unfold freestyle_next at hfin hwin
      rw [if_neg hr] at hfin hwin
      by_cases h2 : game_check_draw (stone_placed g x y) = true
      · rw [if_pos h2] at hwin
        exact hne (hwin.symm.trans hw0)
      · rw [if_neg h2] at hfin
        exact absurd (hstate ▸ hfin : GAME_STATE_PLAYING = GAME_STATE_FINISHED) (by decide)
    · obtain ⟨_, rfl⟩ := h
      rw [renju_next_board, ← stone_placed_board]
      refine ⟨rfl, ?_⟩
      by_contra hr
      unfold renju_next at hfin hwin
      by_cases h0 : is_overline ec heap (stone_placed g x y) x y = true
      · rw [if_pos h0] at hfin; exact absurd hfin (by simp)
      · rw [if_neg h0, if_neg hr] at hfin hwin
        by_cases h2 : game_check_draw (stone_placed g x y) = true
        · rw [if_pos h2] at hwin
          exact hne (hwin.symm.trans hw0)
        · rw [if_neg h2] at hfin
          by_cases h3 : is_open_four ec heap (stone_placed g x y) x y = true
          · rw [if_pos h3] at hfin; exact absurd hfin (by simp)
          · rw [if_neg h3] at hfin
            exact absurd (hstate ▸ hfin : GAME_STATE_PLAYING = GAME_STATE_FINISHED)
              (by decide)

/-- Witness for C26: the Freestyle win check is `true` on the 5 x 5 board with five black
stones in column 0, and the run is there. -/
theorem no_false_win_witness :
    game_check_win_freestyle sample_codes zero_heap
        (stone_placed (four_in_column GAME_FREESTYLE) 0 4) 0 4 = true ∧
    run_through (stone_placed (four_in_column GAME_FREESTYLE) 0 4).board BLACK_STONE 0 4 5 :=
  ⟨by decide,
    (no_false_win.1 sample_codes zero_heap (stone_placed (four_in_column GAME_FREESTYLE) 0 4)
      0 4 (by decide) (by decide) (by decide)).1 (by decide)⟩

/-- C27 (the game never continues past a five).  In a game of either ruleset reached from
`game_create` by placements made in state `Playing` on empty cells of the board, if the
state is `Playing` then no five consecutive cells of a row, a column or a diagonal hold
stones of one colour. -/
theorem no_five_while_playing (ec : error_codes) (heap : Nat → Nat) (g : game)
    (h : reachable ec heap g) (hstate : g.state = GAME_STATE_PLAYING) :
    ∀ (c : Nat) (x y : Int) (d : Int × Int), d ∈ directions → c ≠ EMPTY_INTERSECTION →
      ¬ (∀ t : Nat, t < 5 →
        cell_at g.board (x + (t : Int) * d.1) (y + (t : Int) * d.2) = some c) :=
  (reachable_inv ec heap g h).no_run hstate

/-- Witness for C27: in `double_four_game` the three black stones of row 7 from `(4, 7)`
on are not five. -/
theorem no_five_while_playing_witness :
    ¬ (∀ t : Nat, t < 5 →
      cell_at double_four_game.board ((4 : Int) + (t : Int) * 1) ((7 : Int) + (t : Int) * 0)
        = some BLACK_STONE) := by
  have hreach : reachable sample_codes zero_heap double_four_game := by
    have h := reachable_game_after sample_codes zero_heap double_four_moves _
      (reachable.create 15 GAME_RENJU (by decide) (by decide)) (by decide!)
    rwa [show game_after sample_codes zero_heap (game_create 15 GAME_RENJU) double_four_moves
      = double_four_game by decide!] at h
  exact no_five_while_playing sample_codes zero_heap double_four_game hreach rfl BLACK_STONE
    4 7 (1, 0) (by decide) (by decide)
end Gomoku
